import Mathlib

/-!
# qproxy: admission and session-placement engine

A shallow embedding of `pkg/qproxy` (session.go, backend.go, config.go, qproxy.go,
proxy_handler.go).

Conventions of the embedding.

* Instants (`time.Time`) and durations (`time.Duration`) are integers counting nanoseconds.
  Every engine operation runs under the sessions lock; the clock readings it makes are
  identified with the one instant `now` passed to it.
* A Go `int` or `int64` is an integer of the 64-bit range. Where the code computes with
  them and the exact result can leave that range, the result is wrapped as two's complement
  arithmetic does: `subLen` for `maxSessions - len`, `wrapInt` for the sum `freeSlots` and
  for the products by `time.Second`.
* A `float64` weight is a finite value (a rational: every finite float is one, with the same
  order), an infinity or NaN, compared as IEEE 754 says; a draw of `rand.Float64` is finite.
* A run-time panic is an outcome of its own (`failure.panic`), distinct from a returned
  error. For the operations whose result is a state, the state given is the one reached
  when the panic is raised, and a predicate tells that case (`QProxy.updatePanics`,
  `QProxy.updateOutcome`).
* Pointers to backends are positions in the published backend slice; a pointer to a session
  is the session's place in its store, so `session.update` rewrites the stored session.
* Random choices (`rand.Shuffle`, `rand.Float64`), generated ids (`xid.New`), the clock and
  the parsers of the standard library are inputs of the operations.
* A request is handled in one step: the lookups and the admission it makes are not
  interleaved with other requests.
* A `viper` sub-instance (`Sub`) is a new instance at every call: a default set on one is
  not seen by the next.
-/

namespace qproxy

/-! ## Machine values -/

/-- Value of a Go `int` (64 bits, two's complement) after an operation whose exact result
is `x`: the integer of the range from -2^63 to 2^63 - 1 congruent to `x` modulo 2^64. -/
def wrapInt (x : Int) : Int :=
  (x + 9223372036854775808) % 18446744073709551616 - 9223372036854775808

/-- Value of the Go expression `maxSessions - len`, `len` being the length of a slice: a
length is never negative, so the exact difference can only fall below the least `int`,
and it then wraps around by 2^64. -/
def subLen (maxSessions len : Int) : Int :=
  if maxSessions - len < -9223372036854775808 then maxSessions - len + 18446744073709551616
  else maxSessions - len

/-- A Go `float64` as the comparisons of the code see it: a finite value, an infinity or
NaN. -/
inductive float64 where
  | finite (q : ℚ)
  | posInf
  | negInf
  | nan
deriving DecidableEq, Repr

/-- Go comparison `x < y` of two `float64`: false as soon as one of them is NaN. -/
def float64.lt : float64 → float64 → Bool
  | float64.finite a, float64.finite b => decide (a < b)
  | float64.finite _, float64.posInf => true
  | float64.negInf, float64.finite _ => true
  | float64.negInf, float64.posInf => true
  | _, _ => false

/-- Go comparison `x <= y` of two `float64`: false as soon as one of them is NaN. -/
def float64.le : float64 → float64 → Bool
  | float64.finite a, float64.finite b => decide (a ≤ b)
  | float64.finite _, float64.posInf => true
  | float64.negInf, float64.finite _ => true
  | float64.negInf, float64.posInf => true
  | float64.posInf, float64.posInf => true
  | float64.negInf, float64.negInf => true
  | _, _ => false

/-- Go negation of a `float64`. -/
def float64.neg : float64 → float64
  | float64.finite q => float64.finite (-q)
  | float64.posInf => float64.negInf
  | float64.negInf => float64.posInf
  | float64.nan => float64.nan

instance : LT float64 := ⟨fun a b => float64.lt a b = true⟩

instance : LE float64 := ⟨fun a b => float64.le a b = true⟩

instance (a b : float64) : Decidable (a < b) :=
  inferInstanceAs (Decidable (float64.lt a b = true))

instance (a b : float64) : Decidable (a ≤ b) :=
  inferInstanceAs (Decidable (float64.le a b = true))

instance (n : Nat) : OfNat float64 n := ⟨float64.finite n⟩

instance : Neg float64 := ⟨float64.neg⟩

instance : Coe ℚ float64 := ⟨float64.finite⟩

/-- What a call yields when it does not end well: the error it returns, or the run-time
panic it raises. -/
inductive failure where
  | error (msg : String)
  | panic (msg : String)
deriving DecidableEq, Repr

/-- Message of the panic raised by a method called on a nil pointer. -/
def nilDereference : String := "runtime error: invalid memory address or nil pointer dereference"

/-- Message of the panic raised by a slice expression with a negative bound. -/
def sliceBounds : String := "runtime error: slice bounds out of range"

/-! ## session.go -/

/-- Type `session` of session.go: the id and the instant held by `atomicExpiration`. -/
structure session where
  id : String
  expiration : Int
deriving DecidableEq, Repr

/-- Function `newSession`: a session with the given id expiring `ttl` after `now`. -/
def newSession (id : String) (ttl : Int) (now : Int) : session :=
  { id := id, expiration := now + ttl }

/-- Method `session.update`: the expiration becomes `now + ttl`. -/
def session.update (s : session) (ttl : Int) (now : Int) : session :=
  { s with expiration := now + ttl }

/-- Type `sessionStore` of session.go: the ordered slice of sessions. -/
structure sessionStore where
  sessions : List session
deriving DecidableEq, Repr

/-- Function `newSessionStore`: the empty store. -/
def newSessionStore : sessionStore := { sessions := [] }

/-- Method `sessionStore.load`: the first session with the given id, by linear scan. -/
def sessionStore.load (store : sessionStore) (id : String) : Option session :=
  store.sessions.find? (fun s => s.id == id)

/-- Method `sessionStore.store`: the existing session with that id when there is one,
else the session is appended and returned. -/
def sessionStore.store (store : sessionStore) (s : session) : sessionStore × session :=
  match store.load s.id with
  | some e => (store, e)
  | none => ({ sessions := store.sessions ++ [s] }, s)

/-- Filtering loop of `removeExpired` over the backing array `arr` of the slice: `n`
iterations are left, `i` is the position read and `w` the length of the slice `sessions`
rebuilt in place from position 0; a session expiring after `now` is written at `w`. -/
def removeExpiredLoop (now : Int) : Nat → List session → Nat → Nat → List session × Nat
  | 0, arr, _, w => (arr, w)
  | n + 1, arr, i, w =>
    match arr[i]? with
    | some s =>
      if now < s.expiration then removeExpiredLoop now n (arr.set w s) (i + 1) (w + 1)
      else removeExpiredLoop now n arr (i + 1) w
    | none => removeExpiredLoop now n arr (i + 1) w

/-- Method `sessionStore.removeExpired`: nothing to do on an empty store; else the
sessions are filtered in place and the store becomes the rebuilt slice (the positions
past its end, which the code sets to nil, are outside of it). -/
def sessionStore.removeExpired (store : sessionStore) (now : Int) : sessionStore :=
  if store.sessions.length = 0 then store
  else
    let r := removeExpiredLoop now store.sessions.length store.sessions 0 0
    { sessions := r.1.take r.2 }

/-- Method `sessionStore.pop`: splits off the first `size` sessions (all of them when
`size` exceeds the length); returns them and the remaining store. -/
def sessionStore.pop (store : sessionStore) (size : Nat) : List session × sessionStore :=
  let size := if size > store.sessions.length then store.sessions.length else size
  (store.sessions.take size, { sessions := store.sessions.drop size })

/-- Method `sessionStore.unshift`: prepends the session unless its id is present. -/
def sessionStore.unshift (store : sessionStore) (s : session) : sessionStore × Bool :=
  match store.load s.id with
  | some _ => (store, false)
  | none => ({ sessions := s :: store.sessions }, true)

/-- Method `sessionStore.len`. -/
def sessionStore.len (store : sessionStore) : Int := store.sessions.length

/-- Effect of `session.update` through the pointer returned by `load`: the first session
with the given id has its expiration set to `now + ttl`; the others are untouched. -/
def updateFirst (id : String) (ttl : Int) (now : Int) : List session → List session
  | [] => []
  | s :: rest =>
    if s.id == id then s.update ttl now :: rest else s :: updateFirst id ttl now rest

/-- Store after `load(id)` followed by `update(ttl)` on the session found. -/
def sessionStore.refresh (store : sessionStore) (id : String) (ttl : Int) (now : Int) :
    sessionStore :=
  { sessions := updateFirst id ttl now store.sessions }

/-! ## backend.go -/

/-- Type `backendConfig` of config.go. -/
structure backendConfig where
  url : String
  sessionTTL : Int
  maxSessions : Int
  tlsInsecure : Bool
  weight : float64
deriving DecidableEq, Repr

/-- Type `backend` of backend.go (the reverse-proxy handler is determined by `url` and
the configuration and is left out). -/
structure backend where
  name : String
  url : String
  weight : float64
  sessionTTL : Int
  maxSessions : Int
  sessionStore : sessionStore
deriving DecidableEq, Repr

/-- Function `newBackend`: fails when the url does not parse; adopts `store` when one is
given and starts from an empty store otherwise. -/
def newBackend (urlParse : String → Option String) (name : String) (config : backendConfig)
    (store : Option sessionStore) : Except String backend :=
  match urlParse config.url with
  | none => Except.error ("parse " ++ config.url)
  | some proxyURL =>
    Except.ok
      { name := name
        url := proxyURL
        weight := config.weight
        sessionTTL := config.sessionTTL
        maxSessions := config.maxSessions
        sessionStore := match store with
          | none => newSessionStore
          | some st => st }

/-- Method `backend.removeExpiredSessions`. -/
def backend.removeExpiredSessions (b : backend) (now : Int) : backend :=
  { b with sessionStore := b.sessionStore.removeExpired now }

/-- Method `backend.remainingPlaces`: the `int` difference `maxSessions - len`, and 0 when
that is negative. -/
def backend.remainingPlaces (b : backend) : Int :=
  let remainingPlaces := subLen b.maxSessions b.sessionStore.len
  if remainingPlaces < 0 then 0 else remainingPlaces

/-- Method `backend.loadSession`. -/
def backend.loadSession (b : backend) (id : String) : Option session :=
  b.sessionStore.load id

/-- Method `backend.storeSession`: the existing session when the id is present; failure
when no place remains; else a new session appended to the store. -/
def backend.storeSession (b : backend) (id : String) (now : Int) : backend × Option session :=
  match b.sessionStore.load id with
  | some s => (b, some s)
  | none =>
    if b.remainingPlaces = 0 then (b, none)
    else
      let r := b.sessionStore.store (newSession id b.sessionTTL now)
      ({ b with sessionStore := r.1 }, some r.2)

/-! ## config.go -/

/-- Type `ipList` of qproxy.go: the literal addresses and the CIDR networks, kept as
the configuration entries they were parsed from. -/
structure ipList where
  ipList : List String
  ipNetList : List String
deriving DecidableEq, Repr

/-- Values that viper holds for one entry of `backends` (durations as `GetDuration`
returns them, `weight` absent when the key is not set). `is_map` tells whether the value
of the entry is a map: when it is not, `Sub` returns nil for it (the other fields then
stand for nothing). -/
structure viperBackend where
  url : String
  session_ttl : Int
  max_sessions : Int
  tls_insecure : Bool
  weight : Option float64
  is_map : Bool := true
deriving DecidableEq, Repr

/-- Values that the viper instance `v` holds after reading the configuration file; the
`backends` map is listed in the order in which a `range` visits it. -/
structure viperConfig where
  addr : String
  cookie_name : String
  timeout : Int
  session_refresh_interval : Int
  queue_session_ttl : Int
  queue_max_sessions : Int
  queue_template : String
  queue_full_template : String
  api_addr : String
  api_username : String
  api_password : String
  trusted_proxies : List String
  whitelisted_ips : List String
  backends : List (String × viperBackend)
deriving DecidableEq, Repr

/-- Library functions the configuration code calls: `net.ParseIP`, `net.ParseCIDR`,
`template.ParseFiles` (the parsed template, when the file is readable) and `url.Parse`. -/
structure stdlib where
  parseIP : String → Bool
  parseCIDR : String → Bool
  parseFiles : String → Option String
  urlParse : String → Option String

/-- Dynamic entries of the map `m` of `proxyConfig`, the ones `loadDynamicConfig` stores. -/
structure dynamicConfig where
  trusted_proxies : ipList
  whitelisted_ips : ipList
  session_refresh_interval : Int
  queue_session_ttl : Int
  queue_max_sessions : Int
  queue_template : String
  queue_full_template : String
  backends_config_map : List (String × backendConfig)
  api_username : String
  api_password : String
deriving DecidableEq, Repr

/-- Type `proxyConfig` of config.go: the viper instance `v`, the dynamic entries of `m`
and the entries of `m` fixed at start-up. -/
structure proxyConfig where
  v : viperConfig
  dyn : dynamicConfig
  addr : String
  cookie_name : String
  timeout : Int
  api_addr : String
deriving DecidableEq, Repr

/-- Constant `time.Second` in nanoseconds. -/
def second : Int := 1000000000

/-- Function `newIPList` of qproxy.go: entries holding `/` are parsed as CIDR, the others
as addresses; the first entry that does not parse aborts the construction. -/
def newIPList (lib : stdlib) : List String → Except String ipList
  | [] => Except.ok { ipList := [], ipNetList := [] }
  | ip :: rest =>
    if ip.contains '/' then
      if lib.parseCIDR ip then
        match newIPList lib rest with
        | Except.ok l => Except.ok { l with ipNetList := ip :: l.ipNetList }
        | Except.error e => Except.error e
      else Except.error ("invalid CIDR address: " ++ ip)
    else if lib.parseIP ip then
      match newIPList lib rest with
      | Except.ok l => Except.ok { l with ipList := ip :: l.ipList }
      | Except.error e => Except.error e
    else Except.error ("Invalid IP: " ++ ip)

/-- Function `validateBackendConfig` on a sub-instance that is not nil; the default of 1
for `weight` is set on the sub-instance created for the validation. -/
def validateBackendConfig (b : viperBackend) : Option String :=
  if b.url = "" then some "Missing \x60url\x60 option"
  else if b.session_ttl = 0 then some "Option \x60session_ttl\x60 must be greater than 0"
  else if b.max_sessions = 0 then some "Option \x60max_sessions\x60 must be greater than 0"
  else if b.weight.getD 1 = 0 then some "Option \x60weight\x60 must be greater than 0"
  else if b.weight.getD 1 > 1 then some "Option \x60weight\x60 must be less or equals than 1"
  else none

/-- Loop of `ValidateProxyConfig` over the backends: the first backend visited that does
not pass ends it, with a panic when `Sub` returned nil for it (`validateBackendConfig`
calls `SetDefault` on the nil pointer), else with the error of `validateBackendConfig`. -/
def validateBackends : List (String × viperBackend) → Option failure
  | [] => none
  | (backendName, b) :: rest =>
    if b.is_map = false then some (failure.panic nilDereference)
    else
      match validateBackendConfig b with
      | some err => some (failure.error ("[backend: " ++ backendName ++ "] " ++ err))
      | none => validateBackends rest

/-- First key of the list whose value is the given empty value, with the error built
from it. -/
def firstMissing {α : Type} [DecidableEq α] (zero : α) (msg : String → String) :
    List (String × α) → Option String
  | [] => none
  | (key, value) :: rest => if value = zero then some (msg key) else firstMissing zero msg rest

/-- Function `ValidateProxyConfig`: `none` when the configuration is accepted, else
the error returned or the panic raised. -/
def ValidateProxyConfig (v : viperConfig) : Option failure :=
  match firstMissing "" (fun key => "Missing \x60" ++ key ++ "\x60 option")
      [("addr", v.addr), ("cookie_name", v.cookie_name), ("queue.template", v.queue_template),
        ("queue.full_template", v.queue_full_template), ("api.addr", v.api_addr)] with
  | some err => some (failure.error err)
  | none =>
    match firstMissing (0 : Int)
        (fun key => "Option \x60" ++ key ++ "\x60 must be greater than 0")
        [("session_refresh_interval", v.session_refresh_interval),
          ("queue.session_ttl", v.queue_session_ttl), ("timeout", v.timeout)] with
    | some err => some (failure.error err)
    | none =>
      if v.queue_max_sessions < 0 then
        some (failure.error
          "Option \x60queue.max_sessions\x60 must be greater or equals than 0")
      else if v.backends.length = 0 then some (failure.error "No backends available")
      else validateBackends v.backends

/-- Entry of `backendsConfigMap` built by `loadDynamicConfig` for one backend whose
sub-instance is not nil; an unset `weight` reads as 0 from the fresh sub-instance, and
the product by `time.Second` is an `int64` product. -/
def loadBackendConfig (b : viperBackend) : backendConfig :=
  { url := b.url
    sessionTTL := wrapInt (b.session_ttl * second)
    maxSessions := b.max_sessions
    tlsInsecure := b.tls_insecure
    weight := b.weight.getD 0 }

/-- Method `proxyConfig.loadDynamicConfig`: every fallible step comes first, then the new
values are stored. The loop over the backends calls `GetString` on the sub-instance, which
panics when `Sub` returned nil. -/
def loadDynamicConfig (lib : stdlib) (v : viperConfig) : Except failure dynamicConfig :=
  match newIPList lib v.trusted_proxies with
  | Except.error e => Except.error (failure.error e)
  | Except.ok trustedProxies =>
    match newIPList lib v.whitelisted_ips with
    | Except.error e => Except.error (failure.error e)
    | Except.ok whitelistedIps =>
      match lib.parseFiles v.queue_template with
      | none => Except.error (failure.error ("open " ++ v.queue_template))
      | some queueTemplate =>
        match lib.parseFiles v.queue_full_template with
        | none => Except.error (failure.error ("open " ++ v.queue_full_template))
        | some fullQueueTemplate =>
          if v.backends.any (fun p => p.2.is_map = false) then
            Except.error (failure.panic nilDereference)
          else
            Except.ok
              { trusted_proxies := trustedProxies
                whitelisted_ips := whitelistedIps
                session_refresh_interval := wrapInt (v.session_refresh_interval * second)
                queue_session_ttl := wrapInt (v.queue_session_ttl * second)
                queue_max_sessions := v.queue_max_sessions
                queue_template := queueTemplate
                queue_full_template := fullQueueTemplate
                backends_config_map := v.backends.map (fun p => (p.1, loadBackendConfig p.2))
                api_username := v.api_username
                api_password := v.api_password }

/-- Error of `newQProxyConfig` built from the failure of a step: an error is wrapped, a
panic goes through. -/
def invalidConfiguration : failure → failure
  | failure.error err => failure.error ("Invalid QProxy configuration: \x60" ++ err ++ "\x60")
  | failure.panic p => failure.panic p

/-- Function `newQProxyConfig`. -/
def newQProxyConfig (lib : stdlib) (v : viperConfig) : Except failure proxyConfig :=
  match ValidateProxyConfig v with
  | some err => Except.error (invalidConfiguration err)
  | none =>
    match loadDynamicConfig lib v with
    | Except.error err => Except.error (invalidConfiguration err)
    | Except.ok dyn =>
      Except.ok
        { v := v
          dyn := dyn
          addr := v.addr
          cookie_name := v.cookie_name
          timeout := wrapInt (v.timeout * second)
          api_addr := v.api_addr }

/-- Method `proxyConfig.syncReload`; `readIn` is the outcome of `ReadInConfig` (the file's
values, or the read error, which leaves `v` as it was). The configuration after the call
comes with the error, if any. -/
def proxyConfig.syncReload (lib : stdlib) (c : proxyConfig) (readIn : Except String viperConfig) :
    proxyConfig × Option failure :=
  match readIn with
  | Except.error err => (c, some (failure.error err))
  | Except.ok v =>
    match ValidateProxyConfig v with
    | some err => ({ c with v := v }, some err)
    | none =>
      match loadDynamicConfig lib v with
      | Except.error err => ({ c with v := v }, some err)
      | Except.ok dyn => ({ c with v := v, dyn := dyn }, none)

/-! ## qproxy.go -/

/-- Type `QProxy` of qproxy.go, restricted to what the engine reads and writes: the
configuration, the published backend slice (`atomicBackends`) and the queue. -/
structure QProxy where
  config : proxyConfig
  backends : List backend
  queuedSessions : sessionStore
deriving DecidableEq, Repr

/-- Result `(*session, *backend, bool)` of the engine operations; the backend is given
by its position in the published slice. -/
structure placement where
  session : Option session
  backend : Option Nat
  ok : Bool
deriving DecidableEq, Repr

/-- Backends built from the configuration map, in the order the map is visited; each name
adopts the store found by `adopt` (none for a fresh store). Stops at the first url that
does not parse. -/
def buildBackends (urlParse : String → Option String) (adopt : String → Option sessionStore) :
    List (String × backendConfig) → Except String (List backend)
  | [] => Except.ok []
  | (backendName, config) :: rest =>
    match newBackend urlParse backendName config (adopt backendName) with
    | Except.error err => Except.error err
    | Except.ok b =>
      match buildBackends urlParse adopt rest with
      | Except.error err => Except.error err
      | Except.ok bs => Except.ok (b :: bs)

/-- Function `NewQProxy`: the configuration is validated and loaded, every backend starts
with an empty store and the queue is empty. -/
def NewQProxy (lib : stdlib) (v : viperConfig) : Except failure QProxy :=
  match newQProxyConfig lib v with
  | Except.error err => Except.error err
  | Except.ok config =>
    match buildBackends lib.urlParse (fun _ => none) config.dyn.backends_config_map with
    | Except.error err => Except.error (failure.error err)
    | Except.ok backends =>
      Except.ok { config := config, backends := backends, queuedSessions := newSessionStore }

/-- Inner loop of `syncReloadConfiguration`: the store of the first old backend with
the given name. -/
def oldStore (oldBackends : List backend) (backendName : String) : Option sessionStore :=
  (oldBackends.find? (fun b => b.name == backendName)).map (fun b => b.sessionStore)

/-- Method `QProxy.syncReloadConfiguration`: nothing more happens when `syncReload` fails
(when it panics, the state given is the one reached at the panic); otherwise the backends are rebuilt, adopting stores by name, and published unless a url
does not parse. -/
def QProxy.syncReloadConfiguration (lib : stdlib) (qp : QProxy)
    (readIn : Except String viperConfig) : QProxy :=
  match qp.config.syncReload lib readIn with
  | (config, some _) => { qp with config := config }
  | (config, none) =>
    match buildBackends lib.urlParse (oldStore qp.backends) config.dyn.backends_config_map with
    | Except.error _ => { qp with config := config }
    | Except.ok newBackends => { qp with config := config, backends := newBackends }

/-- Positions, counted from `idx`, of the backends with a remaining place. -/
def availableFrom : Nat → List backend → List Nat
  | _, [] => []
  | idx, b :: rest =>
    if b.remainingPlaces > 0 then idx :: availableFrom (idx + 1) rest
    else availableFrom (idx + 1) rest

/-- Method `QProxy.availableBackends`: the backends with `remainingPlaces > 0`, in the
order of the published slice. -/
def QProxy.availableBackends (qp : QProxy) : List Nat := availableFrom 0 qp.backends

/-- Method `QProxy.hasRemainingQueueSlots`. -/
def QProxy.hasRemainingQueueSlots (qp : QProxy) : Bool :=
  let maxQueuedSessions := qp.config.dyn.queue_max_sessions
  if maxQueuedSessions ≤ 0 then true
  else decide (maxQueuedSessions - qp.queuedSessions.len > 0)

/-- Backend loop of `QProxy.loadSession` from position `idx` on: the first backend holding
the id has that session refreshed with its own TTL. -/
def loadFrom (id : String) (now : Int) : Nat → List backend → Option (List backend × session × Nat)
  | _, [] => none
  | idx, b :: rest =>
    match b.loadSession id with
    | some s =>
      some ({ b with sessionStore := b.sessionStore.refresh id b.sessionTTL now } :: rest,
        s.update b.sessionTTL now, idx)
    | none =>
      match loadFrom id now (idx + 1) rest with
      | some (rest', s, i) => some (b :: rest', s, i)
      | none => none

/-- Method `QProxy.loadSession`: backends first, then the queue (refreshed with the queue
TTL), else a miss. -/
def QProxy.loadSession (qp : QProxy) (id : String) (now : Int) : QProxy × placement :=
  match loadFrom id now 0 qp.backends with
  | some (backends, s, i) =>
    ({ qp with backends := backends }, { session := some s, backend := some i, ok := true })
  | none =>
    match qp.queuedSessions.load id with
    | some s =>
      ({ qp with queuedSessions :=
          qp.queuedSessions.refresh id qp.config.dyn.queue_session_ttl now },
        { session := some (s.update qp.config.dyn.queue_session_ttl now), backend := none,
          ok := true })
    | none => (qp, { session := none, backend := none, ok := false })

/-- Placement loop of `syncNewSession` over the shuffled available backends, `idx` being
the position reached in that list: a backend is tried when its weight is at least the
draw or when it is the last one. -/
def placeNew (backends : List backend) (id : String) (now : Int) (rndWeight : ℚ)
    (backendsLastIdx : Int) : Nat → List Nat → Option (List backend × session × Nat)
  | _, [] => none
  | idx, i :: rest =>
    match backends[i]? with
    | none => placeNew backends id now rndWeight backendsLastIdx (idx + 1) rest
    | some b =>
      if b.weight ≥ rndWeight ∨ (idx : Int) = backendsLastIdx then
        match b.storeSession id now with
        | (b', some s) => some (backends.set i b', s, i)
        | (_, none) => placeNew backends id now rndWeight backendsLastIdx (idx + 1) rest
      else placeNew backends id now rndWeight backendsLastIdx (idx + 1) rest

/-- Method `QProxy.syncNewSession`, given the generated id, the permutation applied by
`rand.Shuffle`, the draw of `rand.Float64` and the instant. -/
def QProxy.syncNewSession (qp : QProxy) (id : String) (shuffle : List Nat → List Nat)
    (rndWeight : ℚ) (now : Int) : QProxy × placement :=
  let direct :=
    if qp.queuedSessions.len = 0 then
      let backends := qp.availableBackends
      if backends.length > 0 then
        let backends := shuffle backends
        placeNew qp.backends id now rndWeight ((backends.length : Int) - 1) 0 backends
      else none
    else none
  match direct with
  | some (backends, s, i) =>
    ({ qp with backends := backends }, { session := some s, backend := some i, ok := true })
  | none =>
    if !qp.hasRemainingQueueSlots then (qp, { session := none, backend := none, ok := false })
    else
      let r := qp.queuedSessions.store (newSession id qp.config.dyn.queue_session_ttl now)
      ({ qp with queuedSessions := r.1 }, { session := some r.2, backend := none, ok := true })

/-- First loop of `syncUpdateSessions`: every backend is swept, the remaining places are
summed into the `int` variable `freeSlots` (the sum wraps around; additions modulo 2^64
give the same total in any order) and the positions with a remaining place are
collected. -/
def sweepFrom (now : Int) : Nat → List backend → List backend × Int × List Nat
  | _, [] => ([], 0, [])
  | idx, b :: rest =>
    let b' := b.removeExpiredSessions now
    let r := sweepFrom now (idx + 1) rest
    if b'.remainingPlaces > 0 then
      (b' :: r.1, wrapInt (b'.remainingPlaces + r.2.1), idx :: r.2.2)
    else (b' :: r.1, r.2.1, r.2.2)

/-- Weighted pass of `syncUpdateSessions` for one popped session: backends without a place
or whose weight is below the draw are skipped. -/
def firstPass (backends : List backend) (id : String) (now : Int) (rndWeight : ℚ) :
    List Nat → Option (List backend)
  | [] => none
  | i :: rest =>
    match backends[i]? with
    | none => firstPass backends id now rndWeight rest
    | some b =>
      if b.remainingPlaces = 0 then firstPass backends id now rndWeight rest
      else if rndWeight > b.weight then firstPass backends id now rndWeight rest
      else
        match b.storeSession id now with
        | (b', some _) => some (backends.set i b')
        | (_, none) => firstPass backends id now rndWeight rest

/-- Fallback pass of `syncUpdateSessions`: the first backend with a place, whatever its
weight. -/
def secondPass (backends : List backend) (id : String) (now : Int) :
    List Nat → Option (List backend)
  | [] => none
  | i :: rest =>
    match backends[i]? with
    | none => secondPass backends id now rest
    | some b =>
      if b.remainingPlaces = 0 then secondPass backends id now rest
      else
        match b.storeSession id now with
        | (b', some _) => some (backends.set i b')
        | (_, none) => secondPass backends id now rest

/-- Random inputs of one iteration of the promotion loop: the permutation applied by
`rand.Shuffle` to the available backends and the draw of `rand.Float64`. -/
structure draw where
  shuffle : List Nat → List Nat
  rndWeight : ℚ

/-- State carried by the promotion loop: the backends, the (repeatedly shuffled) slice
`availableBackends` and the queue. -/
structure promotion where
  backends : List backend
  availableBackends : List Nat
  queuedSessions : sessionStore
deriving DecidableEq, Repr

/-- Body of the promotion loop for one popped session, and the loop itself; `n` counts
the iterations and selects the random inputs. -/
def promoteLoop (draws : Nat → draw) (now : Int) : Nat → List session → promotion → promotion
  | _, [], st => st
  | n, s :: rest, st =>
    let available := (draws n).shuffle st.availableBackends
    match firstPass st.backends s.id now (draws n).rndWeight available with
    | some backends =>
      promoteLoop draws now (n + 1) rest
        { st with backends := backends, availableBackends := available }
    | none =>
      match secondPass st.backends s.id now available with
      | some backends =>
        promoteLoop draws now (n + 1) rest
          { st with backends := backends, availableBackends := available }
      | none =>
        promoteLoop draws now (n + 1) rest
          { st with availableBackends := available,
                    queuedSessions := (st.queuedSessions.unshift s).1 }

/-- Whether `syncUpdateSessions` panics: `freeSlots` has wrapped to a negative value and
the queue is not empty, so that `pop` takes a slice with a negative bound. -/
def QProxy.updatePanics (qp : QProxy) (now : Int) : Bool :=
  decide ((sweepFrom now 0 qp.backends).2.1 < 0) &&
    !decide ((qp.queuedSessions.removeExpired now).len = 0)

/-- Method `QProxy.syncUpdateSessions`: sweep, then promote the head of the queue into the
free slots. When `pop` panics on a negative `freeSlots` (`QProxy.updatePanics`), the state
is the one reached at that point: queue and backends swept. -/
def QProxy.syncUpdateSessions (qp : QProxy) (draws : Nat → draw) (now : Int) : QProxy :=
  let queue := qp.queuedSessions.removeExpired now
  let swept := sweepFrom now 0 qp.backends
  let freeSlots := swept.2.1
  if freeSlots = 0 ∨ queue.len = 0 then
    { qp with backends := swept.1, queuedSessions := queue }
  else if freeSlots < 0 then
    { qp with backends := swept.1, queuedSessions := queue }
  else
    let popped := queue.pop freeSlots.toNat
    let final := promoteLoop draws now 0 popped.1
      { backends := swept.1, availableBackends := swept.2.2, queuedSessions := popped.2 }
    { qp with backends := final.backends, queuedSessions := final.queuedSessions }

/-- Outcome of `syncUpdateSessions`: the panic of `pop`, or the state it returns. -/
def QProxy.updateOutcome (qp : QProxy) (draws : Nat → draw) (now : Int) : Except failure QProxy :=
  if qp.updatePanics now then Except.error (failure.panic sliceBounds)
  else Except.ok (qp.syncUpdateSessions draws now)

/-! ## Runs of the engine and the predicates the claims are stated with -/

/-- One engine operation together with its inputs: the generated id, the random choices,
the instant, and for a reload the outcome of reading the configuration file. -/
inductive op where
  | newSession (id : String) (shuffle : List Nat → List Nat) (rndWeight : ℚ) (now : Int)
  | loadSession (id : String) (now : Int)
  | updateSessions (draws : Nat → draw) (now : Int)
  | reload (readIn : Except String viperConfig)

/-- State after one operation. -/
def QProxy.step (lib : stdlib) (qp : QProxy) : op → QProxy
  | op.newSession id shuffle rndWeight now => (qp.syncNewSession id shuffle rndWeight now).1
  | op.loadSession id now => (qp.loadSession id now).1
  | op.updateSessions draws now => qp.syncUpdateSessions draws now
  | op.reload readIn => qp.syncReloadConfiguration lib readIn

/-- State after a sequence of operations. -/
def QProxy.run (lib : stdlib) (qp : QProxy) : List op → QProxy
  | [] => qp
  | o :: rest => (qp.step lib o).run lib rest

/-- Every operation of the sequence satisfies `guard` in the state it is applied to. -/
def QProxy.runs (lib : stdlib) (guard : QProxy → op → Prop) (qp : QProxy) : List op → Prop
  | [] => True
  | o :: rest => guard qp o ∧ (qp.step lib o).runs lib guard rest

/-- Ids held by a store, in order. -/
def sessionStore.ids (store : sessionStore) : List String := store.sessions.map (fun s => s.id)

/-- Ids held by the stores of a backend slice, store after store. -/
def backendIds : List backend → List String
  | [] => []
  | b :: rest => b.sessionStore.ids ++ backendIds rest

/-- Ids held by the queue and by every backend store of the current set. -/
def QProxy.allIds (qp : QProxy) : List String :=
  qp.queuedSessions.ids ++ backendIds qp.backends

/-- Capacity invariant: every backend holds between 0 and `maxSessions` sessions. -/
def capacityInv (backends : List backend) : Prop :=
  ∀ b ∈ backends, 0 ≤ b.sessionStore.len ∧ b.sessionStore.len ≤ b.maxSessions

/-- Uniqueness invariant: no id occurs twice across the queue and the backend stores. -/
def QProxy.unique (qp : QProxy) : Prop := qp.allIds.Nodup

/-- Names of the backends of a slice. -/
def backendNames (backends : List backend) : List String := backends.map (fun b => b.name)

/-- Guard of a run with fresh ids: a generated id is in no store of the current state, and
a configuration file lists each backend name once (it is a map). -/
def freshOp (qp : QProxy) : op → Prop
  | op.newSession id _ _ _ => id ∉ qp.allIds
  | op.reload (Except.ok v) => (v.backends.map Prod.fst).Nodup
  | _ => True

/-- Length of the store a backend of the given name adopts on reload (0 for a new name). -/
def adoptedLen (oldBackends : List backend) (backendName : String) : Int :=
  match oldStore oldBackends backendName with
  | some st => st.len
  | none => 0

/-- Guard of a run in which no reload shrinks a backend below what it holds: the
configuration read gives every backend a `max_sessions` at least the length of the store
it adopts. -/
def roomyOp (qp : QProxy) : op → Prop
  | op.reload (Except.ok v) => ∀ p ∈ v.backends, adoptedLen qp.backends p.1 ≤ p.2.max_sessions
  | _ => True

/-- Weight of the backend at a position (0 when there is none). -/
def weightAt (backends : List backend) (i : Nat) : float64 :=
  match backends[i]? with
  | some b => b.weight
  | none => 0

/-- Choice described for direct placement: the first backend of the shuffled list whose
weight is at least the draw, or the last backend of the list when there is none. -/
def directChoice (backends : List backend) (rndWeight : ℚ) (shuffled : List Nat) : Option Nat :=
  match shuffled.find? (fun i => decide (weightAt backends i ≥ rndWeight)) with
  | some i => some i
  | none => shuffled.getLast?

/-- Backend after a new session with the given id is appended to its store. -/
def backend.withNew (b : backend) (id : String) (now : Int) : backend :=
  { b with sessionStore := { sessions := b.sessionStore.sessions ++ [newSession id b.sessionTTL now] } }

/-- Sessions appended to the stores of `old` to obtain `new`, store after store. -/
def addedSessions : List backend → List backend → List session
  | b :: old, b' :: new =>
    b'.sessionStore.sessions.drop b.sessionStore.sessions.length ++ addedSessions old new
  | _, _ => []

/-- Backend `b'` is the backend `b` with sessions appended at the end of its store (the
sessions `b` holds keep their store and their position). -/
def backend.extendedBy (b b' : backend) : Prop :=
  ∃ added, b' = { b with sessionStore := { sessions := b.sessionStore.sessions ++ added } }

/-- Exact sum of the remaining places of a backend slice (the `int` variable `freeSlots`
holds it modulo 2^64). -/
def freePlaces : List backend → Int
  | [] => 0
  | b :: rest => b.remainingPlaces + freePlaces rest

/-- Guard of a run that keeps the session `id` on the backend at position `i`: ids are
fresh, there is no reload, and at every promotion the session expires after the instant
of the promotion. -/
def stickyOp (id : String) (i : Nat) (qp : QProxy) : op → Prop
  | op.newSession newId _ _ _ => newId ∉ qp.allIds
  | op.loadSession _ _ => True
  | op.updateSessions _ now =>
    ∀ b, qp.backends[i]? = some b → ∀ s ∈ b.sessionStore.sessions, s.id = id → now < s.expiration
  | op.reload _ => False

/-! ## Client identification (qproxy.go) and proxy_handler.go -/

/-- Library functions used while a request is handled: `net.SplitHostPort` (host and
port, when the address splits), the tests `IPNet.Contains` and `IP.Equal` (given on the
configuration entry and on the text of the address they compare), `strings.Split` with
the separator `", "`, and `xid.FromString` (true when the id is well-formed). -/
structure netlib where
  splitHostPort : String → Option (String × String)
  netContains : String → String → Bool
  ipEqual : String → String → Bool
  splitForwarded : String → List String
  xidFromString : String → Bool

/-- Method `ipList.contains`: false for a text that is no address; else true when a
network contains the address or a listed address equals it. -/
def ipList.contains (l : qproxy.ipList) (lib : stdlib) (net : netlib) (ip : String) : Bool :=
  if !lib.parseIP ip then false
  else if l.ipNetList.any (fun ipNet => net.netContains ipNet ip) then true
  else if l.ipList.any (fun i => net.ipEqual i ip) then true
  else false

/-- What the handlers read of a `http.Request`: `RemoteAddr`, the header
`X-Forwarded-For` (empty when absent) and the cookies, as name and value. -/
structure request where
  remoteAddr : String
  forwardedFor : String
  cookies : List (String × String)
deriving DecidableEq, Repr

/-- Method `Request.Cookie`: the value of the first cookie of that name, if any. -/
def request.cookie (r : request) (name : String) : Option String :=
  (r.cookies.find? (fun c => c.1 == name)).map (fun c => c.2)

/-- Loop of `getClientIP` over the forwarded addresses, from position `i - 1` down to 0:
the first address that is not a trusted proxy. -/
def scanForwarded (trusted : String → Bool) (ips : List String) : Nat → Option String
  | 0 => none
  | i + 1 =>
    match ips[i]? with
    | some ip => if !trusted ip then some ip else scanForwarded trusted ips i
    | none => scanForwarded trusted ips i

/-- Method `QProxy.getClientIP`. -/
def QProxy.getClientIP (lib : stdlib) (net : netlib) (qp : QProxy) (r : request) :
    String × Bool :=
  match net.splitHostPort r.remoteAddr with
  | none => ("", false)
  | some (remoteIP, _) =>
    let trustedProxies := qp.config.dyn.trusted_proxies
    if !trustedProxies.contains lib net remoteIP then (remoteIP, true)
    else
      let found :=
        if r.forwardedFor ≠ "" then
          let ips := net.splitForwarded r.forwardedFor
          scanForwarded (fun ip => trustedProxies.contains lib net ip) ips ips.length
        else none
      match found with
      | some ip => (ip, true)
      | none => ("", false)

/-- Method `QProxy.isRequestWhitelisted`. -/
def QProxy.isRequestWhitelisted (lib : stdlib) (net : netlib) (qp : QProxy) (r : request) :
    Bool :=
  match qp.getClientIP lib net r with
  | (clientIP, true) => qp.config.dyn.whitelisted_ips.contains lib net clientIP
  | (_, false) => false

/-- Method `QProxy.isValidSessionID`. -/
def QProxy.isValidSessionID (net : netlib) (id : String) : Bool :=
  if id = "" then false else net.xidFromString id

/-- Random and clock inputs of one request: `rand.Intn`, the id `xid.New` would
generate, the permutation applied by `rand.Shuffle`, the draw of `rand.Float64` and the
instant. -/
structure handling where
  intn : Nat → Nat
  id : String
  shuffle : List Nat → List Nat
  rndWeight : ℚ
  now : Int

/-- Method `QProxy.randomBackend`: the position `rand.Intn(len(backends))`. -/
def QProxy.randomBackend (qp : QProxy) (intn : Nat → Nat) : Nat := intn qp.backends.length

/-- What is written to the client: the answer of the backend the request is forwarded
to, or one of the two templates (with its content). -/
inductive responseBody where
  | upstream (backend : Nat)
  | queueTemplate (content : String)
  | fullTemplate (content : String)
deriving DecidableEq, Repr

/-- Fields of the `http.Cookie` set by the handler. -/
structure cookie where
  name : String
  path : String
  value : String
  httpOnly : Bool
deriving DecidableEq, Repr

/-- Response of the proxy handler: the body and the cookie set, if any. -/
structure response where
  body : responseBody
  setCookie : Option cookie
deriving DecidableEq, Repr

/-- End of `ServeHTTP`: forward to the backend of the decision, else the waiting page. -/
def dispatch (qp : QProxy) (backend : Option Nat) (setCookie : Option cookie) : response :=
  match backend with
  | some i => { body := responseBody.upstream i, setCookie := setCookie }
  | none => { body := responseBody.queueTemplate qp.config.dyn.queue_template, setCookie := setCookie }

/-- Second half of `ServeHTTP`, from `if session == nil` on. -/
def serveSession (qp : QProxy) (e : handling) (session : Option session) (backend : Option Nat) :
    QProxy × response :=
  match session with
  | some _ => (qp, dispatch qp backend none)
  | none =>
    match qp.syncNewSession e.id e.shuffle e.rndWeight e.now with
    | (qp', { session := some s, backend := b, ok := true }) =>
      (qp', dispatch qp' b
        (some { name := qp.config.cookie_name, path := "/", value := s.id, httpOnly := true }))
    | (qp', _) =>
      (qp', { body := responseBody.fullTemplate qp'.config.dyn.queue_full_template,
              setCookie := none })

/-- Method `proxyHandler.ServeHTTP`: the state after the request and the response. -/
def proxyHandler.ServeHTTP (lib : stdlib) (net : netlib) (qp : QProxy) (r : request)
    (e : handling) : QProxy × response :=
  if qp.isRequestWhitelisted lib net r then
    (qp, { body := responseBody.upstream (qp.randomBackend e.intn), setCookie := none })
  else
    let cookieName := qp.config.cookie_name
    let sessionID := (r.cookie cookieName).getD ""
    if QProxy.isValidSessionID net sessionID then
      let loaded := qp.loadSession sessionID e.now
      serveSession loaded.1 e loaded.2.session loaded.2.backend
    else if !qp.hasRemainingQueueSlots then
      (qp, { body := responseBody.fullTemplate qp.config.dyn.queue_full_template,
             setCookie := none })
    else serveSession qp e none none

/-- Requests handled one after the other, each with its inputs: the final state and the
responses in order. -/
def serveAll (lib : stdlib) (net : netlib) (qp : QProxy) :
    List (request × handling) → QProxy × List response
  | [] => (qp, [])
  | p :: rest =>
    let first := proxyHandler.ServeHTTP lib net qp p.1 p.2
    let others := serveAll lib net first.1 rest
    (others.1, first.2 :: others.2)

/-- State with the single backend `b` holding the sessions `stored` and the queue holding
`queued`. -/
def oneBackend (config : proxyConfig) (b : backend) (stored queued : List session) : QProxy :=
  { config := config
    backends := [{ b with sessionStore := { sessions := stored } }]
    queuedSessions := { sessions := queued } }

/-- Response to a request forwarded to the backend at position 0 with the new session
cookie. -/
def forwardedWithCookie (config : proxyConfig) (p : request × handling) : response :=
  { body := responseBody.upstream 0
    setCookie := some { name := config.cookie_name, path := "/", value := p.2.id, httpOnly := true } }

/-- Response showing the waiting template with the new session cookie. -/
def waitingWithCookie (config : proxyConfig) (p : request × handling) : response :=
  { body := responseBody.queueTemplate config.dyn.queue_template
    setCookie := some { name := config.cookie_name, path := "/", value := p.2.id, httpOnly := true } }

/-- Response showing the full-queue template, without cookie. -/
def refused (config : proxyConfig) : response :=
  { body := responseBody.fullTemplate config.dyn.queue_full_template, setCookie := none }

/-! ## Definitions the remaining claims are stated with -/

/-- Sessions unshifted one after the other, in the order of the list. -/
def unshiftAll (store : sessionStore) : List session → sessionStore
  | [] => store
  | s :: rest => unshiftAll (store.unshift s).1 rest

/-- Remaining places of the backend at a position (0 when there is none). -/
def placesAt (backends : List backend) (i : Nat) : Int :=
  match backends[i]? with
  | some b => b.remainingPlaces
  | none => 0

/-- Choice described for the promotion of one session: the first backend of the shuffled
list with a remaining place and a weight at least the draw, else the first backend of
the list with a remaining place. -/
def promotionChoice (backends : List backend) (rndWeight : ℚ) (shuffled : List Nat) :
    Option Nat :=
  match shuffled.find?
      (fun i => decide (0 < placesAt backends i) && decide (weightAt backends i ≥ rndWeight)) with
  | some i => some i
  | none => shuffled.find? (fun i => decide (0 < placesAt backends i))

/-- Choice the two passes of the promotion loop make for one session: the first backend of
the shuffled list with a remaining place that the weighted pass does not skip (its test
`weight < r` is false: the weight is at least the draw, or it is NaN), else the first
backend of the list with a remaining place. -/
def passChoice (backends : List backend) (rndWeight : ℚ) (shuffled : List Nat) : Option Nat :=
  match shuffled.find?
      (fun i => decide (0 < placesAt backends i) && !decide (weightAt backends i < rndWeight)) with
  | some i => some i
  | none => shuffled.find? (fun i => decide (0 < placesAt backends i))

/-- Result of a pass of the promotion loop that stops at the position `c`: the backend
there has `storeSession` applied. -/
def placedAt (backends : List backend) (id : String) (now : Int) (c : Nat) :
    Option (List backend) :=
  (backends[c]?).map (fun b => backends.set c (b.storeSession id now).1)

/-- Number of times the promotion loop reaches its last statement, `queue.unshift`: the
loop of `promoteLoop` with a counter on that branch. -/
def unshiftCount (draws : Nat → draw) (now : Int) : Nat → List session → promotion → Nat
  | _, [], _ => 0
  | n, s :: rest, st =>
    let available := (draws n).shuffle st.availableBackends
    match firstPass st.backends s.id now (draws n).rndWeight available with
    | some backends =>
      unshiftCount draws now (n + 1) rest
        { st with backends := backends, availableBackends := available }
    | none =>
      match secondPass st.backends s.id now available with
      | some backends =>
        unshiftCount draws now (n + 1) rest
          { st with backends := backends, availableBackends := available }
      | none =>
        1 + unshiftCount draws now (n + 1) rest
          { st with availableBackends := available,
                    queuedSessions := (st.queuedSessions.unshift s).1 }

/-- Number of calls of `queue.unshift` made by `syncUpdateSessions` (none when it returns
or panics before the loop). -/
def QProxy.unshiftsOfUpdate (qp : QProxy) (draws : Nat → draw) (now : Int) : Nat :=
  let queue := qp.queuedSessions.removeExpired now
  let swept := sweepFrom now 0 qp.backends
  let freeSlots := swept.2.1
  if freeSlots = 0 ∨ queue.len = 0 then 0
  else if freeSlots < 0 then 0
  else
    let popped := queue.pop freeSlots.toNat
    unshiftCount draws now 0 popped.1
      { backends := swept.1, availableBackends := swept.2.2, queuedSessions := popped.2 }

/-- Sessions popped by `syncUpdateSessions` (none when it returns or panics before the
loop). -/
def QProxy.poppedByUpdate (qp : QProxy) (now : Int) : List session :=
  let queue := qp.queuedSessions.removeExpired now
  let swept := sweepFrom now 0 qp.backends
  let freeSlots := swept.2.1
  if freeSlots = 0 ∨ queue.len = 0 then []
  else if freeSlots < 0 then []
  else (queue.pop freeSlots.toNat).1

/-- The five required texts of a configuration are all set. -/
def textsSet (v : viperConfig) : Prop :=
  v.addr ≠ "" ∧ v.cookie_name ≠ "" ∧ v.queue_template ≠ "" ∧ v.queue_full_template ≠ "" ∧
    v.api_addr ≠ ""

/-- The three required durations of a configuration are all different from 0. -/
def durationsSet (v : viperConfig) : Prop :=
  v.session_refresh_interval ≠ 0 ∧ v.queue_session_ttl ≠ 0 ∧ v.timeout ≠ 0

/-! ## Concrete inputs -/

/-- Library functions that accept every input. -/
def lib0 : stdlib :=
  { parseIP := fun _ => true
    parseCIDR := fun _ => true
    parseFiles := fun path => some path
    urlParse := fun url => some url }

/-- One configured backend with room for two sessions. -/
def vb0 : viperBackend :=
  { url := "http://127.0.0.1:6464", session_ttl := 60, max_sessions := 2,
    tls_insecure := false, weight := some 1 }

/-- A configuration with the single backend `a` and a queue of at most one session. -/
def v0 : viperConfig :=
  { addr := "127.0.0.1:6363", cookie_name := "qpid", timeout := 5,
    session_refresh_interval := 1, queue_session_ttl := 60, queue_max_sessions := 1,
    queue_template := "queue.html", queue_full_template := "full.html",
    api_addr := "127.0.0.1:6364", api_username := "", api_password := "",
    trusted_proxies := [], whitelisted_ips := [], backends := [("a", vb0)] }

/-- The configuration loaded from `v0`. -/
def config0 : proxyConfig :=
  { v := v0
    dyn :=
      { trusted_proxies := { ipList := [], ipNetList := [] }
        whitelisted_ips := { ipList := [], ipNetList := [] }
        session_refresh_interval := 1000000000
        queue_session_ttl := 60000000000
        queue_max_sessions := 1
        queue_template := "queue.html"
        queue_full_template := "full.html"
        backends_config_map :=
          [("a", { url := "http://127.0.0.1:6464", sessionTTL := 60000000000, maxSessions := 2,
                   tlsInsecure := false, weight := 1 })]
        api_username := ""
        api_password := "" }
    addr := "127.0.0.1:6363"
    cookie_name := "qpid"
    timeout := 5000000000
    api_addr := "127.0.0.1:6364" }

/-- Backend `a` of `v0` holding the given sessions. -/
def backendA (sessions : List session) : backend :=
  { name := "a", url := "http://127.0.0.1:6464", weight := 1, sessionTTL := 60000000000,
    maxSessions := 2, sessionStore := { sessions := sessions } }

/-- State right after start-up: backend `a` and the queue are empty. -/
def qp0 : QProxy :=
  { config := config0, backends := [backendA []], queuedSessions := newSessionStore }

/-- State with backend `a` full and an empty queue. -/
def qpBusy : QProxy :=
  { config := config0
    backends := [backendA [{ id := "s1", expiration := 100 }, { id := "s2", expiration := 200 }]]
    queuedSessions := newSessionStore }

/-- State with backend `a` full and the queue at its cap. -/
def qpFull : QProxy :=
  { config := config0
    backends := [backendA [{ id := "s1", expiration := 100 }, { id := "s2", expiration := 200 }]]
    queuedSessions := { sessions := [{ id := "s3", expiration := 300 }] } }

/-- Backend `b`, configured like `a`, holding the given sessions. -/
def backendB (sessions : List session) : backend :=
  { backendA sessions with name := "b" }

/-- State with backends `a` and `b` holding one session each. -/
def qpAB : QProxy :=
  { config := config0
    backends := [backendA [{ id := "s1", expiration := 100 }],
      backendB [{ id := "s2", expiration := 200 }]]
    queuedSessions := newSessionStore }

/-- A configuration with the backends `b` and `c`. -/
def vBC : viperConfig := { v0 with backends := [("b", vb0), ("c", vb0)] }

/-- The configuration active after `vBC` is reloaded over `config0`. -/
def configBC : proxyConfig := (config0.syncReload lib0 (Except.ok vBC)).1

/-- Library functions as `lib0`, with a `url.Parse` that rejects the url `http://[::1`
(the closing bracket of the host is missing). -/
def libStrict : stdlib :=
  { lib0 with urlParse := fun url => if url = "http://[::1" then none else some url }

/-- A configuration that passes validation and loads, but whose backend url does not
parse; it also changes the queue settings. -/
def vBadUrl : viperConfig :=
  { v0 with
    queue_session_ttl := 30
    queue_max_sessions := 5
    backends := [("a", { vb0 with url := "http://[::1", max_sessions := 7 })] }

/-- Values of the request-side library functions on the addresses, headers and ids used
below. -/
def net0 : netlib :=
  { splitHostPort := fun addr =>
      if addr = "127.0.0.1:4000" then some ("127.0.0.1", "4000")
      else if addr = "10.1.2.3:12345" then some ("10.1.2.3", "12345")
      else if addr = "8.8.8.8:5000" then some ("8.8.8.8", "5000")
      else none
    netContains := fun ipNet ip => ipNet == "10.0.0.0/8" && ip == "10.1.2.3"
    ipEqual := fun i ip => i == ip
    splitForwarded := fun header =>
      if header = "9.9.9.9, 1.2.3.4" then ["9.9.9.9", "1.2.3.4"] else [header]
    xidFromString := fun id => id == "9m4e2mr0ui3e8a215n4g" }

/-- Configuration `config0` with the trusted proxy 127.0.0.1 and the whitelist
1.2.3.4 and 10.0.0.0/8. -/
def configTrust : proxyConfig :=
  { config0 with
    dyn :=
      { config0.dyn with
        trusted_proxies := { ipList := ["127.0.0.1"], ipNetList := [] }
        whitelisted_ips := { ipList := ["1.2.3.4"], ipNetList := ["10.0.0.0/8"] } } }

/-- State `qpFull` (backend and queue full) under the configuration `configTrust`. -/
def qpTrust : QProxy := { qpFull with config := configTrust }

/-- A request relayed by the trusted proxy for the client 1.2.3.4. -/
def reqForwarded : request :=
  { remoteAddr := "127.0.0.1:4000", forwardedFor := "9.9.9.9, 1.2.3.4", cookies := [] }

/-- A request coming straight from 10.1.2.3, with a session cookie. -/
def reqInternal : request :=
  { remoteAddr := "10.1.2.3:12345", forwardedFor := "", cookies := [("qpid", "s2")] }

/-- A request coming straight from 8.8.8.8 without cookie. -/
def reqPlain : request :=
  { remoteAddr := "8.8.8.8:5000", forwardedFor := "", cookies := [] }

/-- Inputs of a request: `rand.Intn` returning 0, the given generated id and instant, the
identity shuffle and the draw 0. -/
def handle0 (id : String) (now : Int) : handling :=
  { intn := fun _ => 0, id := id, shuffle := fun l => l, rndWeight := 0, now := now }

/-- A configuration with negative durations, a negative `max_sessions` and a negative
`weight`. -/
def vNegative : viperConfig :=
  { v0 with
    timeout := -5
    session_refresh_interval := -1
    queue_session_ttl := -60
    backends := [("a", { vb0 with session_ttl := -60, max_sessions := -1, weight := some (-1) })] }

/-- The configuration `v0` with the key `weight` of backend `a` left unset. -/
def vNoWeight : viperConfig :=
  { v0 with backends := [("a", { vb0 with weight := none })] }

/-- A viper instance in which nothing is set (`viper.New()`). -/
def vEmpty : viperConfig :=
  { addr := "", cookie_name := "", timeout := 0, session_refresh_interval := 0,
    queue_session_ttl := 0, queue_max_sessions := 0, queue_template := "",
    queue_full_template := "", api_addr := "", api_username := "", api_password := "",
    trusted_proxies := [], whitelisted_ips := [], backends := [] }

/-- The instance built by `newViper` in config_test.go: everything required is set and
there is no backend. -/
def vTest : viperConfig :=
  { vEmpty with
    addr := "127.0.0.1:6363", cookie_name := "qpid",
    queue_template := "../../test/template.html",
    queue_full_template := "../../test/template.html", api_addr := "127.0.0.1:6364",
    session_refresh_interval := 1, queue_session_ttl := 5, timeout := 5 }

/-- A backend entry in which nothing is set. -/
def vbEmpty : viperBackend :=
  { url := "", session_ttl := 0, max_sessions := 0, tls_insecure := false, weight := none }

/-- A request coming straight from 8.8.8.8 with the cookie of a session that is no
longer stored anywhere, its id being well formed. -/
def reqExpired : request :=
  { remoteAddr := "8.8.8.8:5000", forwardedFor := "",
    cookies := [("qpid", "9m4e2mr0ui3e8a215n4g")] }

/-- State of the promotion loop with backend `a` of weight 1/4 and capacity 1, empty, and
backend `b` of weight 1, full. -/
def stLow : promotion :=
  { backends := [{ backendA [] with weight := float64.finite (1 / 4), maxSessions := 1 },
      backendB [{ id := "s1", expiration := 100 }, { id := "s2", expiration := 200 }]]
    availableBackends := [0, 1]
    queuedSessions := { sessions := [] } }

/-- Backend `a` with the capacity -2^63 (the least Go `int`, which validation accepts),
holding one session. -/
def bMin : backend :=
  { backendA [{ id := "s1", expiration := 100 }] with maxSessions := -9223372036854775808 }

/-- The instance of `newViper` with a backend `a` whose entry is not a map (`a: 5` in the
file). -/
def vNotMap : viperConfig :=
  { vTest with backends := [("a", { vbEmpty with is_map := false })] }

/-- The configuration `v0` with a backend `a` of weight NaN (`weight: .nan` in the file)
and a backend `b`. -/
def vNaN : viperConfig :=
  { v0 with backends := [("a", { vb0 with weight := some float64.nan }), ("b", vb0)] }

/-- State of the promotion loop with backend `a` of weight NaN and backend `b` of weight
1, both empty. -/
def stNaN : promotion :=
  { backends := [{ backendA [] with weight := float64.nan }, backendB []]
    availableBackends := [0, 1]
    queuedSessions := { sessions := [] } }

/-- The configuration `v0` with three backends of capacities 2^63 - 1, 2^63 - 1 and 4. -/
def vHuge : viperConfig :=
  { v0 with backends := [("a", { vb0 with max_sessions := 9223372036854775807 }),
      ("b", { vb0 with max_sessions := 9223372036854775807 }),
      ("c", { vb0 with max_sessions := 4 })] }

/-- State reached from start-up by three arrivals (two sessions stored on backend `a`,
one queued) followed by a reload to `vHuge`. -/
def qpHuge : QProxy :=
  qp0.run lib0 [op.newSession "s1" id 0 10, op.newSession "s2" id 0 20,
    op.newSession "s3" id 0 30, op.reload (Except.ok vHuge)]

/-- State with backend `a` empty and the backend `bMin`, the queue being empty. -/
def qpMin : QProxy :=
  { config := config0, backends := [backendA [], bMin], queuedSessions := newSessionStore }

/-- The configuration `v0` with two backends of capacity 2^63 - 1. -/
def vHugeTwo : viperConfig :=
  { v0 with backends := [("a", { vb0 with max_sessions := 9223372036854775807 }),
      ("b", { vb0 with max_sessions := 9223372036854775807 })] }

/-- State reached from start-up by three arrivals followed by a reload to `vHugeTwo`. -/
def qpHugeTwo : QProxy :=
  qp0.run lib0 [op.newSession "s1" id 0 10, op.newSession "s2" id 0 20,
    op.newSession "s3" id 0 30, op.reload (Except.ok vHugeTwo)]

/-! # Theorems -/

/-! ## The expiry sweep -/

/-- In-place filtering loop: when the first `w` positions hold the survivors of the first
`i` sessions and the positions from `i` on are untouched, the rebuilt slice is the
filtered list. -/
theorem removeExpiredLoop_spec (now : Int) (orig : List session) (n : Nat) (arr : List session)
    (i w : Nat) (hw : w ≤ i) (hn : i + n = orig.length) (hlen : arr.length = orig.length)
    (htake : arr.take w = (orig.take i).filter (fun s => decide (now < s.expiration)))
    (hdrop : arr.drop i = orig.drop i) :
    (removeExpiredLoop now n arr i w).1.take (removeExpiredLoop now n arr i w).2 =
      orig.filter (fun s => decide (now < s.expiration)) := by
  induction n generalizing arr i w with
  | zero =>
    simp only [removeExpiredLoop]
    have : i = orig.length := by omega
    rw [htake, this, List.take_length]
  | succ n ih =>
    have hi : i < orig.length := by omega
    have hget : arr[i]? = orig[i]? := by
      have := congrArg (fun l => l[0]?) hdrop
      simpa using this
    have horig : orig[i]? = some (orig[i]) := List.getElem?_eq_getElem hi
    have htake_succ : orig.take (i + 1) = orig.take i ++ [orig[i]] := by
      rw [List.take_succ, horig]; rfl
    unfold removeExpiredLoop
    rw [hget, horig]
    simp only
    split
    · rename_i hkeep
      apply ih
      · omega
      · omega
      · simp [hlen]
      · rw [htake_succ, List.filter_append, ← htake]
        simp only [List.filter_cons, hkeep, decide_True, List.filter_nil, if_true]
        have hwlt : w < arr.length := by omega
        rw [List.take_succ]
        have h1 : List.take w (arr.set w orig[i]) = List.take w arr := by
          rw [List.set_take]
          exact List.set_eq_of_length_le (by simp)
        simp [h1, hwlt]
      · rw [List.drop_set_of_lt _ _ (by omega), ← List.drop_drop 1 i, hdrop, List.drop_drop]
    · rename_i hdropit
      apply ih
      · omega
      · omega
      · exact hlen
      · rw [htake_succ, List.filter_append, ← htake]
        simp [List.filter_cons, hdropit]
      · rw [← List.drop_drop 1 i, hdrop, List.drop_drop]

/-- Sessions kept by `removeExpired`: those expiring after `now`, in their order. -/
theorem sessionStore.removeExpired_sessions (store : sessionStore) (now : Int) :
    (store.removeExpired now).sessions =
      store.sessions.filter (fun s => decide (now < s.expiration)) := by
  unfold sessionStore.removeExpired
  split
  · rename_i h
    rw [List.length_eq_zero.1 h]
    rfl
  · exact removeExpiredLoop_spec now store.sessions _ _ 0 0 (le_refl _) (by simp) rfl
      (by simp) rfl

/-! ## Stores -/

theorem sessionStore.load_eq_none_iff (store : sessionStore) (id : String) :
    store.load id = none ↔ id ∉ store.ids := by
  simp [sessionStore.load, sessionStore.ids, List.find?_eq_none]

theorem sessionStore.load_some {store : sessionStore} {id : String} {s : session}
    (h : store.load id = some s) : s ∈ store.sessions ∧ s.id = id := by
  unfold sessionStore.load at h
  have h1 := List.mem_of_find?_eq_some h
  have h2 := List.find?_some h
  exact ⟨h1, by simpa using h2⟩

theorem sessionStore.load_isSome_iff (store : sessionStore) (id : String) :
    (store.load id).isSome ↔ id ∈ store.ids := by
  rw [← not_iff_not, ← sessionStore.load_eq_none_iff]
  cases store.load id <;> simp

theorem backend.remainingPlaces_nonneg (b : backend) : 0 ≤ b.remainingPlaces := by
  unfold backend.remainingPlaces
  simp only
  split <;> omega

/-! ## Comparisons of `float64` -/

theorem float64.finite_le (a b : ℚ) : float64.finite a ≤ float64.finite b ↔ a ≤ b := by
  show float64.le (float64.finite a) (float64.finite b) = true ↔ a ≤ b
  simp only [float64.le, decide_eq_true_eq]

theorem float64.finite_lt (a b : ℚ) : float64.finite a < float64.finite b ↔ a < b := by
  show float64.lt (float64.finite a) (float64.finite b) = true ↔ a < b
  simp only [float64.lt, decide_eq_true_eq]

theorem float64.ofNat_eq (n : Nat) : (OfNat.ofNat n : float64) = float64.finite n := rfl

/-- A draw of at most 1 is at most the weight 1. -/
theorem float64.one_ge (r : ℚ) (h : r ≤ 1) : (1 : float64) ≥ float64.finite r := by
  show float64.finite r ≤ (OfNat.ofNat 1 : float64)
  rw [float64.ofNat_eq, float64.finite_le]
  exact_mod_cast h

/-- The weighted pass does not skip a weight exactly when the weight is at least the draw
or is NaN. -/
theorem float64.not_gt_iff (r : ℚ) (w : float64) :
    ¬ float64.finite r > w ↔ (w ≥ float64.finite r ∨ w = float64.nan) := by
  cases w with
  | finite q =>
    show ¬ float64.finite q < float64.finite r ↔
      (float64.finite r ≤ float64.finite q ∨ float64.finite q = float64.nan)
    rw [float64.finite_lt, float64.finite_le]
    constructor
    · intro h; exact Or.inl (not_lt.1 h)
    · rintro (h | h)
      · exact not_lt.2 h
      · cases h
  | posInf =>
    constructor
    · intro _; exact Or.inl rfl
    · intro _ h; cases h
  | negInf =>
    constructor
    · intro h; exact absurd rfl h
    · rintro (h | h)
      · cases h
      · cases h
  | nan =>
    constructor
    · intro _; exact Or.inr rfl
    · intro _ h; cases h

/-- Without overflow `subLen` is the exact difference. -/
theorem subLen_of_ge (maxSessions len : Int) (h : -9223372036854775808 ≤ maxSessions - len) :
    subLen maxSessions len = maxSessions - len := by
  unfold subLen
  rw [if_neg (by omega)]

/-- On operands that are Go `int`s, the second one a length, `subLen` is the difference
modulo 2^64. -/
theorem subLen_eq_wrapInt (maxSessions len : Int)
    (hmin : -9223372036854775808 ≤ maxSessions) (hmax : maxSessions < 9223372036854775808)
    (hlen : 0 ≤ len) (hlen' : len < 9223372036854775808) :
    subLen maxSessions len = wrapInt (maxSessions - len) := by
  unfold subLen wrapInt
  split <;> omega

/-- A backend holding no more than its capacity: the remaining places are the exact
difference. -/
theorem backend.remainingPlaces_of_le (b : backend)
    (h : b.sessionStore.len ≤ b.maxSessions) :
    b.remainingPlaces = b.maxSessions - b.sessionStore.len := by
  unfold backend.remainingPlaces
  simp only
  rw [subLen_of_ge _ _ (by omega), if_neg (by omega)]

theorem backend.remainingPlaces_pos_of_lt (b : backend)
    (h : b.sessionStore.len < b.maxSessions) : 0 < b.remainingPlaces := by
  rw [backend.remainingPlaces_of_le b (by omega)]
  omega

/-- A backend with a remaining place that holds no more than its capacity holds less. -/
theorem backend.lt_of_room (b : backend) (h : b.sessionStore.len ≤ b.maxSessions)
    (hroom : b.remainingPlaces ≠ 0) : b.sessionStore.len < b.maxSessions := by
  rw [backend.remainingPlaces_of_le b h] at hroom
  omega

/-- Outcome of `storeSession` for an id the store does not hold. -/
theorem backend.storeSession_fresh (b : backend) (id : String) (now : Int)
    (hid : id ∉ b.sessionStore.ids) :
    b.storeSession id now =
      if b.remainingPlaces = 0 then (b, none)
      else (b.withNew id now, some (newSession id b.sessionTTL now)) := by
  have hl := (sessionStore.load_eq_none_iff _ _).2 hid
  unfold backend.storeSession
  rw [hl]
  simp only
  split
  · rfl
  · have : b.sessionStore.load (newSession id b.sessionTTL now).id = none := hl
    simp [sessionStore.store, this, backend.withNew]

/-- Outcome of `storeSession` for an id the store holds. -/
theorem backend.storeSession_present (b : backend) (id : String) (now : Int)
    (hid : id ∈ b.sessionStore.ids) :
    ∃ s, s ∈ b.sessionStore.sessions ∧ s.id = id ∧ b.storeSession id now = (b, some s) := by
  have hl := (sessionStore.load_isSome_iff _ _).2 hid
  obtain ⟨s, hs⟩ := Option.isSome_iff_exists.1 hl
  obtain ⟨h1, h2⟩ := sessionStore.load_some hs
  refine ⟨s, h1, h2, ?_⟩
  unfold backend.storeSession
  rw [hs]

/-! ## Admission of a new session -/

theorem availableFrom_eq_nil (idx : Nat) (backends : List backend)
    (h : ∀ b ∈ backends, ¬ 0 < b.remainingPlaces) : availableFrom idx backends = [] := by
  induction backends generalizing idx with
  | nil => rfl
  | cons b rest ih =>
    have hb := h b (List.mem_cons_self _ _)
    have hr := ih (idx + 1) (fun b hb => h b (List.mem_cons_of_mem _ hb))
    simp [availableFrom, hb, hr]

theorem mem_availableFrom (idx : Nat) (backends : List backend) (i : Nat) :
    i ∈ availableFrom idx backends ↔
      idx ≤ i ∧ ∃ b, backends[i - idx]? = some b ∧ 0 < b.remainingPlaces := by
  induction backends generalizing idx with
  | nil => simp [availableFrom]
  | cons b rest ih =>
    unfold availableFrom
    by_cases hb : b.remainingPlaces > 0
    · simp only [hb, if_true, List.mem_cons, ih]
      constructor
      · rintro (rfl | ⟨h1, c, h2, h3⟩)
        · exact ⟨le_refl _, b, by simp, hb⟩
        · refine ⟨by omega, c, ?_, h3⟩
          have : i - idx = (i - (idx + 1)) + 1 := by omega
          rw [this]; simpa using h2
      · rintro ⟨h1, c, h2, h3⟩
        by_cases hi : i = idx
        · exact Or.inl hi
        · right
          refine ⟨by omega, c, ?_, h3⟩
          have : i - idx = (i - (idx + 1)) + 1 := by omega
          rw [this] at h2; simpa using h2
    · simp only [hb, if_false, ih]
      constructor
      · rintro ⟨h1, c, h2, h3⟩
        refine ⟨by omega, c, ?_, h3⟩
        have : i - idx = (i - (idx + 1)) + 1 := by omega
        rw [this]; simpa using h2
      · rintro ⟨h1, c, h2, h3⟩
        by_cases hi : i = idx
        · subst hi
          simp at h2
          subst h2
          exact absurd h3 hb
        · refine ⟨by omega, c, ?_, h3⟩
          have : i - idx = (i - (idx + 1)) + 1 := by omega
          rw [this] at h2; simpa using h2

theorem mem_availableBackends (qp : QProxy) (i : Nat) :
    i ∈ qp.availableBackends ↔ ∃ b, qp.backends[i]? = some b ∧ 0 < b.remainingPlaces := by
  simp [QProxy.availableBackends, mem_availableFrom]

theorem mem_backendIds (backends : List backend) (id : String) :
    id ∈ backendIds backends ↔ ∃ b ∈ backends, id ∈ b.sessionStore.ids := by
  induction backends with
  | nil => simp [backendIds]
  | cons b rest ih => simp [backendIds, ih]

theorem not_mem_ids_of_getElem? {backends : List backend} {id : String} {i : Nat} {b : backend}
    (hfresh : id ∉ backendIds backends) (hb : backends[i]? = some b) :
    id ∉ b.sessionStore.ids := by
  intro h
  exact hfresh ((mem_backendIds _ _).2 ⟨b, List.getElem?_mem hb, h⟩)

theorem directChoice_cons_hit (backends : List backend) (r : ℚ) (i : Nat) (rest : List Nat)
    (h : weightAt backends i ≥ r) : directChoice backends r (i :: rest) = some i := by
  simp [directChoice, List.find?, h]

theorem directChoice_cons_miss (backends : List backend) (r : ℚ) (i : Nat) (rest : List Nat)
    (h : ¬ weightAt backends i ≥ r) (hrest : rest ≠ []) :
    directChoice backends r (i :: rest) = directChoice backends r rest := by
  simp only [directChoice, List.find?, h, decide_False]
  cases hf : List.find? (fun i => decide (weightAt backends i ≥ r)) rest with
  | some c => rfl
  | none =>
    simp only
    cases rest with
    | nil => exact absurd rfl hrest
    | cons a t => simp [List.getLast?_cons_cons]

theorem directChoice_single_miss (backends : List backend) (r : ℚ) (i : Nat)
    (h : ¬ weightAt backends i ≥ r) : directChoice backends r [i] = some i := by
  simp [directChoice, List.find?, h]

/-- Placement loop of `syncNewSession` on a list of available backends, for a fresh id: the
session goes to the backend picked by `directChoice`. -/
theorem placeNew_direct (backends : List backend) (id : String) (now : Int) (r : ℚ)
    (L : List Nat) (idx : Nat) (last : Int) (hL : L ≠ [])
    (hlast : last = (idx : Int) + (L.length : Int) - 1)
    (havail : ∀ i ∈ L, ∃ b, backends[i]? = some b ∧ 0 < b.remainingPlaces)
    (hfresh : id ∉ backendIds backends) :
    ∃ c b, directChoice backends r L = some c ∧ backends[c]? = some b ∧
      placeNew backends id now r last idx L =
        some (backends.set c (b.withNew id now), newSession id b.sessionTTL now, c) := by
  induction L generalizing idx with
  | nil => exact absurd rfl hL
  | cons i rest ih =>
    obtain ⟨b, hb, hpos⟩ := havail i (List.mem_cons_self _ _)
    have hw : weightAt backends i = b.weight := by simp [weightAt, hb]
    have hstore : b.storeSession id now = (b.withNew id now, some (newSession id b.sessionTTL now)) := by
      rw [backend.storeSession_fresh b id now (not_mem_ids_of_getElem? hfresh hb)]
      have : ¬ b.remainingPlaces = 0 := by omega
      simp [this]
    by_cases hsel : b.weight ≥ r
    · refine ⟨i, b, directChoice_cons_hit _ _ _ _ (by rw [hw]; exact hsel), hb, ?_⟩
      simp [placeNew, hb, hsel, hstore]
    · by_cases hrest : rest = []
      · subst hrest
        refine ⟨i, b, directChoice_single_miss _ _ _ (by rw [hw]; exact hsel), hb, ?_⟩
        have hidx : (idx : Int) = last := by simp at hlast; omega
        simp [placeNew, hb, hidx, hstore]
      · have hne : ¬ ((idx : Int) = last) := by
          have : 0 < rest.length := List.length_pos.2 hrest
          simp at hlast; omega
        obtain ⟨c, b', h1, h2, h3⟩ := ih (idx + 1) hrest (by simp at hlast ⊢; omega)
          (fun j hj => havail j (List.mem_cons_of_mem _ hj))
        refine ⟨c, b', ?_, h2, ?_⟩
        · rw [directChoice_cons_miss _ _ _ _ (by rw [hw]; exact hsel) hrest]; exact h1
        · simp only [placeNew, hb, hsel, hne, or_self, if_false]
          exact h3

/-- C3. Direct placement: with an empty queue, a backend with a remaining place, a shuffle
that permutes the available backends, a draw in [0,1) and a fresh id, `syncNewSession`
succeeds on the backend picked by `directChoice` (first of the shuffled list with
weight at least the draw, else the last one); the new session, expiring one backend TTL
after `now`, is appended to that backend's store and nothing else changes (the queue stays
empty). A first backend of weight 1 is the one chosen. -/
theorem syncNewSession_direct (qp : QProxy) (id : String) (shuffle : List Nat → List Nat)
    (r : ℚ) (now : Int)
    (hqueue : qp.queuedSessions.len = 0)
    (hfree : ∃ b ∈ qp.backends, 0 < b.remainingPlaces)
    (hshuffle : (shuffle qp.availableBackends).Perm qp.availableBackends)
    (hr : 0 ≤ r ∧ r < 1)
    (hfresh : id ∉ qp.allIds) :
    ∃ c b, directChoice qp.backends r (shuffle qp.availableBackends) = some c ∧
      qp.backends[c]? = some b ∧
      qp.syncNewSession id shuffle r now =
        ({ qp with backends := qp.backends.set c (b.withNew id now) },
          { session := some { id := id, expiration := now + b.sessionTTL },
            backend := some c, ok := true }) ∧
      (b.withNew id now).sessionStore.sessions =
        b.sessionStore.sessions ++ [{ id := id, expiration := now + b.sessionTTL }] ∧
      (qp.syncNewSession id shuffle r now).1.queuedSessions.sessions = [] ∧
      (∀ i rest, shuffle qp.availableBackends = i :: rest → weightAt qp.backends i = 1 → c = i) := by
  obtain ⟨b0, hb0, hpos0⟩ := hfree
  obtain ⟨i0, hi0⟩ := List.mem_iff_getElem?.1 hb0
  have hmem0 : i0 ∈ qp.availableBackends := (mem_availableBackends qp i0).2 ⟨b0, hi0, hpos0⟩
  have havne : qp.availableBackends ≠ [] := List.ne_nil_of_mem hmem0
  have hlen : 0 < qp.availableBackends.length := List.length_pos.2 havne
  have hLne : shuffle qp.availableBackends ≠ [] := by
    intro h
    rw [h] at hshuffle
    exact havne (List.Perm.nil_eq hshuffle).symm
  have hfreshB : id ∉ backendIds qp.backends := by
    intro h
    exact hfresh (by simp [QProxy.allIds, h])
  obtain ⟨c, b, hc, hb, hplace⟩ := placeNew_direct qp.backends id now r
    (shuffle qp.availableBackends) 0 (((shuffle qp.availableBackends).length : Int) - 1) hLne
    (by simp)
    (fun i hi => (mem_availableBackends qp i).1 (hshuffle.mem_iff.1 hi)) hfreshB
  have hqnil : qp.queuedSessions.sessions = [] := by
    have : (qp.queuedSessions.sessions.length : Int) = 0 := hqueue
    exact List.length_eq_zero.1 (by omega)
  refine ⟨c, b, hc, hb, ?_, rfl, ?_, ?_⟩
  · unfold QProxy.syncNewSession
    simp only [hqueue, if_true, gt_iff_lt, hlen, hplace]
    rfl
  · unfold QProxy.syncNewSession
    simp only [hqueue, if_true, gt_iff_lt, hlen, hplace]
    exact hqnil
  · intro i rest hL hw
    have : directChoice qp.backends r (shuffle qp.availableBackends) = some i := by
      rw [hL]
      exact directChoice_cons_hit _ _ _ _ (by rw [hw]; exact float64.one_ge r (le_of_lt hr.2))
    rw [this] at hc
    exact (Option.some.inj hc).symm

/-- C4. A full queue refuses the new session: with `queue.max_sessions > 0` and a queue
at least that long, `syncNewSession` returns (nil, nil, false) and the state (queue and
every backend store) is unchanged, whatever the backends, shuffle and draw are. -/
theorem syncNewSession_full (qp : QProxy) (id : String) (shuffle : List Nat → List Nat)
    (r : ℚ) (now : Int)
    (hmax : 0 < qp.config.dyn.queue_max_sessions)
    (hfull : qp.config.dyn.queue_max_sessions ≤ qp.queuedSessions.len) :
    qp.syncNewSession id shuffle r now =
      (qp, { session := none, backend := none, ok := false }) := by
  have hne : ¬ qp.queuedSessions.len = 0 := by omega
  have hslots : qp.hasRemainingQueueSlots = false := by
    unfold QProxy.hasRemainingQueueSlots
    simp only
    rw [if_neg (by omega)]
    simp
    omega
  unfold QProxy.syncNewSession
  simp [hne, hslots]

/-- C5. Enqueue at the tail: when the queue is not full and either the queue is non-empty
or no backend has a remaining place, `syncNewSession` at `now` with a fresh id returns
(s, nil, true) with `s.id = id` and `s.expiration = now + queue.session_ttl`; the queue
becomes the old queue followed by `s` and the backends are unchanged. -/
theorem syncNewSession_enqueue (qp : QProxy) (id : String) (shuffle : List Nat → List Nat)
    (r : ℚ) (now : Int)
    (hroom : ¬ (0 < qp.config.dyn.queue_max_sessions ∧
      qp.config.dyn.queue_max_sessions ≤ qp.queuedSessions.len))
    (hqueue : qp.queuedSessions.len ≠ 0 ∨ ∀ b ∈ qp.backends, ¬ 0 < b.remainingPlaces)
    (hfresh : id ∉ qp.allIds) :
    qp.syncNewSession id shuffle r now =
      ({ qp with queuedSessions :=
          { sessions := qp.queuedSessions.sessions ++
              [{ id := id, expiration := now + qp.config.dyn.queue_session_ttl }] } },
        { session := some { id := id, expiration := now + qp.config.dyn.queue_session_ttl },
          backend := none, ok := true }) := by
  have hslots : qp.hasRemainingQueueSlots = true := by
    unfold QProxy.hasRemainingQueueSlots
    simp only
    split
    · rfl
    · simp
      omega
  have hload : qp.queuedSessions.load id = none := by
    rw [sessionStore.load_eq_none_iff]
    intro h
    exact hfresh (by simp [QProxy.allIds, h])
  have hdirect : (if qp.queuedSessions.len = 0 then
      (if qp.availableBackends.length > 0 then
        placeNew qp.backends id now r (((shuffle qp.availableBackends).length : Int) - 1) 0
          (shuffle qp.availableBackends)
      else none)
    else none) = none := by
    rcases hqueue with h | h
    · rw [if_neg h]
    · have : qp.availableBackends = [] := availableFrom_eq_nil 0 qp.backends h
      simp [this]
  unfold QProxy.syncNewSession
  simp only [hdirect, hslots]
  simp [sessionStore.store, newSession, hload]

/-- Witness of C3 at the start-up state `qp0`: the session goes to backend 0. -/
theorem syncNewSession_direct_witness :
    qp0.queuedSessions.len = 0 ∧ (∃ b ∈ qp0.backends, 0 < b.remainingPlaces) ∧
      ∃ c b, directChoice qp0.backends 0 qp0.availableBackends = some c ∧
        qp0.backends[c]? = some b ∧
        qp0.syncNewSession "s1" id 0 7 =
          ({ qp0 with backends := qp0.backends.set c (b.withNew "s1" 7) },
            { session := some { id := "s1", expiration := 7 + b.sessionTTL },
              backend := some c, ok := true }) ∧
        (b.withNew "s1" 7).sessionStore.sessions =
          b.sessionStore.sessions ++ [{ id := "s1", expiration := 7 + b.sessionTTL }] ∧
        (qp0.syncNewSession "s1" id 0 7).1.queuedSessions.sessions = [] ∧
        (∀ i rest, qp0.availableBackends = i :: rest → weightAt qp0.backends i = 1 → c = i) :=
  ⟨by decide, ⟨backendA [], by decide, by decide⟩,
    syncNewSession_direct qp0 "s1" id 0 7 (by decide) ⟨backendA [], by decide, by decide⟩
      (List.Perm.refl _) ⟨le_refl _, zero_lt_one⟩ (by decide)⟩

/-- Witness of C4 at the state `qpFull`. -/
theorem syncNewSession_full_witness :
    0 < qpFull.config.dyn.queue_max_sessions ∧
      qpFull.config.dyn.queue_max_sessions ≤ qpFull.queuedSessions.len ∧
      qpFull.syncNewSession "s4" id 0 7 =
        (qpFull, { session := none, backend := none, ok := false }) :=
  ⟨by decide, by decide, syncNewSession_full qpFull "s4" id 0 7 (by decide) (by decide)⟩

/-- Witness of C5 at the state `qpBusy`: the session is queued. -/
theorem syncNewSession_enqueue_witness :
    (∀ b ∈ qpBusy.backends, ¬ 0 < b.remainingPlaces) ∧
      qpBusy.syncNewSession "s3" id 0 7 =
        ({ qpBusy with queuedSessions :=
            { sessions := [{ id := "s3", expiration := 7 + 60000000000 }] } },
          { session := some { id := "s3", expiration := 7 + 60000000000 },
            backend := none, ok := true }) :=
  ⟨by decide,
    syncNewSession_enqueue qpBusy "s3" id 0 7 (by decide) (Or.inr (by decide)) (by decide)⟩

/-- The direct placement on backends whose difference `maxSessions - len` wraps around. In
`qpMin` the backend `bMin` (capacity -2^63, one session) has 2^63 - 1 remaining places:
it is among the available backends, and with the shuffle that reverses the list the new
session is stored on it. When it is the only backend, the session is stored on it and
not queued. -/
theorem direct_placement_on_wrapped :
    qpMin.availableBackends = [0, 1] ∧
      directChoice qpMin.backends 0 [1, 0] = some 1 ∧
      qpMin.syncNewSession "s9" List.reverse 0 7 =
        ({ qpMin with backends := [backendA [], bMin.withNew "s9" 7] },
          { session := some { id := "s9", expiration := 7 + bMin.sessionTTL },
            backend := some 1, ok := true }) ∧
      ({ qpMin with backends := [bMin] } : QProxy).syncNewSession "s9" id 0 7 =
        ({ qpMin with backends := [bMin.withNew "s9" 7] },
          { session := some { id := "s9", expiration := 7 + bMin.sessionTTL },
            backend := some 0, ok := true }) := by
  refine ⟨by decide, by decide, by decide, by decide⟩

/-! ## Shape of the placement loops -/

/-- Backend returned by `storeSession`: unchanged, or the fresh session appended. -/
theorem backend.storeSession_fst (b : backend) (id : String) (now : Int) :
    (b.storeSession id now).1 = b ∨
      (id ∉ b.sessionStore.ids ∧ b.remainingPlaces ≠ 0 ∧
        b.storeSession id now = (b.withNew id now, some (newSession id b.sessionTTL now))) := by
  by_cases hid : id ∈ b.sessionStore.ids
  · obtain ⟨s, _, _, hs⟩ := backend.storeSession_present b id now hid
    left; rw [hs]
  · rw [backend.storeSession_fresh b id now hid]
    by_cases hz : b.remainingPlaces = 0
    · left; simp [hz]
    · right; exact ⟨hid, hz, by simp [hz]⟩

/-- With a remaining place `storeSession` always returns a session. -/
theorem backend.storeSession_snd_of_room (b : backend) (id : String) (now : Int)
    (h : b.remainingPlaces ≠ 0) : (b.storeSession id now).2 ≠ none := by
  by_cases hid : id ∈ b.sessionStore.ids
  · obtain ⟨s, _, _, hs⟩ := backend.storeSession_present b id now hid
    rw [hs]; simp
  · rw [backend.storeSession_fresh b id now hid]
    simp [h]

theorem forall₂_set_right {α : Type} {R : α → α → Prop} {l l' : List α} {i : Nat} {b b' : α}
    (h : List.Forall₂ R l l') (hb : l'[i]? = some b) (hR : ∀ a, R a b → R a b') :
    List.Forall₂ R l (l'.set i b') := by
  induction h generalizing i with
  | nil => simp at hb
  | cons hab hrest ih =>
    cases i with
    | zero =>
      simp at hb
      subst hb
      exact List.Forall₂.cons (hR _ hab) hrest
    | succ j =>
      simp at hb
      exact List.Forall₂.cons hab (ih hb)

theorem forall₂_getElem? {α : Type} {R : α → α → Prop} {l l' : List α} {i : Nat} {a : α}
    (h : List.Forall₂ R l l') (ha : l[i]? = some a) : ∃ b, l'[i]? = some b ∧ R a b := by
  induction h generalizing i with
  | nil => simp at ha
  | cons hab hrest ih =>
    cases i with
    | zero =>
      simp at ha
      subst ha
      exact ⟨_, by simp, hab⟩
    | succ j =>
      simp at ha
      obtain ⟨b, hb, hr⟩ := ih ha
      exact ⟨b, by simpa using hb, hr⟩

theorem forall₂_refl_of {α : Type} {R : α → α → Prop} (hrefl : ∀ a, R a a) (l : List α) :
    List.Forall₂ R l l := by
  induction l with
  | nil => exact List.Forall₂.nil
  | cons a l ih => exact List.Forall₂.cons (hrefl a) ih

theorem placeNew_some {backends : List backend} {id : String} {now : Int} {r : ℚ} {last : Int}
    {idx : Nat} {L : List Nat} {res : List backend × session × Nat}
    (h : placeNew backends id now r last idx L = some res) :
    ∃ b, res.2.2 ∈ L ∧ backends[res.2.2]? = some b ∧
      b.storeSession id now = ((b.storeSession id now).1, some res.2.1) ∧
      res.1 = backends.set res.2.2 (b.storeSession id now).1 := by
  induction L generalizing idx with
  | nil => simp [placeNew] at h
  | cons i rest ih =>
    unfold placeNew at h
    cases hb : backends[i]? with
    | none =>
      rw [hb] at h
      obtain ⟨b, h1, h2⟩ := ih h
      exact ⟨b, List.mem_cons_of_mem _ h1, h2⟩
    | some b =>
      rw [hb] at h
      simp only at h
      split at h
      · cases hs : b.storeSession id now with
        | mk b' o =>
          rw [hs] at h
          cases o with
          | none =>
            simp only at h
            obtain ⟨b, h1, h2⟩ := ih h
            exact ⟨b, List.mem_cons_of_mem _ h1, h2⟩
          | some s =>
            simp only [Option.some.injEq] at h
            subst h
            exact ⟨b, List.mem_cons_self _ _, hb, by simp [hs], by simp [hs]⟩
      · obtain ⟨b, h1, h2⟩ := ih h
        exact ⟨b, List.mem_cons_of_mem _ h1, h2⟩

theorem firstPass_some {backends : List backend} {id : String} {now : Int} {r : ℚ}
    {L : List Nat} {res : List backend} (h : firstPass backends id now r L = some res) :
    ∃ i b, i ∈ L ∧ backends[i]? = some b ∧ b.remainingPlaces ≠ 0 ∧ ¬ r > b.weight ∧
      res = backends.set i (b.storeSession id now).1 := by
  induction L with
  | nil => simp [firstPass] at h
  | cons i rest ih =>
    unfold firstPass at h
    cases hb : backends[i]? with
    | none =>
      rw [hb] at h
      obtain ⟨j, b, h1, h2⟩ := ih h
      exact ⟨j, b, List.mem_cons_of_mem _ h1, h2⟩
    | some b =>
      rw [hb] at h
      simp only at h
      split at h
      · obtain ⟨j, b, h1, h2⟩ := ih h
        exact ⟨j, b, List.mem_cons_of_mem _ h1, h2⟩
      · rename_i hz
        split at h
        · obtain ⟨j, b, h1, h2⟩ := ih h
          exact ⟨j, b, List.mem_cons_of_mem _ h1, h2⟩
        · rename_i hw
          cases hs : b.storeSession id now with
          | mk b' o =>
            rw [hs] at h
            cases o with
            | none =>
              exact absurd (by rw [hs]) (backend.storeSession_snd_of_room b id now hz)
            | some s =>
              simp only [Option.some.injEq] at h
              subst h
              exact ⟨i, b, List.mem_cons_self _ _, hb, hz, hw, by simp [hs]⟩

theorem secondPass_some {backends : List backend} {id : String} {now : Int}
    {L : List Nat} {res : List backend} (h : secondPass backends id now L = some res) :
    ∃ i b, i ∈ L ∧ backends[i]? = some b ∧ b.remainingPlaces ≠ 0 ∧
      res = backends.set i (b.storeSession id now).1 := by
  induction L with
  | nil => simp [secondPass] at h
  | cons i rest ih =>
    unfold secondPass at h
    cases hb : backends[i]? with
    | none =>
      rw [hb] at h
      obtain ⟨j, b, h1, h2⟩ := ih h
      exact ⟨j, b, List.mem_cons_of_mem _ h1, h2⟩
    | some b =>
      rw [hb] at h
      simp only at h
      split at h
      · obtain ⟨j, b, h1, h2⟩ := ih h
        exact ⟨j, b, List.mem_cons_of_mem _ h1, h2⟩
      · rename_i hz
        cases hs : b.storeSession id now with
        | mk b' o =>
          rw [hs] at h
          cases o with
          | none =>
            exact absurd (by rw [hs]) (backend.storeSession_snd_of_room b id now hz)
          | some s =>
            simp only [Option.some.injEq] at h
            subst h
            exact ⟨i, b, List.mem_cons_self _ _, hb, hz, by simp [hs]⟩

theorem secondPass_none {backends : List backend} {id : String} {now : Int}
    {L : List Nat} (h : secondPass backends id now L = none) :
    ∀ i ∈ L, ∀ b, backends[i]? = some b → b.remainingPlaces = 0 := by
  induction L with
  | nil => simp
  | cons i rest ih =>
    unfold secondPass at h
    intro j hj b hjb
    cases hb : backends[i]? with
    | none =>
      rw [hb] at h
      rcases List.mem_cons.1 hj with rfl | hj
      · rw [hb] at hjb; cases hjb
      · exact ih h j hj b hjb
    | some b0 =>
      rw [hb] at h
      simp only at h
      split at h
      · rename_i hz
        rcases List.mem_cons.1 hj with rfl | hj
        · rw [hb] at hjb; cases hjb; exact hz
        · exact ih h j hj b hjb
      · rename_i hz
        cases hs : b0.storeSession id now with
        | mk b' o =>
          rw [hs] at h
          cases o with
          | none =>
            exact absurd (by rw [hs]) (backend.storeSession_snd_of_room b0 id now hz)
          | some s => simp at h

/-! ## The promotion loop -/

/-- Induction over the promotion loop: a property of the sessions still to place and of
the loop state that survives a placement on a backend with a remaining place and survives
an unshift (which happens only when no listed backend has a place) holds at the end. -/
theorem promoteLoop_induct (draws : Nat → draw) (now : Int)
    (P : List session → promotion → Prop)
    (hstore : ∀ s rest st n i b, P (s :: rest) st →
      i ∈ (draws n).shuffle st.availableBackends → st.backends[i]? = some b →
      b.remainingPlaces ≠ 0 →
      P rest { st with backends := st.backends.set i (b.storeSession s.id now).1,
                       availableBackends := (draws n).shuffle st.availableBackends })
    (hkeep : ∀ s rest st n, P (s :: rest) st →
      (∀ i ∈ (draws n).shuffle st.availableBackends, ∀ b, st.backends[i]? = some b →
        b.remainingPlaces = 0) →
      P rest { st with availableBackends := (draws n).shuffle st.availableBackends,
                       queuedSessions := (st.queuedSessions.unshift s).1 })
    (n : Nat) (popped : List session) (st : promotion) (h : P popped st) :
    P [] (promoteLoop draws now n popped st) := by
  induction popped generalizing n st with
  | nil => simpa [promoteLoop] using h
  | cons s rest ih =>
    unfold promoteLoop
    simp only
    cases h1 : firstPass st.backends s.id now (draws n).rndWeight
        ((draws n).shuffle st.availableBackends) with
    | some bs =>
      obtain ⟨i, b, hi, hb, hz, _, hres⟩ := firstPass_some h1
      subst hres
      exact ih (n + 1) _ (hstore s rest st n i b h hi hb hz)
    | none =>
      cases h2 : secondPass st.backends s.id now ((draws n).shuffle st.availableBackends) with
      | some bs =>
        obtain ⟨i, b, hi, hb, hz, hres⟩ := secondPass_some h2
        subst hres
        exact ih (n + 1) _ (hstore s rest st n i b h hi hb hz)
      | none =>
        exact ih (n + 1) _ (hkeep s rest st n h (secondPass_none h2))

/-- Relation kept by the promotion loop between a reference slice and the backends, when
one more `storeSession` keeps it. -/
theorem promoteLoop_forall₂ (draws : Nat → draw) (now : Int) (R : backend → backend → Prop)
    (hstep : ∀ a b id, R a b → R a (b.storeSession id now).1)
    (ref : List backend) (n : Nat) (popped : List session) (st : promotion)
    (h : List.Forall₂ R ref st.backends) :
    List.Forall₂ R ref (promoteLoop draws now n popped st).backends := by
  refine promoteLoop_induct draws now (fun _ st => List.Forall₂ R ref st.backends)
    ?_ ?_ n popped st h
  · intro s rest st n i b hP _ hb _
    exact forall₂_set_right hP hb (fun a ha => hstep a b s.id ha)
  · intro s rest st n hP _
    exact hP

theorem wrapInt_zero : wrapInt 0 = 0 := by decide

theorem wrapInt_add_wrapInt (a b : Int) : wrapInt (a + wrapInt b) = wrapInt (a + b) := by
  unfold wrapInt
  omega

/-- An integer of the 64-bit range is its own wrapped value. -/
theorem wrapInt_of_range (x : Int) (hmin : -9223372036854775808 ≤ x)
    (hmax : x < 9223372036854775808) : wrapInt x = x := by
  unfold wrapInt
  omega

/-- The exact sum of the remaining places of a backend slice is not negative. -/
theorem freePlaces_nonneg (backends : List backend) : 0 ≤ freePlaces backends := by
  induction backends with
  | nil => exact le_refl _
  | cons b rest ih =>
    have := backend.remainingPlaces_nonneg b
    simp only [freePlaces]
    omega

/-- Outcome of the sweep loop: every backend swept, the sum of the remaining places wrapped
to an `int`, the positions with a remaining place. -/
theorem sweepFrom_eq (now : Int) (idx : Nat) (backends : List backend) :
    sweepFrom now idx backends =
      (backends.map (fun b => b.removeExpiredSessions now),
        wrapInt (freePlaces (backends.map (fun b => b.removeExpiredSessions now))),
        availableFrom idx (backends.map (fun b => b.removeExpiredSessions now))) := by
  induction backends generalizing idx with
  | nil => simp only [sweepFrom, List.map_nil, freePlaces, availableFrom, wrapInt_zero]
  | cons b rest ih =>
    unfold sweepFrom
    simp only [ih (idx + 1), List.map_cons, freePlaces, availableFrom]
    have hnn := backend.remainingPlaces_nonneg (b.removeExpiredSessions now)
    by_cases hpos : (b.removeExpiredSessions now).remainingPlaces > 0
    · simp [hpos, wrapInt_add_wrapInt]
    · have hz : (b.removeExpiredSessions now).remainingPlaces = 0 := by omega
      simp [hz]

/-- The sweep loop when the sum of the remaining places is below 2^63: `freeSlots` is that
sum. -/
theorem sweepFrom_exact (now : Int) (idx : Nat) (backends : List backend)
    (h : freePlaces (backends.map (fun b => b.removeExpiredSessions now)) <
      9223372036854775808) :
    sweepFrom now idx backends =
      (backends.map (fun b => b.removeExpiredSessions now),
        freePlaces (backends.map (fun b => b.removeExpiredSessions now)),
        availableFrom idx (backends.map (fun b => b.removeExpiredSessions now))) := by
  have hnn := freePlaces_nonneg (backends.map (fun b => b.removeExpiredSessions now))
  rw [sweepFrom_eq, wrapInt_of_range _ (by omega) h]

/-- The three ways `syncUpdateSessions` ends: nothing to promote, the panic of `pop`, or
the promotion loop on the sessions popped. -/
theorem syncUpdateSessions_cases (qp : QProxy) (draws : Nat → draw) (now : Int) :
    ((wrapInt (freePlaces (qp.backends.map (fun b => b.removeExpiredSessions now))) ≤ 0 ∨
        (qp.queuedSessions.removeExpired now).len = 0) ∧
      qp.syncUpdateSessions draws now =
        { qp with backends := qp.backends.map (fun b => b.removeExpiredSessions now),
                  queuedSessions := qp.queuedSessions.removeExpired now }) ∨
    (0 < wrapInt (freePlaces (qp.backends.map (fun b => b.removeExpiredSessions now))) ∧
      (qp.queuedSessions.removeExpired now).len ≠ 0 ∧
      qp.syncUpdateSessions draws now =
        { qp with
          backends := (promoteLoop draws now 0
            ((qp.queuedSessions.removeExpired now).pop
              (wrapInt (freePlaces
                (qp.backends.map (fun b => b.removeExpiredSessions now)))).toNat).1
            { backends := qp.backends.map (fun b => b.removeExpiredSessions now),
              availableBackends :=
                availableFrom 0 (qp.backends.map (fun b => b.removeExpiredSessions now)),
              queuedSessions := ((qp.queuedSessions.removeExpired now).pop
                (wrapInt (freePlaces
                  (qp.backends.map (fun b => b.removeExpiredSessions now)))).toNat).2 }).backends,
          queuedSessions := (promoteLoop draws now 0
            ((qp.queuedSessions.removeExpired now).pop
              (wrapInt (freePlaces
                (qp.backends.map (fun b => b.removeExpiredSessions now)))).toNat).1
            { backends := qp.backends.map (fun b => b.removeExpiredSessions now),
              availableBackends :=
                availableFrom 0 (qp.backends.map (fun b => b.removeExpiredSessions now)),
              queuedSessions := ((qp.queuedSessions.removeExpired now).pop
                (wrapInt (freePlaces
                  (qp.backends.map (fun b => b.removeExpiredSessions now)))).toNat).2
                  }).queuedSessions }) := by
  unfold QProxy.syncUpdateSessions
  simp only [sweepFrom_eq]
  by_cases h1 : wrapInt (freePlaces (qp.backends.map (fun b => b.removeExpiredSessions now))) = 0 ∨
      (qp.queuedSessions.removeExpired now).len = 0
  · left
    rw [if_pos h1]
    refine ⟨?_, rfl⟩
    rcases h1 with h | h
    · left; omega
    · right; exact h
  · rw [if_neg h1]
    by_cases h2 : wrapInt (freePlaces (qp.backends.map (fun b => b.removeExpiredSessions now))) < 0
    · left
      rw [if_pos h2]
      exact ⟨Or.inl (by omega), rfl⟩
    · right
      rw [if_neg h2]
      refine ⟨?_, fun h => h1 (Or.inr h), rfl⟩
      have : wrapInt (freePlaces (qp.backends.map (fun b => b.removeExpiredSessions now))) ≠ 0 :=
        fun h => h1 (Or.inl h)
      omega

theorem forall₂_map_right {α : Type} {R : α → α → Prop} (f : α → α) (h : ∀ a, R a (f a))
    (l : List α) : List.Forall₂ R l (l.map f) := by
  induction l with
  | nil => exact List.Forall₂.nil
  | cons a l ih => exact List.Forall₂.cons (h a) ih

/-- Relation between the backends before and after `syncUpdateSessions`, for a relation
that holds across the sweep of a backend and is kept by `storeSession`. -/
theorem syncUpdateSessions_forall₂ (qp : QProxy) (draws : Nat → draw) (now : Int)
    (R : backend → backend → Prop)
    (hsweep : ∀ b, R b (b.removeExpiredSessions now))
    (hstep : ∀ a b id, R a b → R a (b.storeSession id now).1) :
    List.Forall₂ R qp.backends (qp.syncUpdateSessions draws now).backends := by
  have h0 : List.Forall₂ R qp.backends (qp.backends.map (fun b => b.removeExpiredSessions now)) :=
    forall₂_map_right _ hsweep _
  rcases syncUpdateSessions_cases qp draws now with ⟨_, h⟩ | ⟨_, _, h⟩
  · rw [h]
    exact h0
  · rw [h]
    exact promoteLoop_forall₂ draws now R hstep _ _ _ _ h0

/-- Relation between the backends before and after `syncNewSession`. -/
theorem syncNewSession_forall₂ (qp : QProxy) (id : String) (shuffle : List Nat → List Nat)
    (r : ℚ) (now : Int) (R : backend → backend → Prop) (hrefl : ∀ b, R b b)
    (hstep : ∀ a b id, R a b → R a (b.storeSession id now).1) :
    List.Forall₂ R qp.backends (qp.syncNewSession id shuffle r now).1.backends := by
  unfold QProxy.syncNewSession
  simp only
  split
  · rename_i bs s i hd
    split at hd
    · split at hd
      · obtain ⟨b, _, hb, _, hres⟩ := placeNew_some hd
        simp only at hres
        simp only [hres]
        exact forall₂_set_right (forall₂_refl_of hrefl _) hb (fun a ha => hstep a b id ha)
      · cases hd
    · cases hd
  · split
    · exact forall₂_refl_of hrefl _
    · exact forall₂_refl_of hrefl _

theorem loadFrom_forall₂ (id : String) (now : Int) (R : backend → backend → Prop)
    (hrefl : ∀ b, R b b)
    (hrefresh : ∀ b, R b { b with sessionStore := b.sessionStore.refresh id b.sessionTTL now })
    (idx : Nat) (backends : List backend) (res : List backend × session × Nat)
    (h : loadFrom id now idx backends = some res) : List.Forall₂ R backends res.1 := by
  induction backends generalizing idx res with
  | nil => simp [loadFrom] at h
  | cons b rest ih =>
    unfold loadFrom at h
    cases hl : b.loadSession id with
    | some s =>
      rw [hl] at h
      simp only [Option.some.injEq] at h
      subst h
      exact List.Forall₂.cons (hrefresh b) (forall₂_refl_of hrefl _)
    | none =>
      rw [hl] at h
      simp only at h
      cases hr : loadFrom id now (idx + 1) rest with
      | none => rw [hr] at h; cases h
      | some r =>
        rw [hr] at h
        simp only [Option.some.injEq] at h
        subst h
        exact List.Forall₂.cons (hrefl b) (ih _ _ hr)

/-- Relation between the backends before and after `loadSession`. -/
theorem loadSession_forall₂ (qp : QProxy) (id : String) (now : Int)
    (R : backend → backend → Prop) (hrefl : ∀ b, R b b)
    (hrefresh : ∀ b, R b { b with sessionStore := b.sessionStore.refresh id b.sessionTTL now }) :
    List.Forall₂ R qp.backends (qp.loadSession id now).1.backends := by
  unfold QProxy.loadSession
  cases hl : loadFrom id now 0 qp.backends with
  | some res => exact loadFrom_forall₂ id now R hrefl hrefresh 0 _ res hl
  | none =>
    simp only
    split
    · exact forall₂_refl_of hrefl _
    · exact forall₂_refl_of hrefl _

theorem forall₂_mem_right {α β : Type} {R : α → β → Prop} {l : List α} {l' : List β} {b : β}
    (h : List.Forall₂ R l l') (hb : b ∈ l') : ∃ a ∈ l, R a b := by
  induction h with
  | nil => simp at hb
  | cons hab _ ih =>
    rcases List.mem_cons.1 hb with rfl | hb
    · exact ⟨_, List.mem_cons_self _ _, hab⟩
    · obtain ⟨a, ha, hr⟩ := ih hb
      exact ⟨a, List.mem_cons_of_mem _ ha, hr⟩

theorem sessionStore.mem_removeExpired {store : sessionStore} {now : Int} {s : session} :
    s ∈ (store.removeExpired now).sessions ↔ s ∈ store.sessions ∧ now < s.expiration := by
  simp [sessionStore.removeExpired_sessions, List.mem_filter]

theorem sessionStore.mem_unshift {store : sessionStore} {s t : session}
    (h : t ∈ (store.unshift s).1.sessions) : t = s ∨ t ∈ store.sessions := by
  unfold sessionStore.unshift at h
  split at h
  · exact Or.inr h
  · simpa using h

theorem sessionStore.mem_pop_fst {store : sessionStore} {n : Nat} {s : session}
    (h : s ∈ (store.pop n).1) : s ∈ store.sessions := by
  unfold sessionStore.pop at h
  exact List.mem_of_mem_take h

theorem sessionStore.mem_pop_snd {store : sessionStore} {n : Nat} {s : session}
    (h : s ∈ (store.pop n).2.sessions) : s ∈ store.sessions := by
  unfold sessionStore.pop at h
  exact List.mem_of_mem_drop h

/-- Sessions of the queue after `syncUpdateSessions` all come from the swept queue. -/
theorem syncUpdateSessions_queue_subset (qp : QProxy) (draws : Nat → draw) (now : Int)
    (s : session) (hs : s ∈ (qp.syncUpdateSessions draws now).queuedSessions.sessions) :
    s ∈ (qp.queuedSessions.removeExpired now).sessions := by
  unfold QProxy.syncUpdateSessions at hs
  simp only at hs
  split at hs
  · exact hs
  split at hs
  · exact hs
  · have key := promoteLoop_induct draws now
      (fun rest st => ∀ t, (t ∈ rest ∨ t ∈ st.queuedSessions.sessions) →
        t ∈ (qp.queuedSessions.removeExpired now).sessions)
      (fun s rest st n i b hP _ _ _ t ht => by
        rcases ht with ht | ht
        · exact hP t (Or.inl (List.mem_cons_of_mem _ ht))
        · exact hP t (Or.inr ht))
      (fun s rest st n hP _ t ht => by
        rcases ht with ht | ht
        · exact hP t (Or.inl (List.mem_cons_of_mem _ ht))
        · rcases sessionStore.mem_unshift ht with rfl | ht
          · exact hP t (Or.inl (List.mem_cons_self _ _))
          · exact hP t (Or.inr ht))
      0 ((qp.queuedSessions.removeExpired now).pop (sweepFrom now 0 qp.backends).2.1.toNat).1
      { backends := (sweepFrom now 0 qp.backends).1
        availableBackends := (sweepFrom now 0 qp.backends).2.2
        queuedSessions :=
          ((qp.queuedSessions.removeExpired now).pop (sweepFrom now 0 qp.backends).2.1.toNat).2 }
      (fun t ht => by
        rcases ht with ht | ht
        · exact sessionStore.mem_pop_fst ht
        · exact sessionStore.mem_pop_snd ht)
    exact key s (Or.inr hs)

/-- C7. Promotion removes every expired session: when every backend has a positive
session TTL, after `syncUpdateSessions` at `now` no session of the queue or of a backend
store has an expiration at or before `now`. -/
theorem syncUpdateSessions_no_expired (qp : QProxy) (draws : Nat → draw) (now : Int)
    (httl : ∀ b ∈ qp.backends, 0 < b.sessionTTL) :
    (∀ s ∈ (qp.syncUpdateSessions draws now).queuedSessions.sessions, ¬ s.expiration ≤ now) ∧
      ∀ b ∈ (qp.syncUpdateSessions draws now).backends,
        ∀ s ∈ b.sessionStore.sessions, ¬ s.expiration ≤ now := by
  constructor
  · intro s hs
    have := (sessionStore.mem_removeExpired).1 (syncUpdateSessions_queue_subset qp draws now s hs)
    omega
  · intro b hb s hs
    have hF := syncUpdateSessions_forall₂ qp draws now
      (fun a b => 0 < a.sessionTTL →
        (0 < b.sessionTTL ∧ ∀ s ∈ b.sessionStore.sessions, now < s.expiration))
      (fun b hpos => ⟨hpos, fun s hs => (sessionStore.mem_removeExpired.1 hs).2⟩)
      (fun a b id hab hpos => by
        obtain ⟨h1, h2⟩ := hab hpos
        rcases backend.storeSession_fst b id now with h | ⟨_, _, h⟩
        · rw [h]; exact ⟨h1, h2⟩
        · rw [h]
          refine ⟨h1, ?_⟩
          intro s hs
          simp only [backend.withNew, List.mem_append, List.mem_singleton] at hs
          rcases hs with hs | rfl
          · exact h2 s hs
          · simp only [newSession]; omega)
    obtain ⟨a, ha, hR⟩ := forall₂_mem_right hF hb
    have := (hR (httl a ha)).2 s hs
    omega

/-- Witness of C7: at the instant 150 the session expiring at 100 is gone from `qpFull`
and the queued session has taken its place. -/
theorem syncUpdateSessions_no_expired_witness :
    (∀ b ∈ qpFull.backends, 0 < b.sessionTTL) ∧
      ((∀ s ∈ (qpFull.syncUpdateSessions (fun _ => { shuffle := id, rndWeight := 0 })
          150).queuedSessions.sessions, ¬ s.expiration ≤ 150) ∧
        ∀ b ∈ (qpFull.syncUpdateSessions (fun _ => { shuffle := id, rndWeight := 0 })
          150).backends, ∀ s ∈ b.sessionStore.sessions, ¬ s.expiration ≤ 150) :=
  ⟨by decide, syncUpdateSessions_no_expired qpFull _ 150 (by decide)⟩

/-! ## Reload -/

theorem loadDynamicConfig_ok {lib : stdlib} {v : viperConfig} {dyn : dynamicConfig}
    (h : loadDynamicConfig lib v = Except.ok dyn) :
    dyn.backends_config_map = v.backends.map (fun p => (p.1, loadBackendConfig p.2)) ∧
      dyn.queue_session_ttl = wrapInt (v.queue_session_ttl * second) ∧
      dyn.queue_max_sessions = v.queue_max_sessions := by
  unfold loadDynamicConfig at h
  split at h
  · cases h
  · split at h
    · cases h
    · split at h
      · cases h
      · split at h
        · cases h
        · split at h
          · cases h
          · simp only [Except.ok.injEq] at h
            subst h
            exact ⟨rfl, rfl, rfl⟩

/-- Outcomes of `syncReload`: an error with the dynamic entries untouched, or success
with the entries loaded from a configuration that was read and accepted. -/
theorem proxyConfig.syncReload_cases (lib : stdlib) (c : proxyConfig)
    (readIn : Except String viperConfig) :
    (∃ err, (c.syncReload lib readIn).2 = some err ∧ (c.syncReload lib readIn).1.dyn = c.dyn ∧
        (c.syncReload lib readIn).1.addr = c.addr ∧
        (c.syncReload lib readIn).1.cookie_name = c.cookie_name ∧
        (c.syncReload lib readIn).1.timeout = c.timeout ∧
        (c.syncReload lib readIn).1.api_addr = c.api_addr) ∨
      (∃ v dyn, readIn = Except.ok v ∧ ValidateProxyConfig v = none ∧
        loadDynamicConfig lib v = Except.ok dyn ∧
        c.syncReload lib readIn = ({ c with v := v, dyn := dyn }, none)) := by
  unfold proxyConfig.syncReload
  cases readIn with
  | error e => left; exact ⟨failure.error e, rfl, rfl, rfl, rfl, rfl, rfl⟩
  | ok v =>
    simp only
    cases hv : ValidateProxyConfig v with
    | some e => left; exact ⟨e, rfl, rfl, rfl, rfl, rfl, rfl⟩
    | none =>
      simp only
      cases hd : loadDynamicConfig lib v with
      | error e => left; exact ⟨e, rfl, rfl, rfl, rfl, rfl, rfl⟩
      | ok dyn => right; exact ⟨v, dyn, rfl, hv, hd, rfl⟩

/-- Outcomes of `syncReloadConfiguration`: the backend slice is kept, or the configuration
was read, accepted and loaded and the slice built from it is published. The queue is
kept in both cases. -/
theorem syncReloadConfiguration_cases (lib : stdlib) (qp : QProxy)
    (readIn : Except String viperConfig) :
    ((qp.syncReloadConfiguration lib readIn).backends = qp.backends ∧
        (qp.syncReloadConfiguration lib readIn).queuedSessions = qp.queuedSessions) ∨
      (∃ v dyn newBackends, readIn = Except.ok v ∧ ValidateProxyConfig v = none ∧
        loadDynamicConfig lib v = Except.ok dyn ∧
        buildBackends lib.urlParse (oldStore qp.backends) dyn.backends_config_map =
          Except.ok newBackends ∧
        qp.syncReloadConfiguration lib readIn =
          { config := { qp.config with v := v, dyn := dyn }, backends := newBackends,
            queuedSessions := qp.queuedSessions }) := by
  rcases proxyConfig.syncReload_cases lib qp.config readIn with ⟨e, he, _⟩ | ⟨v, dyn, h1, h2, h3, h4⟩
  · left
    unfold QProxy.syncReloadConfiguration
    cases hs : qp.config.syncReload lib readIn with
    | mk c o =>
      rw [hs] at he
      simp only at he
      subst he
      exact ⟨rfl, rfl⟩
  · unfold QProxy.syncReloadConfiguration
    rw [h4]
    simp only
    cases hb : buildBackends lib.urlParse (oldStore qp.backends) dyn.backends_config_map with
    | error e => left; exact ⟨rfl, rfl⟩
    | ok nbs => right; exact ⟨v, dyn, nbs, h1, h2, h3, hb, rfl⟩

/-- Backends built from a configuration map: one per entry, in order, with the entry's
name and settings and the adopted store (an empty one when there is none). -/
theorem buildBackends_ok {urlParse : String → Option String}
    {adopt : String → Option sessionStore} {cfg : List (String × backendConfig)}
    {backends : List backend} (h : buildBackends urlParse adopt cfg = Except.ok backends) :
    List.Forall₂ (fun p b => b.name = p.1 ∧ b.weight = p.2.weight ∧
      b.sessionTTL = p.2.sessionTTL ∧ b.maxSessions = p.2.maxSessions ∧
      b.sessionStore = (adopt p.1).getD newSessionStore) cfg backends := by
  induction cfg generalizing backends with
  | nil =>
    simp only [buildBackends, Except.ok.injEq] at h
    subst h
    exact List.Forall₂.nil
  | cons p rest ih =>
    obtain ⟨n, c⟩ := p
    unfold buildBackends at h
    cases hn : newBackend urlParse n c (adopt n) with
    | error e => rw [hn] at h; cases h
    | ok b =>
      rw [hn] at h
      simp only at h
      cases hr : buildBackends urlParse adopt rest with
      | error e => rw [hr] at h; cases h
      | ok bs =>
        rw [hr] at h
        simp only [Except.ok.injEq] at h
        subst h
        refine List.Forall₂.cons ?_ (ih hr)
        unfold newBackend at hn
        split at hn
        · cases hn
        · simp only [Except.ok.injEq] at hn
          subst hn
          refine ⟨rfl, rfl, rfl, rfl, ?_⟩
          cases adopt n <;> rfl

/-! ## Capacity -/

theorem updateFirst_length (id : String) (ttl now : Int) (l : List session) :
    (updateFirst id ttl now l).length = l.length := by
  induction l with
  | nil => rfl
  | cons s rest ih =>
    unfold updateFirst
    split <;> simp [ih]

theorem updateFirst_ids (id : String) (ttl now : Int) (l : List session) :
    (updateFirst id ttl now l).map (fun s => s.id) = l.map (fun s => s.id) := by
  induction l with
  | nil => rfl
  | cons s rest ih =>
    unfold updateFirst
    split <;> simp [ih, session.update]

/-- Bounds of the capacity invariant for one backend. -/
theorem capacity_storeSession (b : backend) (id : String) (now : Int)
    (h : 0 ≤ b.sessionStore.len ∧ b.sessionStore.len ≤ b.maxSessions) :
    0 ≤ (b.storeSession id now).1.sessionStore.len ∧
      (b.storeSession id now).1.sessionStore.len ≤ (b.storeSession id now).1.maxSessions := by
  rcases backend.storeSession_fst b id now with h1 | ⟨_, hroom, h1⟩
  · rw [h1]; exact h
  · rw [h1]
    have := backend.lt_of_room b h.2 hroom
    simp only [backend.withNew, sessionStore.len, List.length_append, List.length_singleton] at *
    omega

theorem capacity_removeExpired (b : backend) (now : Int)
    (h : 0 ≤ b.sessionStore.len ∧ b.sessionStore.len ≤ b.maxSessions) :
    0 ≤ (b.removeExpiredSessions now).sessionStore.len ∧
      (b.removeExpiredSessions now).sessionStore.len ≤ (b.removeExpiredSessions now).maxSessions := by
  have := List.length_filter_le (fun s : session => decide (now < s.expiration))
    b.sessionStore.sessions
  simp only [backend.removeExpiredSessions, sessionStore.removeExpired_sessions,
    sessionStore.len] at *
  omega

theorem capacityInv_of_forall₂ {old new : List backend} (hold : capacityInv old)
    (h : List.Forall₂ (fun a b => (0 ≤ a.sessionStore.len ∧ a.sessionStore.len ≤ a.maxSessions) →
      (0 ≤ b.sessionStore.len ∧ b.sessionStore.len ≤ b.maxSessions)) old new) :
    capacityInv new := by
  intro b hb
  obtain ⟨a, ha, hR⟩ := forall₂_mem_right h hb
  exact hR (hold a ha)

/-- Capacity invariant across one operation that is not a shrinking reload. -/
theorem capacityInv_step (lib : stdlib) (qp : QProxy) (o : op)
    (hinv : capacityInv qp.backends) (hroomy : roomyOp qp o) :
    capacityInv (qp.step lib o).backends := by
  cases o with
  | newSession id shuffle r now =>
    refine capacityInv_of_forall₂ hinv (syncNewSession_forall₂ qp id shuffle r now _
      (fun b h => h) (fun a b id hab ha => capacity_storeSession b id now (hab ha)))
  | loadSession id now =>
    refine capacityInv_of_forall₂ hinv (loadSession_forall₂ qp id now _ (fun b h => h) ?_)
    intro b h
    simpa [sessionStore.refresh, sessionStore.len, updateFirst_length] using h
  | updateSessions draws now =>
    refine capacityInv_of_forall₂ hinv (syncUpdateSessions_forall₂ qp draws now _
      (fun b h => capacity_removeExpired b now h)
      (fun a b id hab ha => capacity_storeSession b id now (hab ha)))
  | reload readIn =>
    rcases syncReloadConfiguration_cases lib qp readIn with ⟨h, _⟩ | ⟨v, dyn, nbs, h1, _, h3, h4, h5⟩
    · simp only [QProxy.step]
      rw [h]; exact hinv
    · simp only [QProxy.step]
      rw [h5]
      simp only
      subst h1
      have hcfg := (loadDynamicConfig_ok h3).1
      have hF := buildBackends_ok h4
      rw [hcfg] at hF
      intro b hb
      obtain ⟨p, hp, hname, -, -, hmax, hstore⟩ :
          ∃ p ∈ v.backends, b.name = p.1 ∧ b.weight = (loadBackendConfig p.2).weight ∧
            b.sessionTTL = (loadBackendConfig p.2).sessionTTL ∧
            b.maxSessions = p.2.max_sessions ∧
            b.sessionStore = (oldStore qp.backends p.1).getD newSessionStore := by
        have hF' := List.forall₂_map_left_iff.1 hF
        obtain ⟨p, hp, hR⟩ := forall₂_mem_right hF' hb
        exact ⟨p, hp, hR⟩
      have hguard := hroomy p hp
      unfold adoptedLen at hguard
      rw [hstore, hmax]
      cases ho : oldStore qp.backends p.1 with
      | none =>
        rw [ho] at hguard
        simp only [Option.getD_none, newSessionStore, sessionStore.len, List.length_nil]
        exact ⟨le_refl _, hguard⟩
      | some st =>
        rw [ho] at hguard
        simp only [Option.getD_some]
        exact ⟨by simp [sessionStore.len], hguard⟩

/-- State built by `NewQProxy`: the configuration was accepted and loaded, the backends
are built with fresh stores and the queue is empty. -/
theorem NewQProxy_ok {lib : stdlib} {v : viperConfig} {qp : QProxy}
    (h : NewQProxy lib v = Except.ok qp) :
    ∃ dyn, ValidateProxyConfig v = none ∧ loadDynamicConfig lib v = Except.ok dyn ∧
      qp.config.dyn = dyn ∧
      buildBackends lib.urlParse (fun _ => none) dyn.backends_config_map = Except.ok qp.backends ∧
      qp.queuedSessions = newSessionStore := by
  unfold NewQProxy at h
  cases hc : newQProxyConfig lib v with
  | error e => rw [hc] at h; cases h
  | ok config =>
    rw [hc] at h
    simp only at h
    cases hb : buildBackends lib.urlParse (fun _ => none) config.dyn.backends_config_map with
    | error e => rw [hb] at h; cases h
    | ok bs =>
      rw [hb] at h
      simp only [Except.ok.injEq] at h
      subst h
      unfold newQProxyConfig at hc
      cases hv : ValidateProxyConfig v with
      | some e => rw [hv] at hc; cases hc
      | none =>
        rw [hv] at hc
        simp only at hc
        cases hd : loadDynamicConfig lib v with
        | error e => rw [hd] at hc; cases hc
        | ok dyn =>
          rw [hd] at hc
          simp only [Except.ok.injEq] at hc
          subst hc
          exact ⟨dyn, rfl, rfl, rfl, hb, rfl⟩

/-- Every store is empty in the state built by `NewQProxy`. -/
theorem NewQProxy_empty {lib : stdlib} {v : viperConfig} {qp : QProxy}
    (h : NewQProxy lib v = Except.ok qp) :
    qp.queuedSessions.sessions = [] ∧ ∀ b ∈ qp.backends, b.sessionStore.sessions = [] ∧
      ∃ p ∈ v.backends, b.name = p.1 ∧ b.maxSessions = p.2.max_sessions := by
  obtain ⟨dyn, _, hd, _, hb, hq⟩ := NewQProxy_ok h
  refine ⟨by rw [hq]; rfl, ?_⟩
  intro b hmem
  have hF := buildBackends_ok hb
  rw [(loadDynamicConfig_ok hd).1] at hF
  obtain ⟨p, hp, hname, -, -, hmax, hstore⟩ := forall₂_mem_right (List.forall₂_map_left_iff.1 hF) hmem
  exact ⟨by rw [hstore]; rfl, p, hp, hname, hmax⟩

/-- Capacity invariant along a run without shrinking reloads. -/
theorem capacityInv_run_of (lib : stdlib) (ops : List op) (qp : QProxy)
    (hinv : capacityInv qp.backends) (hrun : qp.runs lib roomyOp ops) :
    capacityInv (qp.run lib ops).backends := by
  induction ops generalizing qp with
  | nil => exact hinv
  | cons o rest ih =>
    obtain ⟨h1, h2⟩ := hrun
    exact ih (qp.step lib o) (capacityInv_step lib qp o hinv h1) h2

/-- C1 (amended). Backend capacity invariant: from the state built by `NewQProxy` out
of a configuration whose backends have `max_sessions >= 0`, after every sequence of
`syncNewSession`, `loadSession`, `syncUpdateSessions` and reload operations in which each
configuration read by a reload gives every backend a `max_sessions` at least the length
of the store it adopts, every backend of the current set holds between 0 and
`maxSessions` sessions. -/
theorem capacityInv_run (lib : stdlib) (v : viperConfig) (qp : QProxy) (ops : List op)
    (hstart : NewQProxy lib v = Except.ok qp)
    (hmax : ∀ p ∈ v.backends, 0 ≤ p.2.max_sessions)
    (hrun : qp.runs lib roomyOp ops) :
    capacityInv (qp.run lib ops).backends := by
  refine capacityInv_run_of lib ops qp ?_ hrun
  intro b hb
  obtain ⟨hnil, p, hp, _, hm⟩ := (NewQProxy_empty hstart).2 b hb
  have := hmax p hp
  simp only [sessionStore.len, hnil, List.length_nil]
  omega

/-- Witness of C1 (amended): two sessions placed on backend `a`, then a reload of the same
configuration. -/
theorem capacityInv_run_witness :
    NewQProxy lib0 v0 = Except.ok qp0 ∧
      capacityInv (qp0.run lib0 [op.newSession "s1" id 0 10, op.newSession "s2" id 0 20,
        op.reload (Except.ok v0)]).backends :=
  ⟨rfl, capacityInv_run lib0 v0 qp0 _ rfl (by decide)
    ⟨trivial, trivial, by simp only [roomyOp]; decide, trivial⟩⟩

/-- Counterexample to C1: after two sessions are placed on backend `a` (capacity 2), a
reload whose accepted configuration lowers `max_sessions` of `a` to 1 publishes a backend
holding 2 sessions with `maxSessions = 1`. -/
theorem capacityInv_counterexample :
    NewQProxy lib0 v0 = Except.ok qp0 ∧
      ValidateProxyConfig { v0 with backends := [("a", { vb0 with max_sessions := 1 })] } = none ∧
      (qp0.run lib0 [op.newSession "s1" id 0 10, op.newSession "s2" id 0 20,
        op.reload (Except.ok { v0 with backends := [("a", { vb0 with max_sessions := 1 })] })]
        ).backends =
        [{ backendA [{ id := "s1", expiration := 60000000010 },
            { id := "s2", expiration := 60000000020 }] with maxSessions := 1 }] ∧
      ¬ capacityInv (qp0.run lib0 [op.newSession "s1" id 0 10, op.newSession "s2" id 0 20,
        op.reload (Except.ok { v0 with backends := [("a", { vb0 with max_sessions := 1 })] })]
        ).backends := by
  refine ⟨rfl, by decide, by decide, ?_⟩
  unfold capacityInv
  decide

/-! ## Uniqueness of ids -/

theorem count_backendIds_set (x : String) {backends : List backend} {i : Nat} {b : backend}
    (b' : backend) (hb : backends[i]? = some b) :
    List.count x (backendIds (backends.set i b')) + List.count x b.sessionStore.ids =
      List.count x (backendIds backends) + List.count x b'.sessionStore.ids := by
  induction backends generalizing i with
  | nil => simp at hb
  | cons a rest ih =>
    cases i with
    | zero =>
      simp at hb
      subst hb
      simp only [List.set_cons_zero, backendIds, List.count_append]
      omega
    | succ j =>
      simp at hb
      have := ih hb
      simp only [List.set_cons_succ, backendIds, List.count_append]
      omega

theorem count_ids_withNew (x : String) (b : backend) (id : String) (now : Int) :
    List.count x (b.withNew id now).sessionStore.ids =
      List.count x b.sessionStore.ids + (if id = x then 1 else 0) := by
  simp [backend.withNew, sessionStore.ids, newSession, List.count_singleton]

/-- Ids of a backend after `storeSession`: at most one more occurrence, of the stored id. -/
theorem count_ids_storeSession (x : String) (b : backend) (id : String) (now : Int) :
    List.count x (b.storeSession id now).1.sessionStore.ids ≤
      List.count x b.sessionStore.ids + (if id = x then 1 else 0) := by
  rcases backend.storeSession_fst b id now with h | ⟨_, _, h⟩
  · rw [h]; omega
  · rw [h, count_ids_withNew]

theorem count_ids_store (x : String) (store : sessionStore) (s : session) :
    List.count x (store.store s).1.ids ≤ List.count x store.ids + (if s.id = x then 1 else 0) := by
  unfold sessionStore.store
  split
  · simp only; omega
  · simp [sessionStore.ids, List.count_singleton]

theorem count_ids_unshift (x : String) (store : sessionStore) (s : session) :
    List.count x (store.unshift s).1.ids ≤ List.count x store.ids + (if s.id = x then 1 else 0) := by
  unfold sessionStore.unshift
  split
  · simp only; omega
  · simp only [sessionStore.ids, List.map_cons, List.count_cons]
    simp only [beq_iff_eq]
    omega

theorem ids_refresh (store : sessionStore) (id : String) (ttl now : Int) :
    (store.refresh id ttl now).ids = store.ids := by
  simp [sessionStore.refresh, sessionStore.ids, updateFirst_ids]

theorem ids_removeExpired_sublist (store : sessionStore) (now : Int) :
    List.Sublist (store.removeExpired now).ids store.ids := by
  simp only [sessionStore.removeExpired_sessions, sessionStore.ids]
  exact List.Sublist.map _ (List.filter_sublist _)

theorem backendIds_sweep_sublist (now : Int) (backends : List backend) :
    List.Sublist (backendIds (backends.map (fun b => b.removeExpiredSessions now)))
      (backendIds backends) := by
  induction backends with
  | nil => exact List.Sublist.refl _
  | cons b rest ih =>
    simp only [List.map_cons, backendIds]
    exact List.Sublist.append (ids_removeExpired_sublist _ _) ih

/-- No id gains an occurrence through `syncNewSession`, except the new id, once. -/
theorem count_allIds_syncNewSession (x : String) (qp : QProxy) (id : String)
    (shuffle : List Nat → List Nat) (r : ℚ) (now : Int) :
    List.count x (qp.syncNewSession id shuffle r now).1.allIds ≤
      List.count x qp.allIds + (if id = x then 1 else 0) := by
  unfold QProxy.syncNewSession
  simp only
  split
  · rename_i bs s i hd
    split at hd
    · split at hd
      · obtain ⟨b, _, hb, _, hres⟩ := placeNew_some hd
        simp only at hres hb
        have h1 := count_backendIds_set x (b.storeSession id now).1 hb
        have h2 := count_ids_storeSession x b id now
        simp only [QProxy.allIds, List.count_append, hres]
        omega
      · cases hd
    · cases hd
  · split
    · simp only; omega
    · have := count_ids_store x qp.queuedSessions
        (newSession id qp.config.dyn.queue_session_ttl now)
      simp only [QProxy.allIds, List.count_append]
      simp only [newSession] at this ⊢
      omega

theorem loadFrom_backendIds {id : String} {now : Int} {idx : Nat} {backends : List backend}
    {res : List backend × session × Nat} (h : loadFrom id now idx backends = some res) :
    backendIds res.1 = backendIds backends := by
  induction backends generalizing idx res with
  | nil => simp [loadFrom] at h
  | cons b rest ih =>
    unfold loadFrom at h
    cases hl : b.loadSession id with
    | some s =>
      rw [hl] at h
      simp only [Option.some.injEq] at h
      subst h
      simp [backendIds, ids_refresh]
    | none =>
      rw [hl] at h
      simp only at h
      cases hr : loadFrom id now (idx + 1) rest with
      | none => rw [hr] at h; cases h
      | some r =>
        rw [hr] at h
        simp only [Option.some.injEq] at h
        subst h
        simp [backendIds, ih hr]

/-- Ids held by the stores are the same before and after `loadSession`. -/
theorem allIds_loadSession (qp : QProxy) (id : String) (now : Int) :
    (qp.loadSession id now).1.allIds = qp.allIds := by
  unfold QProxy.loadSession
  cases hl : loadFrom id now 0 qp.backends with
  | some res => simp [QProxy.allIds, loadFrom_backendIds hl]
  | none =>
    simp only
    split
    · simp [QProxy.allIds, ids_refresh]
    · rfl

/-- No id gains an occurrence through `syncUpdateSessions`. -/
theorem count_allIds_syncUpdateSessions (x : String) (qp : QProxy) (draws : Nat → draw)
    (now : Int) :
    List.count x (qp.syncUpdateSessions draws now).allIds ≤ List.count x qp.allIds := by
  have hq := (ids_removeExpired_sublist qp.queuedSessions now).count_le x
  have hbs := (backendIds_sweep_sublist now qp.backends).count_le x
  unfold QProxy.syncUpdateSessions
  simp only [sweepFrom_eq]
  split
  · simp only [QProxy.allIds, List.count_append]
    omega
  split
  · simp only [QProxy.allIds, List.count_append]
    omega
  · have key := promoteLoop_induct draws now
      (fun rest st => List.count x (rest.map (fun s => s.id)) +
          List.count x st.queuedSessions.ids + List.count x (backendIds st.backends) ≤
        List.count x qp.allIds)
      (fun s rest st n i b hP _ hb _ => by
        have h1 := count_backendIds_set x (b.storeSession s.id now).1 hb
        have h2 := count_ids_storeSession x b s.id now
        simp only [List.map_cons, List.count_cons, beq_iff_eq] at hP
        simp only
        omega)
      (fun s rest st n hP _ => by
        have h1 := count_ids_unshift x st.queuedSessions s
        simp only [List.map_cons, List.count_cons, beq_iff_eq] at hP
        simp only
        omega)
      0 ((qp.queuedSessions.removeExpired now).pop
          (wrapInt (freePlaces (qp.backends.map (fun b => b.removeExpiredSessions now)))).toNat).1
      { backends := qp.backends.map (fun b => b.removeExpiredSessions now)
        availableBackends := availableFrom 0 (qp.backends.map (fun b => b.removeExpiredSessions now))
        queuedSessions := ((qp.queuedSessions.removeExpired now).pop
          (wrapInt (freePlaces (qp.backends.map (fun b => b.removeExpiredSessions now)))).toNat).2 }
      (by
        have : List.count x (((qp.queuedSessions.removeExpired now).pop
            (wrapInt (freePlaces (qp.backends.map (fun b => b.removeExpiredSessions now)))).toNat).1.map
              (fun s => s.id)) +
            List.count x ((qp.queuedSessions.removeExpired now).pop
            (wrapInt (freePlaces (qp.backends.map (fun b => b.removeExpiredSessions now)))).toNat).2.ids =
            List.count x (qp.queuedSessions.removeExpired now).ids := by
          simp only [sessionStore.pop, sessionStore.ids]
          rw [← List.count_append, ← List.map_append, List.take_append_drop]
        simp only [QProxy.allIds, List.count_append]
        omega)
    simp only [List.map_nil, List.count_nil, zero_add] at key
    simpa [QProxy.allIds, List.count_append] using key

theorem oldStore_cons (a : backend) (rest : List backend) (n : String) :
    oldStore (a :: rest) n = if a.name = n then some a.sessionStore else oldStore rest n := by
  unfold oldStore
  by_cases h : a.name = n
  · simp [List.find?, h]
  · have hb : (a.name == n) = false := by simpa using h
    simp [List.find?, h, hb]

theorem adopted_count_cons (x : String) (a : backend) (rest : List backend) (ns : List String)
    (hns : ns.Nodup) :
    (ns.map (fun n => List.count x ((oldStore (a :: rest) n).getD newSessionStore).ids)).sum ≤
      (if a.name ∈ ns then List.count x a.sessionStore.ids else 0) +
        (ns.map (fun n => List.count x ((oldStore rest n).getD newSessionStore).ids)).sum := by
  induction ns with
  | nil => simp
  | cons n ns ih =>
    have hn := (List.nodup_cons.1 hns)
    have ih := ih hn.2
    simp only [List.map_cons, List.sum_cons]
    rw [oldStore_cons a rest n]
    by_cases h : a.name = n
    · subst h
      simp only [if_true, Option.getD_some, List.mem_cons, true_or]
      rw [if_neg hn.1] at ih
      omega
    · have hmem : (a.name ∈ n :: ns) ↔ a.name ∈ ns := by
        simp [List.mem_cons, h]
      simp only [if_neg h, hmem]
      omega

/-- Stores adopted by distinct names come from distinct old backends: no id occurs more
often in them than in the old stores. -/
theorem adopted_count_le (x : String) (old : List backend) (ns : List String) (hns : ns.Nodup) :
    (ns.map (fun n => List.count x ((oldStore old n).getD newSessionStore).ids)).sum ≤
      List.count x (backendIds old) := by
  induction old with
  | nil =>
    have : ∀ l : List String, (l.map (fun n => List.count x
        ((oldStore [] n).getD newSessionStore).ids)).sum = 0 := by
      intro l
      induction l with
      | nil => rfl
      | cons n l ih =>
        simp only [List.map_cons, List.sum_cons, ih]
        simp [oldStore, newSessionStore, sessionStore.ids]
    rw [this]
    exact Nat.zero_le _
  | cons a rest ih =>
    have h1 := adopted_count_cons x a rest ns hns
    simp only [backendIds, List.count_append]
    split at h1 <;> omega

theorem count_backendIds_built (x : String) {adopt : String → Option sessionStore}
    {cfg : List (String × backendConfig)} {backends : List backend}
    (h : List.Forall₂ (fun p b => b.name = p.1 ∧ b.weight = p.2.weight ∧
      b.sessionTTL = p.2.sessionTTL ∧ b.maxSessions = p.2.maxSessions ∧
      b.sessionStore = (adopt p.1).getD newSessionStore) cfg backends) :
    List.count x (backendIds backends) =
      ((cfg.map Prod.fst).map (fun n => List.count x ((adopt n).getD newSessionStore).ids)).sum := by
  induction h with
  | nil => rfl
  | cons hab _ ih =>
    simp only [backendIds, List.count_append, List.map_cons, List.sum_cons, ih, hab.2.2.2.2]

/-- No id gains an occurrence through a reload that reads a configuration listing each
backend name once. -/
theorem count_allIds_reload (x : String) (lib : stdlib) (qp : QProxy)
    (readIn : Except String viperConfig) (hfresh : freshOp qp (op.reload readIn)) :
    List.count x (qp.syncReloadConfiguration lib readIn).allIds ≤ List.count x qp.allIds := by
  rcases syncReloadConfiguration_cases lib qp readIn with ⟨h1, h2⟩ | ⟨v, dyn, nbs, h1, _, h3, h4, h5⟩
  · simp only [QProxy.allIds, h1, h2]
    exact le_refl _
  · subst h1
    simp only [freshOp] at hfresh
    rw [h5]
    simp only [QProxy.allIds, List.count_append]
    have hcount := count_backendIds_built x (buildBackends_ok h4)
    have hnames : dyn.backends_config_map.map Prod.fst = v.backends.map Prod.fst := by
      rw [(loadDynamicConfig_ok h3).1]
      simp [List.map_map, Function.comp]
    rw [hnames] at hcount
    have := adopted_count_le x qp.backends _ hfresh
    omega

/-- Uniqueness invariant across one operation with a fresh id. -/
theorem unique_step (lib : stdlib) (qp : QProxy) (o : op) (hinv : qp.unique)
    (hfresh : freshOp qp o) : (qp.step lib o).unique := by
  unfold QProxy.unique at hinv ⊢
  rw [List.nodup_iff_count_le_one] at hinv ⊢
  intro x
  have hx := hinv x
  cases o with
  | newSession id shuffle r now =>
    have h := count_allIds_syncNewSession x qp id shuffle r now
    simp only [QProxy.step]
    simp only [freshOp] at hfresh
    by_cases hid : id = x
    · subst hid
      have : List.count id qp.allIds = 0 := List.count_eq_zero.2 hfresh
      simp only [if_true] at h
      omega
    · simp only [if_neg hid] at h
      omega
  | loadSession id now =>
    simp only [QProxy.step, allIds_loadSession]
    exact hx
  | updateSessions draws now =>
    have h := count_allIds_syncUpdateSessions x qp draws now
    simp only [QProxy.step]
    omega
  | reload readIn =>
    have h := count_allIds_reload x lib qp readIn hfresh
    simp only [QProxy.step]
    omega

/-- Uniqueness invariant along a run with fresh ids. -/
theorem unique_run_of (lib : stdlib) (ops : List op) (qp : QProxy) (hinv : qp.unique)
    (hrun : qp.runs lib freshOp ops) : (qp.run lib ops).unique := by
  induction ops generalizing qp with
  | nil => exact hinv
  | cons o rest ih =>
    obtain ⟨h1, h2⟩ := hrun
    exact ih (qp.step lib o) (unique_step lib qp o hinv h1) h2

theorem backendIds_eq_nil {backends : List backend}
    (h : ∀ b ∈ backends, b.sessionStore.sessions = []) : backendIds backends = [] := by
  induction backends with
  | nil => rfl
  | cons b rest ih =>
    simp only [backendIds, sessionStore.ids, h b (List.mem_cons_self _ _), List.map_nil,
      List.nil_append]
    exact ih (fun b hb => h b (List.mem_cons_of_mem _ hb))

/-- C2. Session uniqueness: from the state built by `NewQProxy`, after every sequence of
`syncNewSession`, `loadSession`, `syncUpdateSessions` and reload operations in which each
generated id is in no store when it is generated (and each configuration read lists a
backend name once), no id occurs twice across the queue and the stores of the current
backend set. -/
theorem unique_run (lib : stdlib) (v : viperConfig) (qp : QProxy) (ops : List op)
    (hstart : NewQProxy lib v = Except.ok qp) (hrun : qp.runs lib freshOp ops) :
    (qp.run lib ops).allIds.Nodup := by
  refine unique_run_of lib ops qp ?_ hrun
  obtain ⟨hq, hb⟩ := NewQProxy_empty hstart
  unfold QProxy.unique QProxy.allIds
  rw [backendIds_eq_nil (fun b hb' => (hb b hb').1)]
  simp [sessionStore.ids, hq]

/-- Witness of C2: three admissions (two placed, one queued), a lookup, a promotion after
the first two sessions expired and a reload. -/
theorem unique_run_witness :
    NewQProxy lib0 v0 = Except.ok qp0 ∧
      (qp0.run lib0 [op.newSession "s1" id 0 10, op.newSession "s2" id 0 20,
        op.newSession "s3" id 0 30, op.loadSession "s3" 40,
        op.updateSessions (fun _ => { shuffle := id, rndWeight := 0 }) 60000000025,
        op.reload (Except.ok v0)]).allIds.Nodup :=
  ⟨rfl, unique_run lib0 v0 qp0 _ rfl
    ⟨by simp only [freshOp]; decide, by simp only [freshOp]; decide,
      by simp only [freshOp]; decide, trivial, trivial, by simp only [freshOp]; decide, trivial⟩⟩

/-! ## Stores across a reload -/

theorem oldStore_of_mem {old : List backend} {b : backend} (hnames : (backendNames old).Nodup)
    (hb : b ∈ old) : oldStore old b.name = some b.sessionStore := by
  induction old with
  | nil => simp at hb
  | cons a rest ih =>
    simp only [backendNames, List.map_cons, List.nodup_cons] at hnames
    rw [oldStore_cons]
    rcases List.mem_cons.1 hb with rfl | hmem
    · simp
    · have hne : a.name ≠ b.name := by
        intro h
        exact hnames.1 (by rw [h]; exact List.mem_map_of_mem (fun b => b.name) hmem)
      rw [if_neg hne]
      exact ih hnames.2 hmem

theorem oldStore_eq_none {old : List backend} {n : String} (h : n ∉ backendNames old) :
    oldStore old n = none := by
  induction old with
  | nil => rfl
  | cons a rest ih =>
    simp only [backendNames, List.map_cons, List.mem_cons, not_or] at h
    rw [oldStore_cons, if_neg (fun e => h.1 e.symm)]
    exact ih h.2

theorem oldStore_some {old : List backend} {n : String} {st : sessionStore}
    (h : oldStore old n = some st) : ∃ b ∈ old, b.name = n ∧ b.sessionStore = st := by
  induction old with
  | nil => simp [oldStore] at h
  | cons a rest ih =>
    rw [oldStore_cons] at h
    split at h
    · rename_i hn
      exact ⟨a, List.mem_cons_self _ _, hn, Option.some.inj h⟩
    · obtain ⟨b, hb, h1, h2⟩ := ih h
      exact ⟨b, List.mem_cons_of_mem _ hb, h1, h2⟩

theorem count_backendIds_pos {backends : List backend} {b : backend} {x : String}
    (hb : b ∈ backends) (hx : x ∈ b.sessionStore.ids) : 1 ≤ List.count x (backendIds backends) := by
  have : x ∈ backendIds backends := (mem_backendIds _ _).2 ⟨b, hb, hx⟩
  exact List.count_pos_iff.2 this

/-- An id held by two different backends of a slice occurs twice in its ids. -/
theorem count_backendIds_two {backends : List backend} {b c : backend} {x : String}
    (hb : b ∈ backends) (hc : c ∈ backends) (hne : b ≠ c)
    (hxb : x ∈ b.sessionStore.ids) (hxc : x ∈ c.sessionStore.ids) :
    2 ≤ List.count x (backendIds backends) := by
  induction backends with
  | nil => simp at hb
  | cons a rest ih =>
    simp only [backendIds, List.count_append]
    rcases List.mem_cons.1 hb with rfl | hb'
    · rcases List.mem_cons.1 hc with rfl | hc'
      · exact absurd rfl hne
      · have h1 : 1 ≤ List.count x b.sessionStore.ids := List.count_pos_iff.2 hxb
        have h2 := count_backendIds_pos hc' hxc
        omega
    · rcases List.mem_cons.1 hc with rfl | hc'
      · have h1 : 1 ≤ List.count x c.sessionStore.ids := List.count_pos_iff.2 hxc
        have h2 := count_backendIds_pos hb' hxb
        omega
      · have := ih hb' hc'
        omega

theorem backendNames_built {adopt : String → Option sessionStore}
    {cfg : List (String × backendConfig)} {backends : List backend}
    (h : List.Forall₂ (fun p b => b.name = p.1 ∧ b.weight = p.2.weight ∧
      b.sessionTTL = p.2.sessionTTL ∧ b.maxSessions = p.2.maxSessions ∧
      b.sessionStore = (adopt p.1).getD newSessionStore) cfg backends) :
    backendNames backends = cfg.map Prod.fst := by
  induction h with
  | nil => rfl
  | cons hab _ ih => simp only [backendNames, List.map_cons, hab.1] at ih ⊢; rw [ih]

/-- C8. Reload preserves stores by name. After a successful reload (the configuration
was read, accepted and loaded, and every backend url parsed), from a state with distinct
backend names satisfying the uniqueness invariant and for a configuration listing each
name once: the published set has exactly the names of the new configuration, in its
order; a backend whose name was in the previous set has the store of its predecessor; a
backend with a new name has an empty store; no session of a backend whose name is gone
is in a store of the new set; the queue is unchanged. -/
theorem reload_preserves_stores (lib : stdlib) (qp : QProxy) (readIn : Except String viperConfig)
    (config : proxyConfig) (newBackends : List backend)
    (hreload : qp.config.syncReload lib readIn = (config, none))
    (hbuild : buildBackends lib.urlParse (oldStore qp.backends) config.dyn.backends_config_map =
      Except.ok newBackends)
    (hnew : (config.dyn.backends_config_map.map Prod.fst).Nodup)
    (hold : (backendNames qp.backends).Nodup)
    (hinv : qp.unique) :
    qp.syncReloadConfiguration lib readIn =
        { config := config, backends := newBackends, queuedSessions := qp.queuedSessions } ∧
      backendNames newBackends = config.dyn.backends_config_map.map Prod.fst ∧
      (backendNames newBackends).Nodup ∧
      (∀ b' ∈ newBackends, ∀ b ∈ qp.backends, b'.name = b.name →
        b'.sessionStore = b.sessionStore) ∧
      (∀ b' ∈ newBackends, b'.name ∉ backendNames qp.backends → b'.sessionStore.sessions = []) ∧
      (∀ b ∈ qp.backends, b.name ∉ backendNames newBackends →
        ∀ s ∈ b.sessionStore.sessions, ∀ b' ∈ newBackends, s.id ∉ b'.sessionStore.ids) := by
  have hF := buildBackends_ok hbuild
  have hnames : backendNames newBackends = config.dyn.backends_config_map.map Prod.fst :=
    backendNames_built hF
  have hstore : ∀ b' ∈ newBackends,
      b'.sessionStore = (oldStore qp.backends b'.name).getD newSessionStore := by
    intro b' hb'
    obtain ⟨p, _, hn, -, -, -, hs⟩ := forall₂_mem_right hF hb'
    rw [hs, hn]
  refine ⟨?_, hnames, by rw [hnames]; exact hnew, ?_, ?_, ?_⟩
  · unfold QProxy.syncReloadConfiguration
    rw [hreload]
    simp only [hbuild]
  · intro b' hb' b hb hn
    rw [hstore b' hb', hn, oldStore_of_mem hold hb]
    rfl
  · intro b' hb' hn
    rw [hstore b' hb', oldStore_eq_none hn]
    rfl
  · intro b hb hgone s hs b' hb' hmem
    rw [hstore b' hb'] at hmem
    cases ho : oldStore qp.backends b'.name with
    | none =>
      rw [ho] at hmem
      simp [newSessionStore, sessionStore.ids] at hmem
    | some st =>
      rw [ho] at hmem
      simp only [Option.getD_some] at hmem
      obtain ⟨c, hc, hcn, hcs⟩ := oldStore_some ho
      have hne : b ≠ c := by
        intro e
        apply hgone
        rw [e, hcn]
        exact List.mem_map_of_mem (fun b => b.name) hb'
      have hsb : s.id ∈ b.sessionStore.ids := List.mem_map_of_mem (fun s => s.id) hs
      have h2 := count_backendIds_two hb hc hne hsb (by rw [hcs]; exact hmem)
      have h1 := (List.nodup_iff_count_le_one.1 hinv) s.id
      simp only [QProxy.allIds, List.count_append] at h1
      omega

/-- Witness of C8: backends `a` and `b` hold one session each and the configuration is
reloaded with the backends `b` and `c`; `b` keeps its session and `c` starts empty. -/
theorem reload_preserves_stores_witness :
    qpAB.unique ∧ (backendNames qpAB.backends).Nodup ∧
      qpAB.syncReloadConfiguration lib0 (Except.ok vBC) =
        { config := configBC
          backends := [backendB [{ id := "s2", expiration := 200 }],
            { backendA [] with name := "c" }]
          queuedSessions := qpAB.queuedSessions } :=
  ⟨by unfold QProxy.unique; decide, by decide,
    (reload_preserves_stores lib0 qpAB (Except.ok vBC) configBC
      [backendB [{ id := "s2", expiration := 200 }], { backendA [] with name := "c" }]
      (by decide) rfl (by decide) (by decide) (by unfold QProxy.unique; decide)).1⟩

theorem backendNames_of_forall₂ {old new : List backend}
    (h : List.Forall₂ (fun a b => b.name = a.name) old new) :
    backendNames new = backendNames old := by
  induction h with
  | nil => rfl
  | cons hab _ ih => simp only [backendNames, List.map_cons, hab] at ih ⊢; rw [ih]

theorem storeSession_name (b : backend) (id : String) (now : Int) :
    (b.storeSession id now).1.name = b.name := by
  rcases backend.storeSession_fst b id now with h | ⟨_, _, h⟩
  · rw [h]
  · rw [h]; rfl

/-- Backend names stay distinct across one operation, a reload reading a configuration
that lists each name once. -/
theorem backendNames_nodup_step (lib : stdlib) (qp : QProxy) (o : op)
    (hnames : (backendNames qp.backends).Nodup) (hfresh : freshOp qp o) :
    (backendNames (qp.step lib o).backends).Nodup := by
  cases o with
  | newSession id shuffle r now =>
    simp only [QProxy.step]
    rw [backendNames_of_forall₂ (syncNewSession_forall₂ qp id shuffle r now _ (fun _ => rfl)
      (fun a b id hab => by rw [storeSession_name]; exact hab))]
    exact hnames
  | loadSession id now =>
    simp only [QProxy.step]
    rw [backendNames_of_forall₂ (loadSession_forall₂ qp id now _ (fun _ => rfl) (fun _ => rfl))]
    exact hnames
  | updateSessions draws now =>
    simp only [QProxy.step]
    rw [backendNames_of_forall₂ (syncUpdateSessions_forall₂ qp draws now _ (fun _ => rfl)
      (fun a b id hab => by rw [storeSession_name]; exact hab))]
    exact hnames
  | reload readIn =>
    simp only [QProxy.step]
    rcases syncReloadConfiguration_cases lib qp readIn with ⟨h, _⟩ | ⟨v, dyn, nbs, h1, _, h3, h4, h5⟩
    · rw [h]; exact hnames
    · subst h1
      simp only [freshOp] at hfresh
      rw [h5]
      simp only
      rw [backendNames_built (buildBackends_ok h4), (loadDynamicConfig_ok h3).1]
      simpa [List.map_map, Function.comp] using hfresh

/-- Backend names are distinct in every state reached from `NewQProxy` when the
configurations read list each name once. -/
theorem backendNames_nodup_run (lib : stdlib) (v : viperConfig) (qp : QProxy) (ops : List op)
    (hstart : NewQProxy lib v = Except.ok qp) (hv : (v.backends.map Prod.fst).Nodup)
    (hrun : qp.runs lib freshOp ops) : (backendNames (qp.run lib ops).backends).Nodup := by
  have h0 : (backendNames qp.backends).Nodup := by
    obtain ⟨dyn, _, hd, _, hb, _⟩ := NewQProxy_ok hstart
    rw [backendNames_built (buildBackends_ok hb), (loadDynamicConfig_ok hd).1]
    simpa [List.map_map, Function.comp] using hv
  clear hstart
  induction ops generalizing qp with
  | nil => exact h0
  | cons o rest ih =>
    obtain ⟨h1, h2⟩ := hrun
    exact ih (qp.step lib o) h2 (backendNames_nodup_step lib qp o h0 h1)

/-! ## Failed reloads -/

/-- When `syncReload` reports an error or panics, `syncReloadConfiguration` leaves the dynamic
configuration entries, the backend slice and the queue as they were. -/
theorem syncReloadConfiguration_of_error (lib : stdlib) (qp : QProxy)
    (readIn : Except String viperConfig) (err : failure)
    (h : (qp.config.syncReload lib readIn).2 = some err) :
    (qp.syncReloadConfiguration lib readIn).config.dyn = qp.config.dyn ∧
      (qp.syncReloadConfiguration lib readIn).backends = qp.backends ∧
      (qp.syncReloadConfiguration lib readIn).queuedSessions = qp.queuedSessions := by
  rcases proxyConfig.syncReload_cases lib qp.config readIn with ⟨e, _, hd, _⟩ | ⟨v, dyn, _, _, _, h4⟩
  · unfold QProxy.syncReloadConfiguration
    cases hs : qp.config.syncReload lib readIn with
    | mk c o =>
      rw [hs] at h hd
      simp only at h hd
      subst h
      exact ⟨hd, rfl, rfl⟩
  · rw [h4] at h
    cases h

/-- C9, failing input. A reload reads `vBadUrl`, which is accepted and loaded, and then
`newBackend` fails on the url: the error is reported, the backend slice is the old one,
but the dynamic configuration entries are already the new ones (queue TTL, queue cap and
backends configuration differ from those before the attempt). -/
theorem reload_error_partial :
    ValidateProxyConfig vBadUrl = none ∧
      (qpBusy.config.syncReload libStrict (Except.ok vBadUrl)).2 = none ∧
      buildBackends libStrict.urlParse (oldStore qpBusy.backends)
        (qpBusy.config.syncReload libStrict (Except.ok vBadUrl)).1.dyn.backends_config_map =
        Except.error "parse http://[::1" ∧
      (qpBusy.syncReloadConfiguration libStrict (Except.ok vBadUrl)).backends = qpBusy.backends ∧
      qpBusy.config.dyn.queue_session_ttl = 60000000000 ∧
      (qpBusy.syncReloadConfiguration libStrict (Except.ok vBadUrl)).config.dyn.queue_session_ttl =
        30000000000 ∧
      qpBusy.config.dyn.queue_max_sessions = 1 ∧
      (qpBusy.syncReloadConfiguration libStrict (Except.ok vBadUrl)).config.dyn.queue_max_sessions =
        5 ∧
      (qpBusy.syncReloadConfiguration libStrict (Except.ok vBadUrl)).config.dyn ≠
        qpBusy.config.dyn := by
  refine ⟨by decide, by decide, rfl, by decide, by decide, by decide, by decide, by decide, by decide⟩

/-! ## Sticky sessions -/

/-- An id held at two positions of a slice occurs twice in its ids. -/
theorem count_backendIds_positions {backends : List backend} {j i : Nat} {c b : backend}
    {x : String} (hji : j < i) (hc : backends[j]? = some c) (hb : backends[i]? = some b)
    (hxc : x ∈ c.sessionStore.ids) (hxb : x ∈ b.sessionStore.ids) :
    2 ≤ List.count x (backendIds backends) := by
  induction backends generalizing j i with
  | nil => simp at hc
  | cons a rest ih =>
    simp only [backendIds, List.count_append]
    cases i with
    | zero => omega
    | succ i' =>
      simp at hb
      cases j with
      | zero =>
        simp at hc
        subst hc
        have h1 : 1 ≤ List.count x a.sessionStore.ids := List.count_pos_iff.2 hxc
        have h2 := count_backendIds_pos (List.getElem?_mem hb) hxb
        omega
      | succ j' =>
        simp at hc
        have := ih (by omega) hc hb
        omega

theorem loadFrom_at (x : String) (now : Int) {backends : List backend} {i : Nat} {b : backend}
    {s : session} (idx : Nat)
    (hbefore : ∀ j c, j < i → backends[j]? = some c → x ∉ c.sessionStore.ids)
    (hb : backends[i]? = some b) (hs : b.loadSession x = some s) :
    ∃ bs, loadFrom x now idx backends = some (bs, s.update b.sessionTTL now, idx + i) := by
  induction backends generalizing i idx with
  | nil => simp at hb
  | cons a rest ih =>
    unfold loadFrom
    cases i with
    | zero =>
      simp at hb
      subst hb
      rw [hs]
      exact ⟨_, rfl⟩
    | succ i' =>
      simp at hb
      have ha : a.loadSession x = none := by
        unfold backend.loadSession
        rw [sessionStore.load_eq_none_iff]
        exact hbefore 0 a (by omega) (by simp)
      rw [ha]
      simp only
      obtain ⟨bs, hbs⟩ := ih (idx + 1)
        (fun j c hj hc => hbefore (j + 1) c (by omega) (by simpa using hc)) hb
      rw [hbs]
      exact ⟨a :: bs, by simp; omega⟩

/-- Lookup of an id held by the backend at position `i`, in a state satisfying the
uniqueness invariant: the session found, refreshed with that backend's TTL, and `i`. -/
theorem loadSession_sticky (qp : QProxy) (x : String) (i : Nat) (b : backend) (now : Int)
    (hinv : qp.unique) (hb : qp.backends[i]? = some b) (hx : x ∈ b.sessionStore.ids) :
    ∃ s, s ∈ b.sessionStore.sessions ∧ s.id = x ∧
      (qp.loadSession x now).2 =
        { session := some (s.update b.sessionTTL now), backend := some i, ok := true } := by
  obtain ⟨s, hs⟩ := Option.isSome_iff_exists.1 ((sessionStore.load_isSome_iff _ _).2 hx)
  obtain ⟨h1, h2⟩ := sessionStore.load_some hs
  refine ⟨s, h1, h2, ?_⟩
  have hbefore : ∀ j c, j < i → qp.backends[j]? = some c → x ∉ c.sessionStore.ids := by
    intro j c hj hc hxc
    have h2 := count_backendIds_positions hj hc hb hxc hx
    have h1 := (List.nodup_iff_count_le_one.1 hinv) x
    simp only [QProxy.allIds, List.count_append] at h1
    omega
  obtain ⟨bs, hbs⟩ := loadFrom_at x now 0 hbefore hb hs
  unfold QProxy.loadSession
  rw [hbs]
  simp

/-- Backend at position `i` keeps the id `x` across one operation of a sticky run. -/
theorem sticky_step (lib : stdlib) (qp : QProxy) (x : String) (i : Nat) (o : op)
    (hx : ∃ b, qp.backends[i]? = some b ∧ x ∈ b.sessionStore.ids)
    (hop : stickyOp x i qp o) :
    ∃ b, (qp.step lib o).backends[i]? = some b ∧ x ∈ b.sessionStore.ids := by
  obtain ⟨b, hb, hxb⟩ := hx
  have hstore : ∀ (c : backend) (id : String) (now : Int), x ∈ c.sessionStore.ids →
      x ∈ (c.storeSession id now).1.sessionStore.ids := by
    intro c id now hc
    rcases backend.storeSession_fst c id now with h | ⟨_, _, h⟩
    · rw [h]; exact hc
    · rw [h]
      simp only [backend.withNew, sessionStore.ids, List.map_append, List.mem_append]
      exact Or.inl hc
  cases o with
  | newSession id shuffle r now =>
    obtain ⟨b', hb', hR⟩ := forall₂_getElem? (syncNewSession_forall₂ qp id shuffle r now
      (fun a c => x ∈ a.sessionStore.ids → x ∈ c.sessionStore.ids) (fun _ h => h)
      (fun a c id hac ha => hstore c id now (hac ha))) hb
    exact ⟨b', hb', hR hxb⟩
  | loadSession id now =>
    obtain ⟨b', hb', hR⟩ := forall₂_getElem? (loadSession_forall₂ qp id now
      (fun a c => x ∈ a.sessionStore.ids → x ∈ c.sessionStore.ids) (fun _ h => h)
      (fun a ha => by simpa [ids_refresh] using ha)) hb
    exact ⟨b', hb', hR hxb⟩
  | updateSessions draws now =>
    obtain ⟨b', hb', hR⟩ := forall₂_getElem? (syncUpdateSessions_forall₂ qp draws now
      (fun a c => (x ∈ a.sessionStore.ids ∧
        ∀ s ∈ a.sessionStore.sessions, s.id = x → now < s.expiration) → x ∈ c.sessionStore.ids)
      (fun a ha => by
        obtain ⟨hmem, hexp⟩ := ha
        obtain ⟨s, hs, hid⟩ := List.mem_map.1 hmem
        exact List.mem_map.2 ⟨s, sessionStore.mem_removeExpired.2 ⟨hs, hexp s hs hid⟩, hid⟩)
      (fun a c id hac ha => hstore c id now (hac ha))) hb
    exact ⟨b', hb', hR ⟨hxb, hop b hb⟩⟩
  | reload readIn => exact absurd hop (by simp [stickyOp])

theorem freshOp_of_stickyOp {x : String} {i : Nat} {qp : QProxy} {o : op}
    (h : stickyOp x i qp o) : freshOp qp o := by
  cases o with
  | newSession id shuffle r now => exact h
  | loadSession id now => trivial
  | updateSessions draws now => trivial
  | reload readIn => exact absurd h (by simp [stickyOp])

/-- C10. Sticky sessions: in a state satisfying the uniqueness invariant in which the
backend at position `i` holds the id `x`, after any sequence of `syncNewSession` (fresh
ids), `loadSession` and `syncUpdateSessions` operations in which the session expires after
the instant of every promotion, that backend still holds `x` and `loadSession x` returns
the session (refreshed with the backend's TTL) together with that backend. The empty
sequence is the lookup in the state itself. -/
theorem sticky_session (lib : stdlib) (qp : QProxy) (x : String) (i : Nat) (ops : List op)
    (now : Int) (hinv : qp.unique)
    (hx : ∃ b, qp.backends[i]? = some b ∧ x ∈ b.sessionStore.ids)
    (hrun : qp.runs lib (stickyOp x i) ops) :
    ∃ b s, (qp.run lib ops).backends[i]? = some b ∧ s ∈ b.sessionStore.sessions ∧ s.id = x ∧
      ((qp.run lib ops).loadSession x now).2 =
        { session := some (s.update b.sessionTTL now), backend := some i, ok := true } := by
  induction ops generalizing qp with
  | nil =>
    obtain ⟨b, hb, hxb⟩ := hx
    obtain ⟨s, h1, h2, h3⟩ := loadSession_sticky qp x i b now hinv hb hxb
    exact ⟨b, s, hb, h1, h2, h3⟩
  | cons o rest ih =>
    obtain ⟨h1, h2⟩ := hrun
    exact ih (qp.step lib o) (unique_step lib qp o hinv (freshOp_of_stickyOp h1))
      (sticky_step lib qp x i o hx h1) h2

/-- Witness of C10: the session `s2` of backend 0 in `qpFull` survives a new admission, a
lookup that refreshes it and a promotion at the instant 150. -/
theorem sticky_session_witness :
    qpFull.unique ∧ (∃ b, qpFull.backends[0]? = some b ∧ "s2" ∈ b.sessionStore.ids) ∧
      ∃ b s, (qpFull.run lib0 [op.newSession "s4" id 0 120, op.loadSession "s2" 130,
          op.updateSessions (fun _ => { shuffle := id, rndWeight := 0 }) 150]).backends[0]? =
            some b ∧ s ∈ b.sessionStore.sessions ∧ s.id = "s2" ∧
        ((qpFull.run lib0 [op.newSession "s4" id 0 120, op.loadSession "s2" 130,
          op.updateSessions (fun _ => { shuffle := id, rndWeight := 0 }) 150]).loadSession
            "s2" 160).2 =
          { session := some (s.update b.sessionTTL 160), backend := some 0, ok := true } :=
  ⟨by unfold QProxy.unique; decide, ⟨_, rfl, by decide⟩,
    sticky_session lib0 qpFull "s2" 0 _ 160 (by unfold QProxy.unique; decide)
      ⟨_, rfl, by decide⟩
      ⟨by simp only [stickyOp]; decide, trivial, by
        intro b hb s hs hid
        have hb' : b = backendA [{ id := "s1", expiration := 100 },
            { id := "s2", expiration := 60000000130 }] := by
          have : (some b : Option backend) = some (backendA [{ id := "s1", expiration := 100 },
            { id := "s2", expiration := 60000000130 }]) := by rw [← hb]; rfl
          exact Option.some.inj this
        subst hb'
        simp only [backendA, List.mem_cons, List.mem_singleton, List.not_mem_nil, or_false] at hs
        rcases hs with rfl | rfl
        · exact absurd hid (by decide)
        · decide, trivial⟩⟩

/-! ## Promotion is exact -/

theorem freePlaces_set {backends : List backend} {i : Nat} {b : backend} (b' : backend)
    (hb : backends[i]? = some b) :
    freePlaces (backends.set i b') = freePlaces backends - b.remainingPlaces + b'.remainingPlaces := by
  induction backends generalizing i with
  | nil => simp at hb
  | cons a rest ih =>
    cases i with
    | zero =>
      simp at hb
      subst hb
      simp only [List.set_cons_zero, freePlaces]
      omega
    | succ j =>
      simp at hb
      simp only [List.set_cons_succ, freePlaces, ih hb]
      omega

theorem freePlaces_pos {backends : List backend} (h : 0 < freePlaces backends) :
    ∃ (i : Nat) (b : backend), backends[i]? = some b ∧ 0 < b.remainingPlaces := by
  induction backends with
  | nil => simp [freePlaces] at h
  | cons a rest ih =>
    by_cases ha : 0 < a.remainingPlaces
    · exact ⟨0, a, by simp, ha⟩
    · have hz : a.remainingPlaces = 0 := by
        have := backend.remainingPlaces_nonneg a
        omega
      simp only [freePlaces, hz, zero_add] at h
      obtain ⟨i, b, hb, hpos⟩ := ih h
      exact ⟨i + 1, b, by simpa using hb, hpos⟩

theorem withNew_remainingPlaces (b : backend) (id : String) (now : Int)
    (h : b.remainingPlaces ≠ 0) :
    (b.withNew id now).remainingPlaces = b.remainingPlaces - 1 := by
  unfold backend.remainingPlaces subLen at *
  simp only [backend.withNew, sessionStore.len, List.length_append, List.length_singleton,
    Nat.cast_add, Nat.cast_one] at *
  split_ifs at h ⊢ <;> omega

theorem extendedBy_refl (b : backend) : b.extendedBy b := ⟨[], by simp⟩

theorem extendedBy_withNew {a b : backend} (id : String) (now : Int) (h : a.extendedBy b) :
    a.extendedBy (b.withNew id now) := by
  obtain ⟨added, rfl⟩ := h
  exact ⟨added ++ [newSession id a.sessionTTL now], by simp [backend.withNew]⟩

/-- Ids of extended stores: those of the old stores and those of the added sessions. -/
theorem count_backendIds_extended (x : String) {old new : List backend}
    (h : List.Forall₂ backend.extendedBy old new) :
    List.count x (backendIds new) =
      List.count x (backendIds old) + List.count x ((addedSessions old new).map (fun s => s.id)) := by
  induction h with
  | nil => rfl
  | cons hab _ ih =>
    obtain ⟨added, rfl⟩ := hab
    simp only [backendIds, addedSessions, sessionStore.ids, List.map_append, List.count_append,
      List.drop_left, ih]
    omega

/-- Promotion loop on sessions whose ids are distinct and in no backend store, when they
are no more than the free places and every shuffle is a permutation: every session is
stored on a backend (the queue is never touched), the stores are extended by exactly
the popped ids, and the free places decrease by the number of sessions. -/
theorem promoteLoop_exact (draws : Nat → draw) (now : Int)
    (hshuffle : ∀ n l, ((draws n).shuffle l).Perm l)
    (swept : List backend) (popped : List session) (queue : sessionStore)
    (hU : ∀ x, List.count x (popped.map (fun s => s.id)) + List.count x (backendIds swept) ≤ 1)
    (hlen : (popped.length : Int) ≤ freePlaces swept) :
    (promoteLoop draws now 0 popped
        { backends := swept, availableBackends := availableFrom 0 swept,
          queuedSessions := queue }).queuedSessions = queue ∧
      List.Forall₂ backend.extendedBy swept (promoteLoop draws now 0 popped
        { backends := swept, availableBackends := availableFrom 0 swept,
          queuedSessions := queue }).backends ∧
      (∀ x, List.count x (backendIds (promoteLoop draws now 0 popped
        { backends := swept, availableBackends := availableFrom 0 swept,
          queuedSessions := queue }).backends) =
        List.count x (popped.map (fun s => s.id)) + List.count x (backendIds swept)) ∧
      freePlaces (promoteLoop draws now 0 popped
        { backends := swept, availableBackends := availableFrom 0 swept,
          queuedSessions := queue }).backends = freePlaces swept - (popped.length : Int) := by
  have key := promoteLoop_induct draws now
    (fun rest st => st.queuedSessions = queue ∧
      List.Forall₂ backend.extendedBy swept st.backends ∧
      (∀ (i : Nat) (b : backend), st.backends[i]? = some b → 0 < b.remainingPlaces →
        i ∈ st.availableBackends) ∧
      (∀ x, List.count x (rest.map (fun s => s.id)) + List.count x (backendIds st.backends) =
        List.count x (popped.map (fun s => s.id)) + List.count x (backendIds swept)) ∧
      freePlaces st.backends + (popped.length : Int) = freePlaces swept + (rest.length : Int))
    (fun s rest st n i b hP hi hb hroom => by
      obtain ⟨hq, hext, havail, hcount, hfree⟩ := hP
      have hfresh : s.id ∉ b.sessionStore.ids := by
        intro hmem
        have h1 := hcount s.id
        have h2 := hU s.id
        have h3 := count_backendIds_pos (List.getElem?_mem hb) hmem
        simp only [List.map_cons, List.count_cons_self] at h1
        omega
      have hst : (b.storeSession s.id now).1 = b.withNew s.id now := by
        rw [backend.storeSession_fresh b s.id now hfresh]
        simp [hroom]
      rw [hst]
      refine ⟨hq, forall₂_set_right hext hb (fun a ha => extendedBy_withNew s.id now ha), ?_, ?_, ?_⟩
      · intro j c hc hpos
        simp only at hc ⊢
        by_cases hji : i = j
        · subst hji; exact hi
        · rw [List.getElem?_set_ne hji] at hc
          exact (hshuffle n _).mem_iff.2 (havail j c hc hpos)
      · intro x
        have h1 := hcount x
        have h2 := count_backendIds_set x (b.withNew s.id now) hb
        have h3 := count_ids_withNew x b s.id now
        simp only [List.map_cons, List.count_cons, beq_iff_eq] at h1
        simp only
        omega
      · have h1 := freePlaces_set (b.withNew s.id now) hb
        have h2 := withNew_remainingPlaces b s.id now hroom
        simp only [List.length_cons, Nat.cast_add, Nat.cast_one] at hfree
        simp only
        omega)
    (fun s rest st n hP hnone => by
      obtain ⟨hq, hext, havail, hcount, hfree⟩ := hP
      exfalso
      have hpos : 0 < freePlaces st.backends := by
        simp only [List.length_cons, Nat.cast_add, Nat.cast_one] at hfree
        omega
      obtain ⟨i, b, hb, hbpos⟩ := freePlaces_pos hpos
      have := hnone i ((hshuffle n _).mem_iff.2 (havail i b hb hbpos)) b hb
      omega)
    0 popped
    { backends := swept, availableBackends := availableFrom 0 swept, queuedSessions := queue }
    ⟨rfl, forall₂_refl_of extendedBy_refl _,
      fun i b hb hpos => (mem_availableFrom 0 swept i).2 ⟨Nat.zero_le _, b, by simpa using hb, hpos⟩,
      fun x => rfl, rfl⟩
  obtain ⟨h1, h2, -, h4, h5⟩ := key
  refine ⟨h1, h2, ?_, ?_⟩
  · intro x
    have := h4 x
    simpa using this
  · simp only [List.length_nil, Nat.cast_zero, add_zero] at h5
    omega

/-- C6, as stated, does not hold. The state `qpHuge`, reached from start-up by three
arrivals and a reload to the configuration `vHuge` that validation accepts, satisfies the
uniqueness invariant; at the instant 40 the swept queue holds one session and the
remaining places of the swept backends sum to 2^64, so that `k` is 1. The `int` variable
`freeSlots` holds that sum as 0 and `syncUpdateSessions` promotes nothing: the queue
afterwards is not the swept queue without its first `k` sessions. -/
theorem promotion_overflow_keeps_queue :
    ValidateProxyConfig vHuge = none ∧
      qpHuge.unique ∧
      (qpHuge.queuedSessions.removeExpired 40).sessions =
        [{ id := "s3", expiration := 60000000030 }] ∧
      min (freePlaces (qpHuge.backends.map (fun b => b.removeExpiredSessions 40))).toNat
        (qpHuge.queuedSessions.removeExpired 40).sessions.length = 1 ∧
      (qpHuge.syncUpdateSessions (fun _ => { shuffle := id, rndWeight := 0 })
        40).queuedSessions.sessions = [{ id := "s3", expiration := 60000000030 }] ∧
      ¬ ((qpHuge.syncUpdateSessions (fun _ => { shuffle := id, rndWeight := 0 })
          40).queuedSessions.sessions =
        (qpHuge.queuedSessions.removeExpired 40).sessions.drop
          (min (freePlaces (qpHuge.backends.map (fun b => b.removeExpiredSessions 40))).toNat
            (qpHuge.queuedSessions.removeExpired 40).sessions.length)) := by
  refine ⟨by decide, by unfold QProxy.unique; decide, by decide, by decide, by decide,
    by decide⟩

/-- C6, amended. Promotion is FIFO and exact when the sum of the remaining places does
not overflow: in a state satisfying the uniqueness invariant, for shuffles that are
permutations and any draws, let `queue` be the queue after the sweep at `now`, `swept` the
swept backends and `k` the smaller of the sum of their remaining places and the length of
`queue`, that sum being below 2^63. After `syncUpdateSessions` the queue is `queue` without
its first `k` sessions, every backend is the swept backend at the same position with
sessions appended to its store, and the ids of the appended sessions are exactly the ids
of the first `k` sessions of `queue`. -/
theorem promotion_fifo_exact (qp : QProxy) (draws : Nat → draw) (now : Int)
    (hinv : qp.unique) (hshuffle : ∀ n l, ((draws n).shuffle l).Perm l)
    (hsum : freePlaces (qp.backends.map (fun b => b.removeExpiredSessions now)) <
      9223372036854775808) :
    (qp.syncUpdateSessions draws now).queuedSessions.sessions =
        (qp.queuedSessions.removeExpired now).sessions.drop
          (min (freePlaces (qp.backends.map (fun b => b.removeExpiredSessions now))).toNat
            (qp.queuedSessions.removeExpired now).sessions.length) ∧
      List.Forall₂ backend.extendedBy (qp.backends.map (fun b => b.removeExpiredSessions now))
        (qp.syncUpdateSessions draws now).backends ∧
      ((addedSessions (qp.backends.map (fun b => b.removeExpiredSessions now))
          (qp.syncUpdateSessions draws now).backends).map (fun s => s.id)).Perm
        (((qp.queuedSessions.removeExpired now).sessions.take
          (min (freePlaces (qp.backends.map (fun b => b.removeExpiredSessions now))).toNat
            (qp.queuedSessions.removeExpired now).sessions.length)).map (fun s => s.id)) := by
  have hnn := freePlaces_nonneg (qp.backends.map (fun b => b.removeExpiredSessions now))
  -- the three facts follow from: queue, extension, and conservation of ids
  suffices hmain :
      (qp.syncUpdateSessions draws now).queuedSessions.sessions =
        (qp.queuedSessions.removeExpired now).sessions.drop
          (min (freePlaces (qp.backends.map (fun b => b.removeExpiredSessions now))).toNat
            (qp.queuedSessions.removeExpired now).sessions.length) ∧
      List.Forall₂ backend.extendedBy (qp.backends.map (fun b => b.removeExpiredSessions now))
        (qp.syncUpdateSessions draws now).backends ∧
      ∀ x, List.count x (backendIds (qp.syncUpdateSessions draws now).backends) =
        List.count x (((qp.queuedSessions.removeExpired now).sessions.take
          (min (freePlaces (qp.backends.map (fun b => b.removeExpiredSessions now))).toNat
            (qp.queuedSessions.removeExpired now).sessions.length)).map (fun s => s.id)) +
        List.count x (backendIds (qp.backends.map (fun b => b.removeExpiredSessions now))) by
    obtain ⟨h1, h2, h3⟩ := hmain
    refine ⟨h1, h2, ?_⟩
    rw [List.perm_iff_count]
    intro x
    have h4 := count_backendIds_extended x h2
    have h5 := h3 x
    omega
  unfold QProxy.syncUpdateSessions
  simp only [sweepFrom_exact now 0 qp.backends hsum]
  split
  · rename_i hcase
    have hk : min (freePlaces (qp.backends.map (fun b => b.removeExpiredSessions now))).toNat
        (qp.queuedSessions.removeExpired now).sessions.length = 0 := by
      rcases hcase with h | h
      · rw [h]; simp
      · simp only [sessionStore.len] at h
        omega
    rw [hk]
    refine ⟨by simp, forall₂_refl_of extendedBy_refl _, ?_⟩
    intro x
    simp
  · rw [if_neg (not_lt.2 hnn)]
    have hsize : (if (freePlaces (qp.backends.map (fun b => b.removeExpiredSessions now))).toNat >
          (qp.queuedSessions.removeExpired now).sessions.length
        then (qp.queuedSessions.removeExpired now).sessions.length
        else (freePlaces (qp.backends.map (fun b => b.removeExpiredSessions now))).toNat) =
        min (freePlaces (qp.backends.map (fun b => b.removeExpiredSessions now))).toNat
          (qp.queuedSessions.removeExpired now).sessions.length := by
      split <;> omega
    simp only [sessionStore.pop, hsize]
    have hU : ∀ x, List.count x
        (((qp.queuedSessions.removeExpired now).sessions.take
          (min (freePlaces (qp.backends.map (fun b => b.removeExpiredSessions now))).toNat
            (qp.queuedSessions.removeExpired now).sessions.length)).map (fun s => s.id)) +
        List.count x (backendIds (qp.backends.map (fun b => b.removeExpiredSessions now))) ≤ 1 := by
      intro x
      have h1 := (List.nodup_iff_count_le_one.1 hinv) x
      have h2 := (backendIds_sweep_sublist now qp.backends).count_le x
      have h3 := (ids_removeExpired_sublist qp.queuedSessions now).count_le x
      have h4 := ((List.take_sublist
        (min (freePlaces (qp.backends.map (fun b => b.removeExpiredSessions now))).toNat
            (qp.queuedSessions.removeExpired now).sessions.length)
        (qp.queuedSessions.removeExpired now).sessions).map (fun s => s.id)).count_le x
      simp only [QProxy.allIds, List.count_append, sessionStore.ids] at h1 h3
      omega
    have hlen : (((qp.queuedSessions.removeExpired now).sessions.take
          (min (freePlaces (qp.backends.map (fun b => b.removeExpiredSessions now))).toNat
            (qp.queuedSessions.removeExpired now).sessions.length)).length : Int) ≤
        freePlaces (qp.backends.map (fun b => b.removeExpiredSessions now)) := by
      rw [List.length_take]
      omega
    obtain ⟨h1, h2, h3, -⟩ := promoteLoop_exact draws now hshuffle _ _
      { sessions := (qp.queuedSessions.removeExpired now).sessions.drop
          (min (freePlaces (qp.backends.map (fun b => b.removeExpiredSessions now))).toNat
            (qp.queuedSessions.removeExpired now).sessions.length) } hU hlen
    exact ⟨by rw [h1], h2, h3⟩

/-- Witness of C6: in `qpFull` at the instant 150 one place is free after the sweep and
the queued session `s3` takes it. -/
theorem promotion_fifo_exact_witness :
    qpFull.unique ∧
      freePlaces (qpFull.backends.map (fun b => b.removeExpiredSessions 150)) <
        9223372036854775808 ∧
      (qpFull.syncUpdateSessions (fun _ => { shuffle := id, rndWeight := 0 }) 150) =
        { qpFull with
          backends := [backendA [{ id := "s2", expiration := 200 },
            { id := "s3", expiration := 60000000150 }]]
          queuedSessions := { sessions := [] } } ∧
      ((addedSessions (qpFull.backends.map (fun b => b.removeExpiredSessions 150))
          (qpFull.syncUpdateSessions (fun _ => { shuffle := id, rndWeight := 0 })
            150).backends).map (fun s => s.id)).Perm
        (((qpFull.queuedSessions.removeExpired 150).sessions.take
          (min (freePlaces (qpFull.backends.map (fun b => b.removeExpiredSessions 150))).toNat
            (qpFull.queuedSessions.removeExpired 150).sessions.length)).map (fun s => s.id)) :=
  ⟨by unfold QProxy.unique; decide, by decide, by decide,
    (promotion_fifo_exact qpFull (fun _ => { shuffle := id, rndWeight := 0 }) 150
      (by unfold QProxy.unique; decide) (fun _ l => List.Perm.refl l) (by decide)).2.2⟩

/-! ## Contracts of the store operations -/

/-- C18, as stated, does not hold: the backend `bMin`, of capacity -2^63 and holding one
session, has `max 0 (maxSessions - len) = 0`, yet `remainingPlaces` is 2^63 - 1 (the
difference wraps around) and `storeSession` appends a session for an id it does not
hold, with ok. -/
theorem storeSession_wraps :
    "s9" ∉ bMin.sessionStore.ids ∧
      max 0 (bMin.maxSessions - bMin.sessionStore.len) = 0 ∧
      bMin.remainingPlaces = 9223372036854775807 ∧
      bMin.storeSession "s9" 7 =
        ({ bMin with sessionStore :=
            { sessions := bMin.sessionStore.sessions ++
                [{ id := "s9", expiration := 7 + bMin.sessionTTL }] } },
          some { id := "s9", expiration := 7 + bMin.sessionTTL }) ∧
      ¬ (max 0 (bMin.maxSessions - bMin.sessionStore.len) = 0 →
          bMin.storeSession "s9" 7 = (bMin, none)) := by
  refine ⟨by decide, by decide, by decide, by decide, by decide⟩

/-- C18, amended. Contract of `backend.storeSession`: when the id is already in the store,
the stored session (the one `load` finds) is returned with ok and the backend is
unchanged, whatever its capacity; otherwise, with no remaining place, the call fails and
the backend is unchanged; otherwise one session with that id, expiring one backend TTL
after `now`, is appended at the end of the store and returned with ok. Here
`remainingPlaces` is `max 0 d`, `d` being the difference `maxSessions - len` as the Go
`int` subtraction gives it: the exact difference whenever that is at least -2^63 (so for
every capacity that is not negative), and the difference modulo 2^64 for a capacity and
a length that are Go `int`s. A store within its capacity stays within it. -/
theorem storeSession_contract (b : backend) (x : String) (now : Int) :
    (x ∈ b.sessionStore.ids →
        ∃ s, b.sessionStore.load x = some s ∧ s ∈ b.sessionStore.sessions ∧ s.id = x ∧
          b.storeSession x now = (b, some s)) ∧
      (x ∉ b.sessionStore.ids → b.remainingPlaces = 0 → b.storeSession x now = (b, none)) ∧
      (x ∉ b.sessionStore.ids → b.remainingPlaces ≠ 0 →
        b.storeSession x now =
          ({ b with sessionStore :=
              { sessions := b.sessionStore.sessions ++ [{ id := x, expiration := now + b.sessionTTL }] } },
            some { id := x, expiration := now + b.sessionTTL })) ∧
      b.remainingPlaces = max 0 (subLen b.maxSessions b.sessionStore.len) ∧
      (-9223372036854775808 ≤ b.maxSessions - b.sessionStore.len →
        b.remainingPlaces = max 0 (b.maxSessions - b.sessionStore.len)) ∧
      (-9223372036854775808 ≤ b.maxSessions → b.maxSessions < 9223372036854775808 →
        b.sessionStore.len < 9223372036854775808 →
        b.remainingPlaces = max 0 (wrapInt (b.maxSessions - b.sessionStore.len))) ∧
      (b.sessionStore.len ≤ b.maxSessions →
        (b.storeSession x now).1.sessionStore.len ≤ (b.storeSession x now).1.maxSessions) := by
  have hrem : b.remainingPlaces = max 0 (subLen b.maxSessions b.sessionStore.len) := by
    unfold backend.remainingPlaces
    simp only
    split <;> omega
  refine ⟨?_, ?_, ?_, hrem, ?_, ?_, ?_⟩
  · intro hx
    obtain ⟨s, hs⟩ := Option.isSome_iff_exists.1 ((sessionStore.load_isSome_iff _ _).2 hx)
    obtain ⟨h1, h2⟩ := sessionStore.load_some hs
    refine ⟨s, hs, h1, h2, ?_⟩
    unfold backend.storeSession
    rw [hs]
  · intro hx hz
    rw [backend.storeSession_fresh b x now hx, if_pos hz]
  · intro hx hz
    rw [backend.storeSession_fresh b x now hx, if_neg hz]
    rfl
  · intro h
    rw [hrem, subLen_of_ge _ _ h]
  · intro h1 h2 h3
    rw [hrem, subLen_eq_wrapInt _ _ h1 h2 (by simp [sessionStore.len]) h3]
  · intro h
    exact (capacity_storeSession b x now ⟨by simp [sessionStore.len], h⟩).2

/-- C19. `removeExpired` is an order-preserving filter: the store afterwards holds the
sessions whose expiration is strictly after `now`, in their original order; a session
expiring exactly at `now` is removed; a second sweep at the same instant changes
nothing. -/
theorem removeExpired_filter (store : sessionStore) (now : Int) :
    (store.removeExpired now).sessions =
        store.sessions.filter (fun s => decide (s.expiration > now)) ∧
      List.Sublist (store.removeExpired now).sessions store.sessions ∧
      (∀ s ∈ store.sessions, s.expiration = now → s ∉ (store.removeExpired now).sessions) ∧
      (store.removeExpired now).removeExpired now = store.removeExpired now := by
  have h := sessionStore.removeExpired_sessions store now
  refine ⟨h, ?_, ?_, ?_⟩
  · rw [h]; exact List.filter_sublist _
  · intro s _ he hmem
    rw [h, List.mem_filter] at hmem
    have := hmem.2
    simp only [decide_eq_true_eq] at this
    omega
  · have h2 := sessionStore.removeExpired_sessions (store.removeExpired now) now
    rw [h, List.filter_filter] at h2
    simp only [Bool.and_self] at h2
    rw [← h] at h2
    cases hs : (store.removeExpired now).removeExpired now with
    | mk l =>
      rw [hs] at h2
      simp only at h2
      rw [h2]

/-- C20. `pop` splits the store at the head: it returns the first `min n len` sessions in
order and leaves the others in order, so that the returned sessions followed by the
remaining ones are the original list; `pop 0` returns nothing and changes nothing; `pop n`
with `n` above the length returns everything and leaves the store empty. -/
theorem pop_split (store : sessionStore) (n : Nat) :
    (store.pop n).1 = store.sessions.take (min n store.sessions.length) ∧
      (store.pop n).2.sessions = store.sessions.drop (min n store.sessions.length) ∧
      (store.pop n).1 ++ (store.pop n).2.sessions = store.sessions ∧
      (store.pop n).1.length = min n store.sessions.length ∧
      store.pop 0 = ([], store) ∧
      (n > store.sessions.length → store.pop n = (store.sessions, { sessions := [] })) := by
  have hsize : (if n > store.sessions.length then store.sessions.length else n) =
      min n store.sessions.length := by
    split <;> omega
  refine ⟨?_, ?_, ?_, ?_, ?_, ?_⟩
  · simp only [sessionStore.pop, hsize]
  · simp only [sessionStore.pop, hsize]
  · simp only [sessionStore.pop, hsize, List.take_append_drop]
  · simp only [sessionStore.pop, hsize, List.length_take]
    omega
  · simp [sessionStore.pop]
  · intro hn
    simp [sessionStore.pop, hn]

/-! ## Sliding expiration -/

theorem updateFirst_of_not_mem (id : String) (ttl now : Int) (l : List session)
    (h : id ∉ l.map (fun s => s.id)) : updateFirst id ttl now l = l := by
  induction l with
  | nil => rfl
  | cons s rest ih =>
    simp only [List.map_cons, List.mem_cons, not_or] at h
    unfold updateFirst
    have : (s.id == id) = false := by simpa using fun e => h.1 e.symm
    simp only [this, Bool.false_eq_true, if_false]
    rw [ih h.2]

/-- Effect of a refresh on a list holding the id: the first session with the id gets the
new expiration, at the same position; every other session is untouched. -/
theorem updateFirst_split (id : String) (ttl now : Int) (l : List session)
    (h : id ∈ l.map (fun s => s.id)) :
    ∃ pre s post, l = pre ++ s :: post ∧ s.id = id ∧ (∀ t ∈ pre, t.id ≠ id) ∧
      l.find? (fun s => s.id == id) = some s ∧
      updateFirst id ttl now l = pre ++ { id := id, expiration := now + ttl } :: post := by
  induction l with
  | nil => simp at h
  | cons a rest ih =>
    by_cases ha : a.id = id
    · refine ⟨[], a, rest, rfl, ha, by simp, ?_, ?_⟩
      · simp [List.find?, ha]
      · unfold updateFirst
        simp [ha, session.update]
    · have hr : id ∈ rest.map (fun s => s.id) := by
        simp only [List.map_cons, List.mem_cons] at h
        rcases h with h | h
        · exact absurd h.symm ha
        · exact h
      obtain ⟨pre, s, post, h1, h2, h3, h4, h5⟩ := ih hr
      have hb : (a.id == id) = false := by simpa using ha
      refine ⟨a :: pre, s, post, by rw [h1]; rfl, h2, ?_, ?_, ?_⟩
      · intro t ht
        rcases List.mem_cons.1 ht with rfl | ht
        · exact ha
        · exact h3 t ht
      · simp [List.find?, hb, h4]
      · unfold updateFirst
        simp only [hb, Bool.false_eq_true, if_false, h5]
        rfl

theorem loadFrom_at_eq (x : String) (now : Int) {backends : List backend} {i : Nat} {b : backend}
    {s : session} (idx : Nat)
    (hbefore : ∀ (j : Nat) (c : backend), j < i → backends[j]? = some c → x ∉ c.sessionStore.ids)
    (hb : backends[i]? = some b) (hs : b.loadSession x = some s) :
    loadFrom x now idx backends =
      some (backends.set i { b with sessionStore := b.sessionStore.refresh x b.sessionTTL now },
        s.update b.sessionTTL now, idx + i) := by
  induction backends generalizing i idx with
  | nil => simp at hb
  | cons a rest ih =>
    unfold loadFrom
    cases i with
    | zero =>
      simp at hb
      subst hb
      rw [hs]
      rfl
    | succ i' =>
      simp at hb
      have ha : a.loadSession x = none := by
        unfold backend.loadSession
        rw [sessionStore.load_eq_none_iff]
        exact hbefore 0 a (by omega) (by simp)
      rw [ha]
      simp only
      rw [ih (idx + 1) (fun j c hj hc => hbefore (j + 1) c (by omega) (by simpa using hc)) hb]
      simp only [List.set_cons_succ, Option.some.injEq, Prod.mk.injEq, true_and]
      omega

theorem loadFrom_eq_none (x : String) (now : Int) (idx : Nat) (backends : List backend)
    (h : x ∉ backendIds backends) : loadFrom x now idx backends = none := by
  induction backends generalizing idx with
  | nil => rfl
  | cons a rest ih =>
    simp only [backendIds, List.mem_append, not_or] at h
    unfold loadFrom
    have ha : a.loadSession x = none := by
      unfold backend.loadSession
      rw [sessionStore.load_eq_none_iff]
      exact h.1
    rw [ha]
    simp only [ih (idx + 1) h.2]

/-- First position of a slice whose backend holds the id. -/
theorem exists_first_holder (x : String) (backends : List backend)
    (h : x ∈ backendIds backends) :
    ∃ (i : Nat) (b : backend), backends[i]? = some b ∧ x ∈ b.sessionStore.ids ∧
      ∀ (j : Nat) (c : backend), j < i → backends[j]? = some c → x ∉ c.sessionStore.ids := by
  induction backends with
  | nil => simp [backendIds] at h
  | cons a rest ih =>
    by_cases ha : x ∈ a.sessionStore.ids
    · exact ⟨0, a, by simp, ha, fun j c hj _ => absurd hj (Nat.not_lt_zero j)⟩
    · have hr : x ∈ backendIds rest := by
        simp only [backendIds, List.mem_append] at h
        rcases h with h | h
        · exact absurd h ha
        · exact h
      obtain ⟨i, b, hb, hx, hfirst⟩ := ih hr
      refine ⟨i + 1, b, by simpa using hb, hx, ?_⟩
      intro j c hj hc
      cases j with
      | zero =>
        simp at hc
        subst hc
        exact ha
      | succ j' => exact hfirst j' c (by omega) (by simpa using hc)

/-- Lookup that hits the backend at position `i`, the first one holding the id. -/
theorem loadSession_backend_hit (qp : QProxy) (id : String) (now : Int) (i : Nat) (b : backend)
    (hb : qp.backends[i]? = some b) (hid : id ∈ b.sessionStore.ids)
    (hfirst : ∀ (j : Nat) (c : backend), j < i → qp.backends[j]? = some c →
      id ∉ c.sessionStore.ids) :
    ∃ pre s post, b.sessionStore.sessions = pre ++ s :: post ∧ s.id = id ∧
      (∀ t ∈ pre, t.id ≠ id) ∧
      qp.loadSession id now =
        ({ qp with backends := (qp.backends.set i
            { b with sessionStore :=
              { sessions := pre ++ { id := id, expiration := now + b.sessionTTL } :: post } }) },
          { session := some { id := id, expiration := now + b.sessionTTL }, backend := some i,
            ok := true }) := by
  obtain ⟨pre, s, post, h1, h2, h3, h4, h5⟩ :=
    updateFirst_split id b.sessionTTL now b.sessionStore.sessions hid
  refine ⟨pre, s, post, h1, h2, h3, ?_⟩
  have hl : b.loadSession id = some s := h4
  unfold QProxy.loadSession
  rw [loadFrom_at_eq id now 0 hfirst hb hl]
  simp only [sessionStore.refresh, h5, session.update, h2, Nat.zero_add]

/-- C11. Sliding expiration with the right TTL. `loadSession id` at `now` succeeds exactly
when the id is in a backend store or in the queue. When the backend at position `i` is
the first one holding the id (under the uniqueness invariant: whenever it holds the id),
the result is the session with expiration `now + sessionTTL` of that backend, and `i`;
otherwise, when the queue holds the id, the result is the session with expiration
`now + queue.session_ttl` and no backend; on a miss the result is (nil, nil, false) and the
state is unchanged. In each case the state afterwards is the old one where the session
found, at its position, carries the new expiration: membership, order and every other
expiration are unchanged. -/
theorem loadSession_sliding (qp : QProxy) (id : String) (now : Int) :
    ((qp.loadSession id now).2.ok = true ↔ id ∈ qp.allIds) ∧
      (∀ (i : Nat) (b : backend), qp.backends[i]? = some b → id ∈ b.sessionStore.ids →
        (∀ (j : Nat) (c : backend), j < i → qp.backends[j]? = some c →
          id ∉ c.sessionStore.ids) →
        ∃ pre s post, b.sessionStore.sessions = pre ++ s :: post ∧ s.id = id ∧
          (∀ t ∈ pre, t.id ≠ id) ∧
          qp.loadSession id now =
            ({ qp with backends := (qp.backends.set i
                { b with sessionStore :=
                  { sessions := pre ++ { id := id, expiration := now + b.sessionTTL } :: post } }) },
              { session := some { id := id, expiration := now + b.sessionTTL },
                backend := some i, ok := true })) ∧
      (qp.unique → ∀ (i : Nat) (b : backend), qp.backends[i]? = some b →
        id ∈ b.sessionStore.ids →
        (qp.loadSession id now).2 =
          { session := some { id := id, expiration := now + b.sessionTTL }, backend := some i,
            ok := true }) ∧
      (id ∉ backendIds qp.backends → id ∈ qp.queuedSessions.ids →
        ∃ pre s post, qp.queuedSessions.sessions = pre ++ s :: post ∧ s.id = id ∧
          (∀ t ∈ pre, t.id ≠ id) ∧
          qp.loadSession id now =
            ({ qp with queuedSessions :=
                { sessions := pre ++
                    { id := id, expiration := now + qp.config.dyn.queue_session_ttl } :: post } },
              { session := some { id := id, expiration := now + qp.config.dyn.queue_session_ttl },
                backend := none, ok := true })) ∧
      (id ∉ qp.allIds →
        qp.loadSession id now = (qp, { session := none, backend := none, ok := false })) := by
  have hqueue : id ∉ backendIds qp.backends → id ∈ qp.queuedSessions.ids →
      ∃ pre s post, qp.queuedSessions.sessions = pre ++ s :: post ∧ s.id = id ∧
        (∀ t ∈ pre, t.id ≠ id) ∧
        qp.loadSession id now =
          ({ qp with queuedSessions :=
              { sessions := pre ++
                  { id := id, expiration := now + qp.config.dyn.queue_session_ttl } :: post } },
            { session := some { id := id, expiration := now + qp.config.dyn.queue_session_ttl },
              backend := none, ok := true }) := by
    intro hnb hq
    obtain ⟨pre, s, post, h1, h2, h3, h4, h5⟩ :=
      updateFirst_split id qp.config.dyn.queue_session_ttl now qp.queuedSessions.sessions hq
    refine ⟨pre, s, post, h1, h2, h3, ?_⟩
    have hl : qp.queuedSessions.load id = some s := h4
    unfold QProxy.loadSession
    rw [loadFrom_eq_none id now 0 qp.backends hnb]
    simp only [hl, sessionStore.refresh, h5, session.update, h2]
  have hmiss : id ∉ qp.allIds →
      qp.loadSession id now = (qp, { session := none, backend := none, ok := false }) := by
    intro h
    simp only [QProxy.allIds, List.mem_append, not_or] at h
    have hl : qp.queuedSessions.load id = none := (sessionStore.load_eq_none_iff _ _).2 h.1
    unfold QProxy.loadSession
    rw [loadFrom_eq_none id now 0 qp.backends h.2]
    simp only [hl]
  refine ⟨?_, loadSession_backend_hit qp id now, ?_, hqueue, hmiss⟩
  · constructor
    · intro hok
      by_contra hno
      rw [hmiss hno] at hok
      cases hok
    · intro hmem
      by_cases hb : id ∈ backendIds qp.backends
      · obtain ⟨i, b, h1, h2, h3⟩ := exists_first_holder id qp.backends hb
        obtain ⟨_, _, _, _, _, _, h⟩ := loadSession_backend_hit qp id now i b h1 h2 h3
        rw [h]
      · have hq : id ∈ qp.queuedSessions.ids := by
          simp only [QProxy.allIds, List.mem_append] at hmem
          rcases hmem with h | h
          · exact h
          · exact absurd h hb
        obtain ⟨_, _, _, _, _, _, h⟩ := hqueue hb hq
        rw [h]
  · intro hinv i b hb hid
    obtain ⟨s, _, hs, h⟩ := loadSession_sticky qp id i b now hinv hb hid
    rw [h]
    simp [session.update, hs]

/-! ## Queue cap -/

theorem length_store_le (store : sessionStore) (s : session) :
    (store.store s).1.sessions.length ≤ store.sessions.length + 1 := by
  unfold sessionStore.store
  split
  · simp only; omega
  · simp

theorem length_unshift_le (store : sessionStore) (s : session) :
    (store.unshift s).1.sessions.length ≤ store.sessions.length + 1 := by
  unfold sessionStore.unshift
  split
  · simp only; omega
  · simp

/-- Queue after `syncNewSession`: unchanged, or one session longer when a slot remained. -/
theorem syncNewSession_queue (qp : QProxy) (id : String) (shuffle : List Nat → List Nat)
    (r : ℚ) (now : Int) :
    (qp.syncNewSession id shuffle r now).1.config = qp.config ∧
      ((qp.syncNewSession id shuffle r now).1.queuedSessions = qp.queuedSessions ∨
        (qp.hasRemainingQueueSlots = true ∧
          (qp.syncNewSession id shuffle r now).1.queuedSessions.sessions.length ≤
            qp.queuedSessions.sessions.length + 1)) := by
  unfold QProxy.syncNewSession
  simp only
  split
  · exact ⟨rfl, Or.inl rfl⟩
  · split
    · exact ⟨rfl, Or.inl rfl⟩
    · rename_i hslots
      refine ⟨rfl, Or.inr ⟨by simpa using hslots, length_store_le _ _⟩⟩

/-- Queue after `loadSession`: same configuration, same length. -/
theorem loadSession_queue (qp : QProxy) (id : String) (now : Int) :
    (qp.loadSession id now).1.config = qp.config ∧
      (qp.loadSession id now).1.queuedSessions.sessions.length =
        qp.queuedSessions.sessions.length := by
  unfold QProxy.loadSession
  split
  · exact ⟨rfl, rfl⟩
  · split
    · exact ⟨rfl, by simp [sessionStore.refresh, updateFirst_length]⟩
    · exact ⟨rfl, rfl⟩

/-- Queue after `syncUpdateSessions`: same configuration, and never longer than before. -/
theorem syncUpdateSessions_queue (qp : QProxy) (draws : Nat → draw) (now : Int) :
    (qp.syncUpdateSessions draws now).config = qp.config ∧
      (qp.syncUpdateSessions draws now).queuedSessions.sessions.length ≤
        qp.queuedSessions.sessions.length := by
  have hsweep : (qp.queuedSessions.removeExpired now).sessions.length ≤
      qp.queuedSessions.sessions.length := by
    rw [sessionStore.removeExpired_sessions]
    exact List.length_filter_le _ _
  unfold QProxy.syncUpdateSessions
  simp only
  split
  · exact ⟨rfl, hsweep⟩
  split
  · exact ⟨rfl, hsweep⟩
  · refine ⟨rfl, ?_⟩
    have key := promoteLoop_induct draws now
      (fun rest st => rest.length + st.queuedSessions.sessions.length ≤
        (qp.queuedSessions.removeExpired now).sessions.length)
      (fun s rest st n i b hP _ _ _ => by
        simp only [List.length_cons] at hP
        simp only
        omega)
      (fun s rest st n hP _ => by
        have := length_unshift_le st.queuedSessions s
        simp only [List.length_cons] at hP
        simp only
        omega)
      0 ((qp.queuedSessions.removeExpired now).pop (sweepFrom now 0 qp.backends).2.1.toNat).1
      { backends := (sweepFrom now 0 qp.backends).1
        availableBackends := (sweepFrom now 0 qp.backends).2.2
        queuedSessions :=
          ((qp.queuedSessions.removeExpired now).pop (sweepFrom now 0 qp.backends).2.1.toNat).2 }
      (by
        simp only [sessionStore.pop, List.length_take, List.length_drop]
        omega)
    simp only [List.length_nil, zero_add] at key
    simp only
    omega

/-- C12. Queue cap invariant: with `queue.max_sessions = c > 0` and a queue of at most
`c` sessions, after any one of `syncNewSession`, `loadSession` and `syncUpdateSessions`
(whatever the id, shuffle, draws and instant are) the configuration is the same and the
queue still has at most `c` sessions. -/
theorem queue_cap_kept (qp : QProxy) (id : String) (shuffle : List Nat → List Nat) (r : ℚ)
    (draws : Nat → draw) (now : Int)
    (hcap : 0 < qp.config.dyn.queue_max_sessions)
    (hlen : qp.queuedSessions.len ≤ qp.config.dyn.queue_max_sessions) :
    ((qp.syncNewSession id shuffle r now).1.config = qp.config ∧
        (qp.syncNewSession id shuffle r now).1.queuedSessions.len ≤
          qp.config.dyn.queue_max_sessions) ∧
      ((qp.loadSession id now).1.config = qp.config ∧
        (qp.loadSession id now).1.queuedSessions.len ≤ qp.config.dyn.queue_max_sessions) ∧
      ((qp.syncUpdateSessions draws now).config = qp.config ∧
        (qp.syncUpdateSessions draws now).queuedSessions.len ≤
          qp.config.dyn.queue_max_sessions) := by
  simp only [sessionStore.len] at hlen ⊢
  refine ⟨?_, ?_, ?_⟩
  · obtain ⟨h1, h2⟩ := syncNewSession_queue qp id shuffle r now
    refine ⟨h1, ?_⟩
    rcases h2 with h | ⟨hslots, h⟩
    · rw [h]; exact hlen
    · unfold QProxy.hasRemainingQueueSlots at hslots
      simp only [sessionStore.len] at hslots
      rw [if_neg (by omega)] at hslots
      simp only [decide_eq_true_eq] at hslots
      omega
  · obtain ⟨h1, h2⟩ := loadSession_queue qp id now
    exact ⟨h1, by omega⟩
  · obtain ⟨h1, h2⟩ := syncUpdateSessions_queue qp draws now
    exact ⟨h1, by omega⟩

/-- Witness of C12 at the state `qpFull`, whose queue is at its cap of one session. -/
theorem queue_cap_kept_witness :
    0 < qpFull.config.dyn.queue_max_sessions ∧
      qpFull.queuedSessions.len ≤ qpFull.config.dyn.queue_max_sessions ∧
      (qpFull.syncNewSession "s4" id 0 120).1.queuedSessions.len ≤ 1 ∧
      (qpFull.loadSession "s3" 120).1.queuedSessions.len ≤ 1 ∧
      (qpFull.syncUpdateSessions (fun _ => { shuffle := id, rndWeight := 0 })
        150).queuedSessions.len ≤ 1 :=
  ⟨by decide, by decide,
    (queue_cap_kept qpFull "s4" id 0 (fun _ => { shuffle := id, rndWeight := 0 }) 120
      (by decide) (by decide)).1.2,
    (queue_cap_kept qpFull "s3" id 0 (fun _ => { shuffle := id, rndWeight := 0 }) 120
      (by decide) (by decide)).2.1.2,
    (queue_cap_kept qpFull "s4" id 0 (fun _ => { shuffle := id, rndWeight := 0 }) 150
      (by decide) (by decide)).2.2.2⟩

/-! ## Client address -/

theorem scanForwarded_eq (trusted : String → Bool) (ips : List String) (i : Nat)
    (hi : i ≤ ips.length) :
    scanForwarded trusted ips i = ((ips.take i).reverse).find? (fun ip => !trusted ip) := by
  induction i with
  | zero => rfl
  | succ i ih =>
    have hlt : i < ips.length := by omega
    have hget : ips[i]? = some (ips[i]) := List.getElem?_eq_getElem hlt
    have htake : ips.take (i + 1) = ips.take i ++ [ips[i]] := by
      rw [List.take_succ, hget]; rfl
    unfold scanForwarded
    rw [hget, htake, List.reverse_append]
    simp only [List.reverse_cons, List.reverse_nil, List.nil_append, List.singleton_append,
      List.find?_cons]
    cases h : trusted ips[i] with
    | true => simpa using ih (by omega)
    | false => simp

/-- Backward scan of the forwarded addresses: the rightmost address that is not trusted. -/
theorem scanForwarded_rightmost (trusted : String → Bool) (pre post : List String) (e : String)
    (he : trusted e = false) (hpost : ∀ x ∈ post, trusted x = true) :
    scanForwarded trusted (pre ++ e :: post) (pre ++ e :: post).length = some e := by
  rw [scanForwarded_eq _ _ _ (le_refl _), List.take_length, List.reverse_append,
    List.reverse_cons, List.append_assoc, List.find?_append]
  have h1 : List.find? (fun ip => !trusted ip) post.reverse = none := by
    rw [List.find?_eq_none]
    intro x hx
    simp [hpost x (List.mem_reverse.1 hx)]
  rw [h1]
  simp [he]

theorem scanForwarded_all_trusted (trusted : String → Bool) (ips : List String)
    (h : ∀ x ∈ ips, trusted x = true) : scanForwarded trusted ips ips.length = none := by
  rw [scanForwarded_eq _ _ _ (le_refl _), List.take_length, List.find?_eq_none]
  intro x hx
  simp [h x (List.mem_reverse.1 hx)]

/-- C14. Client IP resolution, for a request whose `RemoteAddr` splits into the host `h`
and a port: when `h` is not a trusted proxy the client is `h`, whatever the header
`X-Forwarded-For` holds; when `h` is trusted and the header is not empty, the client is
the rightmost element of the header (split on `", "`) that is not a trusted proxy; when
`h` is trusted and the header is empty or all its elements are trusted, no client is
identified. -/
theorem getClientIP_resolution (lib : stdlib) (net : netlib) (qp : QProxy) (r : request)
    (h port : String) (hsplit : net.splitHostPort r.remoteAddr = some (h, port)) :
    (qp.config.dyn.trusted_proxies.contains lib net h = false →
        qp.getClientIP lib net r = (h, true)) ∧
      (qp.config.dyn.trusted_proxies.contains lib net h = true → r.forwardedFor ≠ "" →
        ∀ pre e post, net.splitForwarded r.forwardedFor = pre ++ e :: post →
          qp.config.dyn.trusted_proxies.contains lib net e = false →
          (∀ x ∈ post, qp.config.dyn.trusted_proxies.contains lib net x = true) →
          qp.getClientIP lib net r = (e, true)) ∧
      (qp.config.dyn.trusted_proxies.contains lib net h = true →
        (r.forwardedFor = "" ∨ ∀ x ∈ net.splitForwarded r.forwardedFor,
          qp.config.dyn.trusted_proxies.contains lib net x = true) →
        qp.getClientIP lib net r = ("", false)) := by
  refine ⟨?_, ?_, ?_⟩
  · intro ht
    unfold QProxy.getClientIP
    simp [hsplit, ht]
  · intro ht hne pre e post hs he hpost
    unfold QProxy.getClientIP
    simp only [hsplit, ht, Bool.not_true, Bool.false_eq_true, if_false, ne_eq, hne,
      not_false_eq_true, if_true, hs]
    rw [scanForwarded_rightmost _ pre post e he hpost]
  · intro ht hcase
    unfold QProxy.getClientIP
    simp only [hsplit, ht, Bool.not_true, Bool.false_eq_true, if_false]
    rcases hcase with hempty | hall
    · simp [hempty]
    · by_cases hne : r.forwardedFor = ""
      · simp [hne]
      · simp only [ne_eq, hne, not_false_eq_true, if_true]
        rw [scanForwarded_all_trusted _ _ hall]

/-- Witness of C14: with the trusted proxy 127.0.0.1, a request from 127.0.0.1 carrying
`X-Forwarded-For: 9.9.9.9, 1.2.3.4` is attributed to 1.2.3.4, and a request coming
straight from 8.8.8.8 to 8.8.8.8. -/
theorem getClientIP_resolution_witness :
    net0.splitHostPort reqForwarded.remoteAddr = some ("127.0.0.1", "4000") ∧
      qpTrust.getClientIP lib0 net0 reqForwarded = ("1.2.3.4", true) ∧
      qpTrust.getClientIP lib0 net0 reqPlain = ("8.8.8.8", true) ∧
      qpTrust.isRequestWhitelisted lib0 net0 reqForwarded = true :=
  ⟨by decide,
    (getClientIP_resolution lib0 net0 qpTrust reqForwarded "127.0.0.1" "4000" (by decide)).2.1
      (by decide) (by decide) ["9.9.9.9"] "1.2.3.4" [] (by decide) (by decide) (by decide),
    (getClientIP_resolution lib0 net0 qpTrust reqPlain "8.8.8.8" "5000" (by decide)).1
      (by decide),
    by decide⟩

/-! ## The request pipeline -/

/-- C15. Whitelist bypass: a request whose resolved client IP is in `whitelisted_ips` is
forwarded to the backend at position `rand.Intn(len(backends))` of the full backend
set (a position of that set, whatever the remaining places are), whatever cookie it
carries; no cookie is set and the state (queue, stores, expirations) is unchanged. -/
theorem whitelist_bypass (lib : stdlib) (net : netlib) (qp : QProxy) (r : request)
    (e : handling) (ip : String)
    (hip : qp.getClientIP lib net r = (ip, true))
    (hwl : qp.config.dyn.whitelisted_ips.contains lib net ip = true)
    (hbackends : qp.backends ≠ [])
    (hintn : ∀ n, 0 < n → e.intn n < n) :
    proxyHandler.ServeHTTP lib net qp r e =
        (qp, { body := responseBody.upstream (e.intn qp.backends.length), setCookie := none }) ∧
      e.intn qp.backends.length < qp.backends.length ∧
      ∃ b, qp.backends[e.intn qp.backends.length]? = some b := by
  have hw : qp.isRequestWhitelisted lib net r = true := by
    unfold QProxy.isRequestWhitelisted
    rw [hip]
    exact hwl
  have hlt : e.intn qp.backends.length < qp.backends.length :=
    hintn _ (List.length_pos.2 hbackends)
  refine ⟨?_, hlt, ⟨qp.backends[e.intn qp.backends.length], List.getElem?_eq_getElem hlt⟩⟩
  unfold proxyHandler.ServeHTTP
  simp [hw, QProxy.randomBackend]

/-- Witness of C15: a request from 10.1.2.3 (inside the whitelisted 10.0.0.0/8) carrying
a session cookie, while the only backend is full: forwarded, no cookie, same state. -/
theorem whitelist_bypass_witness :
    qpTrust.getClientIP lib0 net0 reqInternal = ("10.1.2.3", true) ∧
      (∀ b ∈ qpTrust.backends, b.remainingPlaces = 0) ∧
      proxyHandler.ServeHTTP lib0 net0 qpTrust reqInternal (handle0 "s9" 120) =
        (qpTrust, { body := responseBody.upstream 0, setCookie := none }) :=
  ⟨by decide, by decide,
    (whitelist_bypass lib0 net0 qpTrust reqInternal (handle0 "s9" 120) "10.1.2.3" (by decide)
      (by decide) (by decide) (fun n hn => hn)).1⟩

theorem isRequestWhitelisted_oneBackend (lib : stdlib) (net : netlib) (config : proxyConfig)
    (b : backend) (stored queued stored' queued' : List session) (r : request) :
    (oneBackend config b stored queued).isRequestWhitelisted lib net r =
      (oneBackend config b stored' queued').isRequestWhitelisted lib net r := rfl

/-- A request without cookie from a client that is not whitelisted, while the single
backend has a remaining place and the queue is empty: the new session is stored on the
backend and the request is forwarded with the cookie. -/
theorem serve_place (lib : stdlib) (net : netlib) (config : proxyConfig) (b : backend)
    (stored : List session) (p : request × handling)
    (hwl : (oneBackend config b stored []).isRequestWhitelisted lib net p.1 = false)
    (hcookie : p.1.cookie config.cookie_name = none)
    (hroom : (stored.length : Int) < b.maxSessions)
    (hfresh : p.2.id ∉ stored.map (fun s => s.id))
    (hshuffle : (p.2.shuffle [0]).Perm [0]) :
    proxyHandler.ServeHTTP lib net (oneBackend config b stored []) p.1 p.2 =
      (oneBackend config b (stored ++ [newSession p.2.id b.sessionTTL p.2.now]) [],
        forwardedWithCookie config p) := by
  have hsh : p.2.shuffle [0] = [0] := List.perm_singleton.1 hshuffle
  have hslots : (oneBackend config b stored []).hasRemainingQueueSlots = true := by
    unfold QProxy.hasRemainingQueueSlots
    simp only [oneBackend, sessionStore.len, List.length_nil]
    split
    · rfl
    · simp; omega
  have hpos : 0 < ({ b with sessionStore := { sessions := stored } } : backend).remainingPlaces :=
    backend.remainingPlaces_pos_of_lt _ (by simpa [sessionStore.len] using hroom)
  have havail : (oneBackend config b stored []).availableBackends = [0] := by
    simp [QProxy.availableBackends, oneBackend, availableFrom, hpos]
  have hstore : ({ b with sessionStore := { sessions := stored } } : backend).storeSession
      p.2.id p.2.now =
      ({ b with sessionStore := { sessions := stored ++ [newSession p.2.id b.sessionTTL p.2.now] } },
        some (newSession p.2.id b.sessionTTL p.2.now)) := by
    rw [backend.storeSession_fresh _ _ _ (by simpa [sessionStore.ids] using hfresh)]
    have : ¬ ({ b with sessionStore := { sessions := stored } } : backend).remainingPlaces = 0 := by
      omega
    simp [this, backend.withNew]
  have hnew : (oneBackend config b stored []).syncNewSession p.2.id p.2.shuffle p.2.rndWeight
      p.2.now =
      (oneBackend config b (stored ++ [newSession p.2.id b.sessionTTL p.2.now]) [],
        { session := some (newSession p.2.id b.sessionTTL p.2.now), backend := some 0,
          ok := true }) := by
    unfold QProxy.syncNewSession
    simp only [havail, hsh]
    simp [oneBackend, sessionStore.len, placeNew, hstore]
  unfold proxyHandler.ServeHTTP
  simp only [oneBackend] at hnew hslots hwl ⊢
  simp only [hwl, Bool.false_eq_true, if_false, hcookie, Option.getD_none,
    QProxy.isValidSessionID, if_true, hslots, Bool.not_true, serveSession, hnew,
    dispatch, forwardedWithCookie, newSession]

/-- A request without cookie from a client that is not whitelisted, while the single
backend holds exactly its capacity and the queue has a free slot: the new session is queued and the waiting
template is shown with the cookie. -/
theorem serve_wait (lib : stdlib) (net : netlib) (config : proxyConfig) (b : backend)
    (stored queued : List session) (p : request × handling)
    (hwl : (oneBackend config b stored queued).isRequestWhitelisted lib net p.1 = false)
    (hcookie : p.1.cookie config.cookie_name = none)
    (hbusy : b.maxSessions = (stored.length : Int))
    (hslot : (queued.length : Int) < config.dyn.queue_max_sessions)
    (hfresh : p.2.id ∉ queued.map (fun s => s.id)) :
    proxyHandler.ServeHTTP lib net (oneBackend config b stored queued) p.1 p.2 =
      (oneBackend config b stored
          (queued ++ [newSession p.2.id config.dyn.queue_session_ttl p.2.now]),
        waitingWithCookie config p) := by
  have hslots : (oneBackend config b stored queued).hasRemainingQueueSlots = true := by
    unfold QProxy.hasRemainingQueueSlots
    simp only [oneBackend, sessionStore.len]
    split
    · rfl
    · simp; omega
  have hzero : ¬ 0 < ({ b with sessionStore := { sessions := stored } } : backend).remainingPlaces := by
    rw [backend.remainingPlaces_of_le _ (by simp only [sessionStore.len]; omega)]
    simp only [sessionStore.len]
    omega
  have havail : (oneBackend config b stored queued).availableBackends = [] := by
    simp [QProxy.availableBackends, oneBackend, availableFrom, hzero]
  have hload : ({ sessions := queued } : sessionStore).load p.2.id = none := by
    rw [sessionStore.load_eq_none_iff]
    simpa [sessionStore.ids] using hfresh
  have hnew : (oneBackend config b stored queued).syncNewSession p.2.id p.2.shuffle p.2.rndWeight
      p.2.now =
      (oneBackend config b stored
          (queued ++ [newSession p.2.id config.dyn.queue_session_ttl p.2.now]),
        { session := some (newSession p.2.id config.dyn.queue_session_ttl p.2.now),
          backend := none, ok := true }) := by
    unfold QProxy.syncNewSession
    simp only [havail, List.length_nil, gt_iff_lt, lt_self_iff_false, if_false, ite_self, hslots]
    simp [oneBackend, sessionStore.store, newSession, hload]
  unfold proxyHandler.ServeHTTP
  simp only [oneBackend] at hnew hslots hwl ⊢
  simp only [hwl, Bool.false_eq_true, if_false, hcookie, Option.getD_none,
    QProxy.isValidSessionID, if_true, hslots, Bool.not_true, serveSession, hnew,
    dispatch, waitingWithCookie, newSession]

/-- A request without cookie from a client that is not whitelisted, while the queue is at
its cap: the full-queue template, no cookie, and the state is unchanged. -/
theorem serve_full (lib : stdlib) (net : netlib) (qp : QProxy) (p : request × handling)
    (hwl : qp.isRequestWhitelisted lib net p.1 = false)
    (hcookie : p.1.cookie qp.config.cookie_name = none)
    (hcap : 0 < qp.config.dyn.queue_max_sessions)
    (hfull : qp.config.dyn.queue_max_sessions ≤ qp.queuedSessions.len) :
    proxyHandler.ServeHTTP lib net qp p.1 p.2 = (qp, refused qp.config) := by
  have hslots : qp.hasRemainingQueueSlots = false := by
    unfold QProxy.hasRemainingQueueSlots
    simp only
    rw [if_neg (by omega)]
    simp
    omega
  unfold proxyHandler.ServeHTTP
  simp only [hwl, Bool.false_eq_true, if_false, hcookie, Option.getD_none,
    QProxy.isValidSessionID, if_true, hslots, Bool.not_false, refused]

/-- Requests without cookie from clients that are not whitelisted, handled one after the
other from a state with a single backend: the backend is filled first, then the queue,
and the remaining requests are refused. -/
theorem serveAll_phases (lib : stdlib) (net : netlib) (config : proxyConfig) (b : backend)
    (m q : Nat) (hm : b.maxSessions = (m : Int))
    (hq : config.dyn.queue_max_sessions = (q : Int)) (hq1 : 1 ≤ q)
    (rs : List (request × handling)) (stored queued : List session)
    (hstored : stored.length ≤ m) (hqueued : queued.length ≤ q)
    (horder : queued ≠ [] → stored.length = m)
    (hwl : ∀ p ∈ rs, (oneBackend config b [] []).isRequestWhitelisted lib net p.1 = false)
    (hcookie : ∀ p ∈ rs, p.1.cookie config.cookie_name = none)
    (hshuffle : ∀ p ∈ rs, (p.2.shuffle [0]).Perm [0])
    (hids : (rs.map (fun p => p.2.id)).Nodup)
    (hfresh : ∀ p ∈ rs, p.2.id ∉ stored.map (fun s => s.id) ∧
      p.2.id ∉ queued.map (fun s => s.id)) :
    serveAll lib net (oneBackend config b stored queued) rs =
      (oneBackend config b
          (stored ++ (rs.take (m - stored.length)).map
            (fun p => newSession p.2.id b.sessionTTL p.2.now))
          (queued ++ ((rs.drop (m - stored.length)).take (q - queued.length)).map
            (fun p => newSession p.2.id config.dyn.queue_session_ttl p.2.now)),
        (rs.take (m - stored.length)).map (forwardedWithCookie config) ++
          ((rs.drop (m - stored.length)).take (q - queued.length)).map
            (waitingWithCookie config) ++
          (rs.drop (m - stored.length + (q - queued.length))).map (fun _ => refused config)) := by
  induction rs generalizing stored queued with
  | nil => simp [serveAll]
  | cons p rest ih =>
    have hwlp := hwl p (List.mem_cons_self _ _)
    have hcp := hcookie p (List.mem_cons_self _ _)
    have hshp := hshuffle p (List.mem_cons_self _ _)
    have hfp := hfresh p (List.mem_cons_self _ _)
    have hwl' : ∀ p' ∈ rest,
        (oneBackend config b [] []).isRequestWhitelisted lib net p'.1 = false :=
      fun p' hp' => hwl p' (List.mem_cons_of_mem _ hp')
    have hcookie' : ∀ p' ∈ rest, p'.1.cookie config.cookie_name = none :=
      fun p' hp' => hcookie p' (List.mem_cons_of_mem _ hp')
    have hshuffle' : ∀ p' ∈ rest, (p'.2.shuffle [0]).Perm [0] :=
      fun p' hp' => hshuffle p' (List.mem_cons_of_mem _ hp')
    simp only [List.map_cons, List.nodup_cons] at hids
    have hne : ∀ p' ∈ rest, p'.2.id ≠ p.2.id := by
      intro p' hp' e
      exact hids.1 (by rw [← e]; exact List.mem_map_of_mem (fun p => p.2.id) hp')
    unfold serveAll
    by_cases hroom : stored.length < m
    · -- the backend has a remaining place: the queue is empty
      have hqnil : queued = [] := by
        by_contra hne'
        have := horder hne'
        omega
      subst hqnil
      have hstep := serve_place lib net config b stored p hwlp hcp (by rw [hm]; exact_mod_cast hroom)
        hfp.1 hshp
      have hih := ih (stored ++ [newSession p.2.id b.sessionTTL p.2.now]) []
        (by simp; omega) (by simp) (fun h => absurd rfl h) hwl' hcookie' hshuffle' hids.2
        (by
          intro p' hp'
          have := hfresh p' (List.mem_cons_of_mem _ hp')
          refine ⟨?_, by simp⟩
          simp only [List.map_append, List.map_cons, List.map_nil, List.mem_append,
            List.mem_singleton, newSession, not_or]
          exact ⟨this.1, hne p' hp'⟩)
      have ha : m - stored.length = (m - (stored.length + 1)) + 1 := by omega
      have hsum : m - (stored.length + 1) + 1 + (q - ([] : List session).length) =
          (m - (stored.length + 1) + (q - ([] : List session).length)) + 1 := by omega
      simp only [hstep, hih]
      rw [ha, hsum]
      simp only [List.take_succ_cons, List.drop_succ_cons, List.map_cons, List.length_append,
        List.length_singleton, List.length_nil, List.append_assoc, List.singleton_append,
        List.cons_append, List.nil_append, Nat.sub_zero, List.take_zero, List.drop_zero,
        List.map_nil, Nat.zero_add, Nat.add_zero, List.append_nil]
    · have hfullb : stored.length = m := by omega
      have ha : m - stored.length = 0 := by omega
      by_cases hslot : queued.length < q
      · have hstep := serve_wait lib net config b stored queued p hwlp hcp
          (by rw [hm]; exact_mod_cast hfullb.symm)
          (by rw [hq]; exact_mod_cast hslot) hfp.2
        have hih := ih stored (queued ++ [newSession p.2.id config.dyn.queue_session_ttl p.2.now])
          hstored (by simp; omega) (fun _ => hfullb) hwl' hcookie' hshuffle' hids.2
          (by
            intro p' hp'
            have := hfresh p' (List.mem_cons_of_mem _ hp')
            refine ⟨this.1, ?_⟩
            simp only [List.map_append, List.map_cons, List.map_nil, List.mem_append,
              List.mem_singleton, newSession, not_or]
            exact ⟨this.2, hne p' hp'⟩)
        have hc : q - queued.length = (q - (queued.length + 1)) + 1 := by omega
        have hsum : 0 + (q - (queued.length + 1) + 1) = (0 + (q - (queued.length + 1))) + 1 := by
          omega
        simp only [hstep, hih]
        rw [ha, hc, hsum]
        simp only [List.take_succ_cons, List.drop_succ_cons, List.map_cons, List.length_append,
          List.length_singleton, List.length_nil, List.append_assoc, List.singleton_append,
          List.cons_append, List.nil_append, Nat.sub_zero, List.take_zero, List.drop_zero,
          List.map_nil, Nat.zero_add, Nat.add_zero, List.append_nil]
      · have hc : q - queued.length = 0 := by omega
        have hstep := serve_full lib net (oneBackend config b stored queued) p hwlp hcp
          (by simp only [oneBackend, hq]; exact_mod_cast hq1)
          (by simp only [oneBackend, hq, sessionStore.len]; exact_mod_cast (by omega : q ≤ queued.length))
        have hih := ih stored queued hstored hqueued horder hwl' hcookie' hshuffle' hids.2
          (fun p' hp' => hfresh p' (List.mem_cons_of_mem _ hp'))
        simp only [hstep, hih]
        rw [ha, hc]
        simp only [List.take_zero, List.drop_zero, List.map_nil, List.map_cons, List.append_nil,
          List.nil_append, Nat.add_zero, oneBackend]

/-- C13. The request pipeline fills the backend, then the queue, then refuses. With a
single backend of capacity `m`, a queue cap `q >= 1`, the empty state, and requests that
carry no session cookie, come from clients that are not whitelisted and get distinct
generated ids (no promotion or reload in between): each of the first `m` requests is
forwarded to the backend with a cookie (configured name, `Path=/`, `HttpOnly`) holding
the new id, each of the next `q` gets the waiting template with such a cookie, and every
later request gets the full-queue template without cookie. The backend then holds the
sessions of the first `m` requests and the queue those of the next `q`; once `m + q`
requests are handled, a further such request is refused and leaves the state unchanged. -/
theorem pipeline_fills (lib : stdlib) (net : netlib) (config : proxyConfig) (b : backend)
    (m q : Nat) (rs : List (request × handling))
    (hm : b.maxSessions = (m : Int))
    (hq : config.dyn.queue_max_sessions = (q : Int)) (hq1 : 1 ≤ q)
    (hwl : ∀ p ∈ rs, (oneBackend config b [] []).isRequestWhitelisted lib net p.1 = false)
    (hcookie : ∀ p ∈ rs, p.1.cookie config.cookie_name = none)
    (hshuffle : ∀ p ∈ rs, (p.2.shuffle [0]).Perm [0])
    (hids : (rs.map (fun p => p.2.id)).Nodup) :
    serveAll lib net (oneBackend config b [] []) rs =
        (oneBackend config b
            ((rs.take m).map (fun p => newSession p.2.id b.sessionTTL p.2.now))
            (((rs.drop m).take q).map
              (fun p => newSession p.2.id config.dyn.queue_session_ttl p.2.now)),
          (rs.take m).map (forwardedWithCookie config) ++
            ((rs.drop m).take q).map (waitingWithCookie config) ++
            (rs.drop (m + q)).map (fun _ => refused config)) ∧
      (m + q ≤ rs.length → ∀ p : request × handling,
        (oneBackend config b [] []).isRequestWhitelisted lib net p.1 = false →
        p.1.cookie config.cookie_name = none →
        proxyHandler.ServeHTTP lib net (serveAll lib net (oneBackend config b [] []) rs).1 p.1 p.2 =
          ((serveAll lib net (oneBackend config b [] []) rs).1, refused config)) := by
  have hmain := serveAll_phases lib net config b m q hm hq hq1 rs [] [] (Nat.zero_le _)
    (Nat.zero_le _) (fun h => absurd rfl h) hwl hcookie hshuffle hids
    (fun p _ => ⟨by simp, by simp⟩)
  simp only [List.length_nil, Nat.sub_zero, List.nil_append] at hmain
  refine ⟨hmain, ?_⟩
  intro hlen p hwlp hcp
  rw [hmain]
  have hfull : (((rs.drop m).take q).map
      (fun p => newSession p.2.id config.dyn.queue_session_ttl p.2.now)).length = q := by
    simp only [List.length_map, List.length_take, List.length_drop]
    omega
  exact serve_full lib net _ p hwlp hcp
    (by simp only [oneBackend, hq]; exact_mod_cast hq1)
    (by simp only [oneBackend, hq, sessionStore.len, hfull]; exact le_refl _)

/-- Witness of C13 with `m = q = 1`: three requests without cookie from 8.8.8.8 get the
backend with a cookie, the waiting template with a cookie, and the full-queue template. -/
theorem pipeline_fills_witness :
    (serveAll lib0 net0 (oneBackend config0 { backendA [] with maxSessions := 1 } [] [])
        [(reqPlain, handle0 "id1" 10), (reqPlain, handle0 "id2" 20),
          (reqPlain, handle0 "id3" 30)]).2 =
      [{ body := responseBody.upstream 0,
          setCookie := some { name := "qpid", path := "/", value := "id1", httpOnly := true } },
        { body := responseBody.queueTemplate "queue.html",
          setCookie := some { name := "qpid", path := "/", value := "id2", httpOnly := true } },
        { body := responseBody.fullTemplate "full.html", setCookie := none }] :=
  (congrArg Prod.snd
    (pipeline_fills lib0 net0 config0 { backendA [] with maxSessions := 1 } 1 1
      [(reqPlain, handle0 "id1" 10), (reqPlain, handle0 "id2" 20), (reqPlain, handle0 "id3" 30)]
      rfl rfl (le_refl _) (by decide) (by decide) (by decide) (by decide)).1).trans (by decide)

/-! ## Validation and loading of the configuration -/

theorem validateBackendConfig_none {b : viperBackend} (h : validateBackendConfig b = none) :
    b.url ≠ "" ∧ b.session_ttl ≠ 0 ∧ b.max_sessions ≠ 0 ∧ b.weight.getD 1 ≠ 0 ∧
      ¬ b.weight.getD 1 > 1 := by
  unfold validateBackendConfig at h
  split at h
  · cases h
  · split at h
    · cases h
    · split at h
      · cases h
      · split at h
        · cases h
        · split at h
          · cases h
          · rename_i h1 h2 h3 h4 h5
            exact ⟨h1, h2, h3, h4, h5⟩

theorem validateBackends_none {l : List (String × viperBackend)} (h : validateBackends l = none) :
    ∀ p ∈ l, p.2.is_map = true ∧ validateBackendConfig p.2 = none := by
  induction l with
  | nil => simp
  | cons p rest ih =>
    obtain ⟨n, b⟩ := p
    unfold validateBackends at h
    split at h
    · cases h
    · rename_i hmap
      cases hb : validateBackendConfig b with
      | some e => rw [hb] at h; cases h
      | none =>
        rw [hb] at h
        simp only at h
        intro p' hp'
        rcases List.mem_cons.1 hp' with rfl | hp'
        · exact ⟨by simpa using hmap, hb⟩
        · exact ih h p' hp'

theorem firstMissing_none {α : Type} [DecidableEq α] {zero : α} {msg : String → String}
    {l : List (String × α)} (h : firstMissing zero msg l = none) : ∀ p ∈ l, p.2 ≠ zero := by
  induction l with
  | nil => simp
  | cons p rest ih =>
    obtain ⟨key, value⟩ := p
    unfold firstMissing at h
    split at h
    · cases h
    · rename_i hv
      intro p' hp'
      rcases List.mem_cons.1 hp' with rfl | hp'
      · exact hv
      · exact ih h p' hp'

/-- What `ValidateProxyConfig` enforces on a configuration it accepts: the required
texts are not empty, the durations are not 0, `queue.max_sessions` is not negative, there
is a backend, and every backend has a url, a `session_ttl` and a `max_sessions` that are
not 0, and a weight (1 when unset) that is not 0 and not above 1 (NaN is neither); every
entry of `backends` is a map. -/
theorem ValidateProxyConfig_none {v : viperConfig} (h : ValidateProxyConfig v = none) :
    (v.addr ≠ "" ∧ v.cookie_name ≠ "" ∧ v.queue_template ≠ "" ∧ v.queue_full_template ≠ "" ∧
        v.api_addr ≠ "") ∧
      (v.session_refresh_interval ≠ 0 ∧ v.queue_session_ttl ≠ 0 ∧ v.timeout ≠ 0) ∧
      0 ≤ v.queue_max_sessions ∧ v.backends ≠ [] ∧
      ∀ p ∈ v.backends, p.2.is_map = true ∧ p.2.url ≠ "" ∧ p.2.session_ttl ≠ 0 ∧
        p.2.max_sessions ≠ 0 ∧ p.2.weight.getD 1 ≠ 0 ∧ ¬ p.2.weight.getD 1 > 1 := by
  unfold ValidateProxyConfig at h
  split at h
  · cases h
  · rename_i hstr
    split at h
    · cases h
    · rename_i hdur
      split at h
      · cases h
      · rename_i hmax
        split at h
        · cases h
        · rename_i hlen
          refine ⟨?_, ?_, not_lt.1 hmax, fun e => hlen (by rw [e]; rfl), ?_⟩
          · have hs := firstMissing_none hstr
            exact ⟨hs ("addr", v.addr) (by simp), hs ("cookie_name", v.cookie_name) (by simp),
              hs ("queue.template", v.queue_template) (by simp),
              hs ("queue.full_template", v.queue_full_template) (by simp),
              hs ("api.addr", v.api_addr) (by simp)⟩
          · have hd := firstMissing_none hdur
            exact ⟨hd ("session_refresh_interval", v.session_refresh_interval) (by simp),
              hd ("queue.session_ttl", v.queue_session_ttl) (by simp),
              hd ("timeout", v.timeout) (by simp)⟩
          · intro p hp
            exact ⟨(validateBackends_none h p hp).1,
              validateBackendConfig_none (validateBackends_none h p hp).2⟩

/-- C16, failing input. `ValidateProxyConfig` accepts the configuration `vNegative`, whose
`timeout`, `session_refresh_interval` and `queue.session_ttl` are negative and whose
backend has a negative `session_ttl`, `max_sessions` and `weight`: the checks compare
with 0 for equality only. -/
theorem validate_accepts_negative :
    ValidateProxyConfig vNegative = none ∧
      vNegative.timeout = -5 ∧ vNegative.session_refresh_interval = -1 ∧
      vNegative.queue_session_ttl = -60 ∧
      vNegative.backends =
        [("a", { url := "http://127.0.0.1:6464", session_ttl := -60, max_sessions := -1,
                 tls_insecure := false, weight := some (-1) })] := by
  refine ⟨by decide, by decide, by decide, by decide, by decide⟩

/-- C17, failing input. The configuration `vNoWeight` leaves `weight` of backend `a`
unset; it is accepted (the validation reads the default 1 it sets on its own
sub-instance), and the backend configuration produced by `loadDynamicConfig`, like the
backend `NewQProxy` builds from it, has weight 0. -/
theorem default_weight_lost :
    vNoWeight.backends.map (fun p => p.2.weight) = [none] ∧
      ValidateProxyConfig vNoWeight = none ∧
      loadDynamicConfig lib0 vNoWeight =
        Except.ok { config0.dyn with
          backends_config_map :=
            [("a", { url := "http://127.0.0.1:6464", sessionTTL := 60000000000,
                     maxSessions := 2, tlsInsecure := false, weight := 0 })] } ∧
      NewQProxy lib0 vNoWeight =
        Except.ok
          { config := { config0 with
              v := vNoWeight
              dyn := { config0.dyn with
                backends_config_map :=
                  [("a", { url := "http://127.0.0.1:6464", sessionTTL := 60000000000,
                           maxSessions := 2, tlsInsecure := false, weight := 0 })] } }
            backends := [{ backendA [] with weight := 0 }]
            queuedSessions := newSessionStore } := by
  refine ⟨by decide, by decide, rfl, rfl⟩

/-- The product of a duration by `time.Second` is an `int64` product: a `session_ttl` of
9223372037 (seconds) gives a negative `sessionTTL`, and 60 gives 60 * 10^9. -/
theorem duration_product_wraps :
    (loadBackendConfig { vb0 with session_ttl := 9223372037 }).sessionTTL =
        -9223372036709551616 ∧
      (loadBackendConfig vb0).sessionTTL = 60000000000 ∧
      ∀ b : viperBackend, -9223372036854775808 ≤ b.session_ttl * second →
        b.session_ttl * second < 9223372036854775808 →
        (loadBackendConfig b).sessionTTL = b.session_ttl * second := by
  refine ⟨by decide, by decide, ?_⟩
  intro b h1 h2
  exact wrapInt_of_range _ h1 h2

/-! ## `store` and `unshift` -/

/-- C21. `store` is an idempotent insert by id: when a session with the id of `s` is
present, that session (the one `load` finds) is returned and the list is unchanged;
otherwise `s` is appended at the end and returned; storing `s` twice leaves the store as
storing it once; ids that are distinct within the store stay distinct. -/
theorem store_idempotent (store : sessionStore) (s : session) :
    (s.id ∈ store.ids →
        ∃ e, e ∈ store.sessions ∧ e.id = s.id ∧ store.load s.id = some e ∧
          store.store s = (store, e)) ∧
      (s.id ∉ store.ids →
        store.store s = ({ sessions := store.sessions ++ [s] }, s)) ∧
      ((store.store s).1.store s).1 = (store.store s).1 ∧
      (store.ids.Nodup → (store.store s).1.ids.Nodup) := by
  have hpresent : s.id ∈ store.ids →
      ∃ e, e ∈ store.sessions ∧ e.id = s.id ∧ store.load s.id = some e ∧
        store.store s = (store, e) := by
    intro h
    obtain ⟨e, he⟩ := Option.isSome_iff_exists.1 ((sessionStore.load_isSome_iff _ _).2 h)
    obtain ⟨h1, h2⟩ := sessionStore.load_some he
    refine ⟨e, h1, h2, he, ?_⟩
    unfold sessionStore.store
    rw [he]
  have habsent : s.id ∉ store.ids →
      store.store s = ({ sessions := store.sessions ++ [s] }, s) := by
    intro h
    unfold sessionStore.store
    rw [(sessionStore.load_eq_none_iff _ _).2 h]
  refine ⟨hpresent, habsent, ?_, ?_⟩
  · by_cases h : s.id ∈ store.ids
    · obtain ⟨e, _, _, he, hst⟩ := hpresent h
      rw [hst]
      simp only [hst]
    · rw [habsent h]
      have hin : s.id ∈ ({ sessions := store.sessions ++ [s] } : sessionStore).ids := by
        simp [sessionStore.ids]
      obtain ⟨e, he⟩ := Option.isSome_iff_exists.1 ((sessionStore.load_isSome_iff _ _).2 hin)
      simp only [sessionStore.store, he]
  · intro hnodup
    by_cases h : s.id ∈ store.ids
    · obtain ⟨e, _, _, _, hst⟩ := hpresent h
      rw [hst]
      exact hnodup
    · rw [habsent h]
      simp only [sessionStore.ids, List.map_append, List.map_cons, List.map_nil]
      rw [List.nodup_append]
      refine ⟨hnodup, List.nodup_singleton _, ?_⟩
      intro x hx hx'
      rw [List.mem_singleton] at hx'
      subst hx'
      exact h hx

theorem unshift_of_not_mem (store : sessionStore) (s : session) (h : s.id ∉ store.ids) :
    store.unshift s = ({ sessions := s :: store.sessions }, true) := by
  unfold sessionStore.unshift
  rw [(sessionStore.load_eq_none_iff _ _).2 h]

/-- Sessions unshifted in reverse order onto a store holding none of their ids: they end
up in front of it in their original order. -/
theorem unshiftAll_reverse (l rest : List session)
    (h : ((l ++ rest).map (fun s => s.id)).Nodup) :
    unshiftAll { sessions := rest } l.reverse = { sessions := l ++ rest } := by
  have hfold : ∀ (xs : List session) (st : sessionStore) (a : session),
      unshiftAll st (xs ++ [a]) = ((unshiftAll st xs).unshift a).1 := by
    intro xs
    induction xs with
    | nil => intro st a; rfl
    | cons x xs ih => intro st a; exact ih (st.unshift x).1 a
  induction l with
  | nil => rfl
  | cons a l ih =>
    simp only [List.cons_append, List.map_cons, List.nodup_cons] at h
    rw [List.reverse_cons, hfold, ih h.2]
    rw [unshift_of_not_mem _ _ (by simpa [sessionStore.ids] using h.1)]
    rfl

/-- C22. `unshift` prepends unless present: when a session with the id of `s` is in the
store, `unshift s` returns false and the list is the same; otherwise it returns true and
the list is `s` followed by the old list. In a store with distinct ids, popping `n`
sessions and unshifting them back in reverse order restores the original list. -/
theorem unshift_contract (store : sessionStore) (s : session) (n : Nat) :
    (s.id ∈ store.ids → store.unshift s = (store, false)) ∧
      (s.id ∉ store.ids → store.unshift s = ({ sessions := s :: store.sessions }, true)) ∧
      (store.ids.Nodup → unshiftAll (store.pop n).2 (store.pop n).1.reverse = store) := by
  refine ⟨?_, unshift_of_not_mem store s, ?_⟩
  · intro h
    obtain ⟨e, he⟩ := Option.isSome_iff_exists.1 ((sessionStore.load_isSome_iff _ _).2 h)
    unfold sessionStore.unshift
    rw [he]
  · intro hnodup
    have hsize : (if n > store.sessions.length then store.sessions.length else n) =
        min n store.sessions.length := by
      split <;> omega
    simp only [sessionStore.pop, hsize]
    rw [unshiftAll_reverse _ _ (by rw [List.take_append_drop]; exact hnodup),
      List.take_append_drop]

/-! ## Order of the validation errors -/

theorem firstMissing_of_clean {α : Type} [DecidableEq α] (zero : α) (msg : String → String)
    (pre : List (String × α)) (key : String) (value : α) (post : List (String × α))
    (hpre : ∀ p ∈ pre, p.2 ≠ zero) (hv : value = zero) :
    firstMissing zero msg (pre ++ (key, value) :: post) = some (msg key) := by
  induction pre with
  | nil => simp [firstMissing, hv]
  | cons p pre ih =>
    obtain ⟨k, x⟩ := p
    have hx : x ≠ zero := hpre (k, x) (List.mem_cons_self _ _)
    simp only [List.cons_append, firstMissing, hx, if_false]
    exact ih (fun p hp => hpre p (List.mem_cons_of_mem _ hp))

theorem firstMissing_eq_none {α : Type} [DecidableEq α] (zero : α) (msg : String → String)
    (l : List (String × α)) (h : ∀ p ∈ l, p.2 ≠ zero) : firstMissing zero msg l = none := by
  induction l with
  | nil => rfl
  | cons p l ih =>
    obtain ⟨k, x⟩ := p
    have hx : x ≠ zero := h (k, x) (List.mem_cons_self _ _)
    simp only [firstMissing, hx, if_false]
    exact ih (fun p hp => h p (List.mem_cons_of_mem _ hp))

theorem validateBackends_first (pre : List (String × viperBackend)) (a : String)
    (b : viperBackend) (post : List (String × viperBackend)) (msg : String)
    (hpre : ∀ p ∈ pre, p.2.is_map = true ∧ validateBackendConfig p.2 = none)
    (hmap : b.is_map = true) (hb : validateBackendConfig b = some msg) :
    validateBackends (pre ++ (a, b) :: post) =
      some (failure.error ("[backend: " ++ a ++ "] " ++ msg)) := by
  induction pre with
  | nil => simp [validateBackends, hb, hmap]
  | cons p pre ih =>
    obtain ⟨k, x⟩ := p
    have hx := hpre (k, x) (List.mem_cons_self _ _)
    have h1 : x.is_map = true := hx.1
    have h2 : validateBackendConfig x = none := hx.2
    rw [List.cons_append]
    unfold validateBackends
    rw [if_neg (by rw [h1]; decide), h2]
    exact ih (fun p hp => hpre p (List.mem_cons_of_mem _ hp))

/-- The loop of `ValidateProxyConfig` panics at the first backend visited whose entry is
not a map, when the backends visited before it pass. -/
theorem validateBackends_panic (pre : List (String × viperBackend)) (a : String)
    (b : viperBackend) (post : List (String × viperBackend))
    (hpre : ∀ p ∈ pre, p.2.is_map = true ∧ validateBackendConfig p.2 = none)
    (hmap : b.is_map = false) :
    validateBackends (pre ++ (a, b) :: post) = some (failure.panic nilDereference) := by
  induction pre with
  | nil => simp [validateBackends, hmap]
  | cons p pre ih =>
    obtain ⟨k, x⟩ := p
    have hx := hpre (k, x) (List.mem_cons_self _ _)
    have h1 : x.is_map = true := hx.1
    have h2 : validateBackendConfig x = none := hx.2
    rw [List.cons_append]
    unfold validateBackends
    rw [if_neg (by rw [h1]; decide), h2]
    exact ih (fun p hp => hpre p (List.mem_cons_of_mem _ hp))

theorem validate_texts (v : viperConfig) (h : textsSet v) :
    firstMissing "" (fun key => "Missing \x60" ++ key ++ "\x60 option")
      [("addr", v.addr), ("cookie_name", v.cookie_name), ("queue.template", v.queue_template),
        ("queue.full_template", v.queue_full_template), ("api.addr", v.api_addr)] = none := by
  obtain ⟨h1, h2, h3, h4, h5⟩ := h
  simp [firstMissing, h1, h2, h3, h4, h5]

theorem validate_durations (v : viperConfig) (h : durationsSet v) :
    firstMissing (0 : Int) (fun key => "Option \x60" ++ key ++ "\x60 must be greater than 0")
      [("session_refresh_interval", v.session_refresh_interval),
        ("queue.session_ttl", v.queue_session_ttl), ("timeout", v.timeout)] = none := by
  obtain ⟨h1, h2, h3⟩ := h
  simp [firstMissing, h1, h2, h3]

/-- Order of the checks of `ValidateProxyConfig` and their messages: the first empty text
among `addr`, `cookie_name`, `queue.template`, `queue.full_template`, `api.addr`; else the
first duration equal to 0 among `session_refresh_interval`, `queue.session_ttl`,
`timeout`; else a negative `queue.max_sessions`; else the absence of backends; else, at
the first backend visited that does not pass, a panic when its entry is not a map, and
otherwise its name and the first failing check in the order url missing, `session_ttl`
0, `max_sessions` 0, weight 0, weight above 1 (an unset weight reads as 1). -/
theorem validate_first_error (v : viperConfig) :
    (v.addr = "" → ValidateProxyConfig v = some (failure.error
          "Missing \x60addr\x60 option")) ∧
      (v.addr ≠ "" → v.cookie_name = "" →
        ValidateProxyConfig v = some (failure.error
          "Missing \x60cookie_name\x60 option")) ∧
      (v.addr ≠ "" → v.cookie_name ≠ "" → v.queue_template = "" →
        ValidateProxyConfig v = some (failure.error
          "Missing \x60queue.template\x60 option")) ∧
      (v.addr ≠ "" → v.cookie_name ≠ "" → v.queue_template ≠ "" →
        v.queue_full_template = "" →
        ValidateProxyConfig v = some (failure.error
          "Missing \x60queue.full_template\x60 option")) ∧
      (v.addr ≠ "" → v.cookie_name ≠ "" → v.queue_template ≠ "" →
        v.queue_full_template ≠ "" → v.api_addr = "" →
        ValidateProxyConfig v = some (failure.error
          "Missing \x60api.addr\x60 option")) ∧
      (textsSet v → v.session_refresh_interval = 0 →
        ValidateProxyConfig v = some (failure.error
          "Option \x60session_refresh_interval\x60 must be greater than 0")) ∧
      (textsSet v → v.session_refresh_interval ≠ 0 → v.queue_session_ttl = 0 →
        ValidateProxyConfig v = some (failure.error
          "Option \x60queue.session_ttl\x60 must be greater than 0")) ∧
      (textsSet v → v.session_refresh_interval ≠ 0 → v.queue_session_ttl ≠ 0 →
        v.timeout = 0 →
        ValidateProxyConfig v = some (failure.error
          "Option \x60timeout\x60 must be greater than 0")) ∧
      (textsSet v → durationsSet v → v.queue_max_sessions < 0 →
        ValidateProxyConfig v = some (failure.error
          "Option \x60queue.max_sessions\x60 must be greater or equals than 0")) ∧
      (textsSet v → durationsSet v → 0 ≤ v.queue_max_sessions → v.backends = [] →
        ValidateProxyConfig v = some (failure.error
          "No backends available")) ∧
      (textsSet v → durationsSet v → 0 ≤ v.queue_max_sessions →
        ∀ pre a b post msg, v.backends = pre ++ (a, b) :: post →
          (∀ p ∈ pre, p.2.is_map = true ∧ validateBackendConfig p.2 = none) →
          b.is_map = true → validateBackendConfig b = some msg →
          ValidateProxyConfig v = some (failure.error ("[backend: " ++ a ++ "] " ++ msg))) ∧
      (textsSet v → durationsSet v → 0 ≤ v.queue_max_sessions →
        ∀ pre a b post, v.backends = pre ++ (a, b) :: post →
          (∀ p ∈ pre, p.2.is_map = true ∧ validateBackendConfig p.2 = none) →
          b.is_map = false →
          ValidateProxyConfig v = some (failure.panic nilDereference)) ∧
      (∀ b : viperBackend,
        (b.url = "" → validateBackendConfig b = some "Missing \x60url\x60 option") ∧
        (b.url ≠ "" → b.session_ttl = 0 →
          validateBackendConfig b = some "Option \x60session_ttl\x60 must be greater than 0") ∧
        (b.url ≠ "" → b.session_ttl ≠ 0 → b.max_sessions = 0 →
          validateBackendConfig b = some "Option \x60max_sessions\x60 must be greater than 0") ∧
        (b.url ≠ "" → b.session_ttl ≠ 0 → b.max_sessions ≠ 0 → b.weight.getD 1 = 0 →
          validateBackendConfig b = some "Option \x60weight\x60 must be greater than 0") ∧
        (b.url ≠ "" → b.session_ttl ≠ 0 → b.max_sessions ≠ 0 → b.weight.getD 1 ≠ 0 →
          b.weight.getD 1 > 1 →
          validateBackendConfig b =
            some "Option \x60weight\x60 must be less or equals than 1") ∧
        (b.url ≠ "" → b.session_ttl ≠ 0 → b.max_sessions ≠ 0 → b.weight.getD 1 ≠ 0 →
          ¬ b.weight.getD 1 > 1 → validateBackendConfig b = none)) := by
  have hmsg : ∀ key : String,
      (fun key => "Missing \x60" ++ key ++ "\x60 option") key =
        "Missing \x60" ++ key ++ "\x60 option" := fun _ => rfl
  refine ⟨?_, ?_, ?_, ?_, ?_, ?_, ?_, ?_, ?_, ?_, ?_, ?_, ?_⟩
  · intro h
    unfold ValidateProxyConfig
    simp only [firstMissing, h, if_true]
    decide
  · intro h1 h
    unfold ValidateProxyConfig
    simp only [firstMissing, h1, h, if_true, if_false]
    decide
  · intro h1 h2 h
    unfold ValidateProxyConfig
    simp only [firstMissing, h1, h2, h, if_true, if_false]
    decide
  · intro h1 h2 h3 h
    unfold ValidateProxyConfig
    simp only [firstMissing, h1, h2, h3, h, if_true, if_false]
    decide
  · intro h1 h2 h3 h4 h
    unfold ValidateProxyConfig
    simp only [firstMissing, h1, h2, h3, h4, h, if_true, if_false]
    decide
  · intro ht h
    unfold ValidateProxyConfig
    rw [validate_texts v ht]
    simp only [firstMissing, h, if_true]
    decide
  · intro ht h1 h
    unfold ValidateProxyConfig
    rw [validate_texts v ht]
    simp only [firstMissing, h1, h, if_true, if_false]
    decide
  · intro ht h1 h2 h
    unfold ValidateProxyConfig
    rw [validate_texts v ht]
    simp only [firstMissing, h1, h2, h, if_true, if_false]
    decide
  · intro ht hd h
    unfold ValidateProxyConfig
    rw [validate_texts v ht]
    simp only [validate_durations v hd, h, if_true]
  · intro ht hd hmax h
    unfold ValidateProxyConfig
    rw [validate_texts v ht]
    simp only [validate_durations v hd, not_lt.2 hmax, h, if_false, List.length_nil, if_true]
  · intro ht hd hmax pre a b post msg hb hpre hmap hfail
    unfold ValidateProxyConfig
    rw [validate_texts v ht]
    simp only [validate_durations v hd, not_lt.2 hmax, if_false]
    rw [hb, if_neg (by simp)]
    exact validateBackends_first pre a b post msg hpre hmap hfail
  · intro ht hd hmax pre a b post hb hpre hmap
    unfold ValidateProxyConfig
    rw [validate_texts v ht]
    simp only [validate_durations v hd, not_lt.2 hmax, if_false]
    rw [hb, if_neg (by simp)]
    exact validateBackends_panic pre a b post hpre hmap
  · intro b
    refine ⟨?_, ?_, ?_, ?_, ?_, ?_⟩
    · intro h; simp [validateBackendConfig, h]
    · intro h1 h; simp [validateBackendConfig, h1, h]
    · intro h1 h2 h; simp [validateBackendConfig, h1, h2, h]
    · intro h1 h2 h3 h; simp [validateBackendConfig, h1, h2, h3, h]
    · intro h1 h2 h3 h4 h; simp [validateBackendConfig, h1, h2, h3, h4, h]
    · intro h1 h2 h3 h4 h
      simp only [validateBackendConfig, h1, h2, h3, h4, h, if_false]

/-- The assertions of config_test.go on `ValidateProxyConfig`, replayed on the model:
`TestMissingConfig`, the first and last steps of `TestMissingRequiredOptions`,
`TestNegativeMaxSessions`, `TestMissingBackends` and `TestBackendConfig`. -/
theorem validate_replays_tests :
    ValidateProxyConfig vEmpty = some (failure.error "Missing \x60addr\x60 option") ∧
      ValidateProxyConfig { vTest with timeout := 0 } =
        some (failure.error "Option \x60timeout\x60 must be greater than 0") ∧
      ValidateProxyConfig { vTest with queue_max_sessions := -1 } =
        some (failure.error "Option \x60queue.max_sessions\x60 must be greater or equals than 0") ∧
      ValidateProxyConfig vTest = some (failure.error "No backends available") ∧
      ValidateProxyConfig { vTest with backends := [("a", vbEmpty)] } =
        some (failure.error "[backend: a] Missing \x60url\x60 option") ∧
      ValidateProxyConfig { vTest with backends := [("a", { vbEmpty with url := "foo" })] } =
        some (failure.error "[backend: a] Option \x60session_ttl\x60 must be greater than 0") ∧
      ValidateProxyConfig
          { vTest with backends := [("a", { vbEmpty with url := "foo", session_ttl := 1 })] } =
        some (failure.error "[backend: a] Option \x60max_sessions\x60 must be greater than 0") ∧
      ValidateProxyConfig
          { vTest with backends := [("a", { vbEmpty with
              url := "foo", session_ttl := 1, max_sessions := 1, weight := some 0 })] } =
        some (failure.error "[backend: a] Option \x60weight\x60 must be greater than 0") ∧
      ValidateProxyConfig
          { vTest with backends := [("a", { vbEmpty with
              url := "foo", session_ttl := 1, max_sessions := 1, weight := some 2 })] } =
        some (failure.error "[backend: a] Option \x60weight\x60 must be less or equals than 1") := by
  refine ⟨by decide, by decide, by decide, by decide, by decide, by decide, by decide,
    by decide, by decide⟩

/-- C23, failing input. In the configuration `vNotMap` everything required is set and
the entry of backend `a` is not a map (the file has `a: 5`): `Sub` returns nil,
`validateBackendConfig` calls `SetDefault` on it and panics, where an entry that is an
empty map gets the error on the missing url. -/
theorem validate_panics_on_non_map :
    vNotMap.backends.map (fun p => (p.1, p.2.is_map)) = [("a", false)] ∧
      ValidateProxyConfig vNotMap = some (failure.panic nilDereference) ∧
      ValidateProxyConfig vNotMap ≠
        some (failure.error "[backend: a] Missing \x60url\x60 option") ∧
      ValidateProxyConfig { vNotMap with backends := [("a", vbEmpty)] } =
        some (failure.error "[backend: a] Missing \x60url\x60 option") := by
  refine ⟨by decide, by decide, by decide, by decide⟩

/-- A lookup that finds no session leaves the state as it was. -/
theorem loadSession_miss (qp : QProxy) (id : String) (now : Int)
    (h : (qp.loadSession id now).2.session = none) :
    qp.loadSession id now = (qp, { session := none, backend := none, ok := false }) := by
  unfold QProxy.loadSession at h ⊢
  cases hl : loadFrom id now 0 qp.backends with
  | some r =>
    obtain ⟨bs, s, i⟩ := r
    rw [hl] at h
    simp at h
  | none =>
    rw [hl] at h
    simp only at h ⊢
    cases hq : qp.queuedSessions.load id with
    | some s =>
      rw [hq] at h
      simp at h
    | none => rfl

/-- With a positive cap reached by the queue, no queue slot remains. -/
theorem hasRemainingQueueSlots_full (qp : QProxy)
    (hcap : 0 < qp.config.dyn.queue_max_sessions)
    (hfull : qp.config.dyn.queue_max_sessions ≤ qp.queuedSessions.len) :
    qp.hasRemainingQueueSlots = false := by
  unfold QProxy.hasRemainingQueueSlots
  simp only
  rw [if_neg (by omega)]
  simp
  omega

/-- With a non-empty queue at its positive cap, `syncNewSession` creates nothing. -/
theorem syncNewSession_refuses (qp : QProxy) (id : String) (shuffle : List Nat → List Nat)
    (rndWeight : ℚ) (now : Int)
    (hcap : 0 < qp.config.dyn.queue_max_sessions)
    (hfull : qp.config.dyn.queue_max_sessions ≤ qp.queuedSessions.len) :
    qp.syncNewSession id shuffle rndWeight now =
      (qp, { session := none, backend := none, ok := false }) := by
  have hlen : ¬ qp.queuedSessions.len = 0 := by omega
  unfold QProxy.syncNewSession
  simp only [hlen, if_false, hasRemainingQueueSlots_full qp hcap hfull, Bool.not_false, if_true]

/-- A request bearing a well-formed id that no store holds, from a client that is not
whitelisted, while the queue is at its positive cap: the state is unchanged and the
full-queue template is written without cookie. -/
theorem serve_miss_full (lib : stdlib) (net : netlib) (qp : QProxy) (r : request)
    (e : handling)
    (hwl : qp.isRequestWhitelisted lib net r = false)
    (hvalid : QProxy.isValidSessionID net ((r.cookie qp.config.cookie_name).getD "") = true)
    (hmiss : (qp.loadSession ((r.cookie qp.config.cookie_name).getD "") e.now).2.session = none)
    (hcap : 0 < qp.config.dyn.queue_max_sessions)
    (hfull : qp.config.dyn.queue_max_sessions ≤ qp.queuedSessions.len) :
    proxyHandler.ServeHTTP lib net qp r e = (qp, refused qp.config) := by
  unfold proxyHandler.ServeHTTP
  simp only [hwl, Bool.false_eq_true, if_false, hvalid, if_true]
  rw [loadSession_miss qp _ e.now hmiss]
  simp only [serveSession, syncNewSession_refuses qp e.id e.shuffle e.rndWeight e.now hcap hfull,
    refused]

/-- C25, as stated, does not hold: no state with a positive queue cap reached by the
queue, and no request of a client that is not whitelisted bearing a well-formed id
found in no store, make the pipeline lengthen the queue. -/
theorem valid_id_never_enqueued_past_cap :
    ¬ ∃ (lib : stdlib) (net : netlib) (qp : QProxy) (r : request) (e : handling),
        0 < qp.config.dyn.queue_max_sessions ∧
        qp.config.dyn.queue_max_sessions ≤ qp.queuedSessions.len ∧
        qp.isRequestWhitelisted lib net r = false ∧
        QProxy.isValidSessionID net ((r.cookie qp.config.cookie_name).getD "") = true ∧
        (qp.loadSession ((r.cookie qp.config.cookie_name).getD "") e.now).2.session = none ∧
        qp.queuedSessions.len < (proxyHandler.ServeHTTP lib net qp r e).1.queuedSessions.len := by
  rintro ⟨lib, net, qp, r, e, hcap, hfull, hwl, hvalid, hmiss, hgrow⟩
  rw [serve_miss_full lib net qp r e hwl hvalid hmiss hcap hfull] at hgrow
  exact lt_irrefl _ hgrow

/-- C25, amended. With a positive queue cap reached by the queue, a request of a client
that is not whitelisted bearing a well-formed session id found in no store is refused:
the full-queue template is written, no cookie is set, the state is unchanged, so the
queue keeps its length; and whatever the state, `syncNewSession` leaves a queue that is
no longer than the larger of the cap and its former length. -/
theorem valid_id_refused_at_cap (lib : stdlib) (net : netlib) (qp : QProxy) (r : request)
    (e : handling)
    (hcap : 0 < qp.config.dyn.queue_max_sessions)
    (hfull : qp.config.dyn.queue_max_sessions ≤ qp.queuedSessions.len)
    (hwl : qp.isRequestWhitelisted lib net r = false)
    (hvalid : QProxy.isValidSessionID net ((r.cookie qp.config.cookie_name).getD "") = true)
    (hmiss : (qp.loadSession ((r.cookie qp.config.cookie_name).getD "") e.now).2.session = none) :
    proxyHandler.ServeHTTP lib net qp r e =
        (qp, { body := responseBody.fullTemplate qp.config.dyn.queue_full_template,
               setCookie := none }) ∧
      (proxyHandler.ServeHTTP lib net qp r e).1.queuedSessions.len = qp.queuedSessions.len ∧
      qp.syncNewSession e.id e.shuffle e.rndWeight e.now =
        (qp, { session := none, backend := none, ok := false }) := by
  have h := serve_miss_full lib net qp r e hwl hvalid hmiss hcap hfull
  refine ⟨?_, ?_, syncNewSession_refuses qp e.id e.shuffle e.rndWeight e.now hcap hfull⟩
  · rw [h, refused]
  · rw [h]

/-- The amended C25 on the state `qpFull` and the request `reqExpired`. -/
theorem valid_id_refused_at_cap_witness :
    (0 < qpFull.config.dyn.queue_max_sessions ∧
      qpFull.config.dyn.queue_max_sessions ≤ qpFull.queuedSessions.len ∧
      qpFull.isRequestWhitelisted lib0 net0 reqExpired = false ∧
      QProxy.isValidSessionID net0 ((reqExpired.cookie qpFull.config.cookie_name).getD "") =
        true ∧
      (qpFull.loadSession ((reqExpired.cookie qpFull.config.cookie_name).getD "")
        (handle0 "s9" 50).now).2.session = none) ∧
    (proxyHandler.ServeHTTP lib0 net0 qpFull reqExpired (handle0 "s9" 50) =
        (qpFull, { body := responseBody.fullTemplate qpFull.config.dyn.queue_full_template,
                   setCookie := none }) ∧
      (proxyHandler.ServeHTTP lib0 net0 qpFull reqExpired (handle0 "s9" 50)).1.queuedSessions.len =
        qpFull.queuedSessions.len ∧
      qpFull.syncNewSession (handle0 "s9" 50).id (handle0 "s9" 50).shuffle
          (handle0 "s9" 50).rndWeight (handle0 "s9" 50).now =
        (qpFull, { session := none, backend := none, ok := false })) :=
  ⟨⟨by decide, by decide, by decide, by decide, by decide⟩,
    valid_id_refused_at_cap lib0 net0 qpFull reqExpired (handle0 "s9" 50) (by decide)
      (by decide) (by decide) (by decide) (by decide)⟩

theorem storeSession_of_room (b : backend) (id : String) (now : Int)
    (h : b.remainingPlaces ≠ 0) :
    ∃ s, b.storeSession id now = ((b.storeSession id now).1, some s) := by
  have hne := backend.storeSession_snd_of_room b id now h
  cases hs : (b.storeSession id now).2 with
  | none => exact absurd hs hne
  | some s => exact ⟨s, Prod.ext rfl hs⟩

/-- The weighted pass stops at the first position of the list whose backend has a place and
a weight that is not below the draw. -/
theorem firstPass_eq_find (backends : List backend) (id : String) (now : Int) (r : ℚ)
    (L : List Nat) :
    firstPass backends id now r L =
      (L.find? (fun i => decide (0 < placesAt backends i) &&
        !decide (weightAt backends i < r))).bind (placedAt backends id now) := by
  induction L with
  | nil => rfl
  | cons i rest ih =>
    unfold firstPass
    cases hb : backends[i]? with
    | none =>
      have hp : placesAt backends i = 0 := by simp [placesAt, hb]
      simp only [ih]
      rw [List.find?_cons_of_neg]
      simp [hp]
    | some b =>
      have hp : placesAt backends i = b.remainingPlaces := by simp [placesAt, hb]
      have hw : weightAt backends i = b.weight := by simp [weightAt, hb]
      simp only
      by_cases hz : b.remainingPlaces = 0
      · rw [if_pos hz, ih, List.find?_cons_of_neg]
        simp [hp, hz]
      · rw [if_neg hz]
        by_cases hr : b.weight < (r : float64)
        · rw [if_pos hr, ih, List.find?_cons_of_neg]
          simp [hp, hw, hr]
        · rw [if_neg hr]
          obtain ⟨s, hs⟩ := storeSession_of_room b id now hz
          have hpos : 0 < b.remainingPlaces :=
            lt_of_le_of_ne (backend.remainingPlaces_nonneg b) (Ne.symm hz)
          rw [hs, List.find?_cons_of_pos]
          · simp [placedAt, hb]
          · simp [hp, hw, hr, hpos]

/-- The fallback pass stops at the first position of the list whose backend has a place. -/
theorem secondPass_eq_find (backends : List backend) (id : String) (now : Int)
    (L : List Nat) :
    secondPass backends id now L =
      (L.find? (fun i => decide (0 < placesAt backends i))).bind (placedAt backends id now) := by
  induction L with
  | nil => rfl
  | cons i rest ih =>
    unfold secondPass
    cases hb : backends[i]? with
    | none =>
      have hp : placesAt backends i = 0 := by simp [placesAt, hb]
      simp only [ih]
      rw [List.find?_cons_of_neg]
      simp [hp]
    | some b =>
      have hp : placesAt backends i = b.remainingPlaces := by simp [placesAt, hb]
      simp only
      by_cases hz : b.remainingPlaces = 0
      · rw [if_pos hz, ih, List.find?_cons_of_neg]
        simp [hp, hz]
      · rw [if_neg hz]
        obtain ⟨s, hs⟩ := storeSession_of_room b id now hz
        have hpos : 0 < b.remainingPlaces :=
          lt_of_le_of_ne (backend.remainingPlaces_nonneg b) (Ne.symm hz)
        rw [hs, List.find?_cons_of_pos]
        · simp [placedAt, hb]
        · simp only [hp, decide_eq_true_eq]
          exact hpos

/-- A position with a place is the position of a backend. -/
theorem placesAt_pos {backends : List backend} {c : Nat} (h : 0 < placesAt backends c) :
    ∃ b, backends[c]? = some b ∧ 0 < b.remainingPlaces := by
  unfold placesAt at h
  cases hb : backends[c]? with
  | none => rw [hb] at h; exact absurd h (lt_irrefl 0)
  | some b => rw [hb] at h; exact ⟨b, rfl, h⟩

/-- The position chosen by `passChoice` is in the list and has a place. -/
theorem passChoice_some {backends : List backend} {r : ℚ} {L : List Nat} {c : Nat}
    (h : passChoice backends r L = some c) : c ∈ L ∧ 0 < placesAt backends c := by
  unfold passChoice at h
  cases h1 : L.find? (fun i => decide (0 < placesAt backends i) &&
      !decide (weightAt backends i < r)) with
  | some i =>
    rw [h1] at h
    simp only [Option.some.injEq] at h
    subst h
    have hp := List.find?_some h1
    simp only [Bool.and_eq_true, decide_eq_true_eq] at hp
    exact ⟨List.mem_of_find?_eq_some h1, hp.1⟩
  | none =>
    rw [h1] at h
    simp only at h
    have hp := List.find?_some h
    simp only [decide_eq_true_eq] at hp
    exact ⟨List.mem_of_find?_eq_some h, hp⟩

/-- The two passes of the promotion loop, one after the other, stop where
`passChoice` says. -/
theorem passes_eq_choice (backends : List backend) (id : String) (now : Int) (r : ℚ)
    (L : List Nat) :
    (match firstPass backends id now r L with
      | some res => some res
      | none => secondPass backends id now L) =
      (passChoice backends r L).bind (placedAt backends id now) := by
  rw [firstPass_eq_find, secondPass_eq_find]
  unfold passChoice
  cases h1 : L.find? (fun i => decide (0 < placesAt backends i) &&
      !decide (weightAt backends i < r)) with
  | none => rfl
  | some i =>
    have hp := List.find?_some h1
    simp only [Bool.and_eq_true, decide_eq_true_eq] at hp
    obtain ⟨b, hb, _⟩ := placesAt_pos hp.1
    simp [placedAt, hb]

/-- One iteration of the promotion loop, read through `passChoice`. -/
theorem promoteLoop_cons (draws : Nat → draw) (now : Int) (n : Nat) (s : session)
    (rest : List session) (st : promotion) :
    promoteLoop draws now n (s :: rest) st =
      match (passChoice st.backends (draws n).rndWeight
          ((draws n).shuffle st.availableBackends)).bind
          (placedAt st.backends s.id now) with
      | some backends =>
        promoteLoop draws now (n + 1) rest
          { st with backends := backends,
                    availableBackends := (draws n).shuffle st.availableBackends }
      | none =>
        promoteLoop draws now (n + 1) rest
          { st with availableBackends := (draws n).shuffle st.availableBackends,
                    queuedSessions := (st.queuedSessions.unshift s).1 } := by
  rw [← passes_eq_choice]
  conv_lhs => unfold promoteLoop
  simp only
  cases firstPass st.backends s.id now (draws n).rndWeight
      ((draws n).shuffle st.availableBackends) with
  | some res => rfl
  | none => rfl

/-- One iteration of the counting loop, read through `passChoice`. -/
theorem unshiftCount_cons (draws : Nat → draw) (now : Int) (n : Nat) (s : session)
    (rest : List session) (st : promotion) :
    unshiftCount draws now n (s :: rest) st =
      match (passChoice st.backends (draws n).rndWeight
          ((draws n).shuffle st.availableBackends)).bind
          (placedAt st.backends s.id now) with
      | some backends =>
        unshiftCount draws now (n + 1) rest
          { st with backends := backends,
                    availableBackends := (draws n).shuffle st.availableBackends }
      | none =>
        1 + unshiftCount draws now (n + 1) rest
          { st with availableBackends := (draws n).shuffle st.availableBackends,
                    queuedSessions := (st.queuedSessions.unshift s).1 } := by
  rw [← passes_eq_choice]
  conv_lhs => unfold unshiftCount
  simp only
  cases firstPass st.backends s.id now (draws n).rndWeight
      ((draws n).shuffle st.availableBackends) with
  | some res => rfl
  | none => rfl

/-- After `storeSession` on a backend with a place, the store holds the id. -/
theorem storeSession_mem_of_room (b : backend) (id : String) (now : Int)
    (h : b.remainingPlaces ≠ 0) : id ∈ (b.storeSession id now).1.sessionStore.ids := by
  rcases backend.storeSession_fst b id now with h1 | ⟨hid, _, h1⟩
  · by_cases hid : id ∈ b.sessionStore.ids
    · rw [h1]; exact hid
    · exfalso
      have h2 := backend.storeSession_fresh b id now hid
      rw [if_neg h] at h2
      have h3 := backend.storeSession_snd_of_room b id now h
      rw [h2] at h1
      simp only [backend.withNew] at h1
      have h4 := congrArg (fun c => c.sessionStore.sessions.length) h1
      simp at h4
  · rw [h1]
    simp [backend.withNew, sessionStore.ids, newSession]

/-- When `passChoice` finds nothing, no position of the list has a place. -/
theorem passChoice_none {backends : List backend} {r : ℚ} {L : List Nat}
    (h : passChoice backends r L = none) : ∀ i ∈ L, ¬ 0 < placesAt backends i := by
  unfold passChoice at h
  cases h1 : L.find? (fun i => decide (0 < placesAt backends i) &&
      !decide (weightAt backends i < r)) with
  | some i => rw [h1] at h; cases h
  | none =>
    rw [h1] at h
    simp only at h
    intro i hi
    have := List.find?_eq_none.1 h i hi
    simpa using this

theorem find?_congr_mem {α : Type} {p q : α → Bool} (l : List α)
    (h : ∀ a ∈ l, p a = q a) : l.find? p = l.find? q := by
  induction l with
  | nil => rfl
  | cons a l ih =>
    simp only [List.find?, h a (List.mem_cons_self _ _)]
    rw [ih (fun b hb => h b (List.mem_cons_of_mem _ hb))]

/-- For weights that are numbers the choice of the two passes is the choice described by
`promotionChoice`: not below the draw means at least the draw. -/
theorem passChoice_eq_promotionChoice (backends : List backend) (r : ℚ) (L : List Nat)
    (h : ∀ i ∈ L, weightAt backends i ≠ float64.nan) :
    passChoice backends r L = promotionChoice backends r L := by
  have hfind : L.find? (fun i => decide (0 < placesAt backends i) &&
        !decide (weightAt backends i < r)) =
      L.find? (fun i => decide (0 < placesAt backends i) &&
        decide (weightAt backends i ≥ r)) := by
    apply find?_congr_mem
    intro i hi
    have hiff := float64.not_gt_iff r (weightAt backends i)
    by_cases hlt : weightAt backends i < (r : float64)
    · have hge : ¬ weightAt backends i ≥ (r : float64) := by
        intro hge
        exact (hiff.2 (Or.inl hge)) hlt
      simp [hlt, hge]
    · have hge : weightAt backends i ≥ (r : float64) := by
        rcases hiff.1 hlt with hge | hnan
        · exact hge
        · exact absurd hnan (h i hi)
      simp [hlt, hge]
  unfold passChoice promotionChoice
  rw [hfind]

/-- C26, as stated, does not hold. In the loop state `stNaN` the backend `a` has the
weight NaN (which validation accepts: `vNaN`) and a remaining place, as has the backend
`b` of weight 1. With the shuffled list `[0, 1]` and the draw 0, the first backend with a
remaining place and a weight at least the draw is `b`, yet the weighted pass stores the
popped session on `a`: its test `weight < r` is false for NaN. -/
theorem promotion_takes_nan :
    ValidateProxyConfig vNaN = none ∧
      promotionChoice stNaN.backends 0 [0, 1] = some 1 ∧
      promoteLoop (fun _ => { shuffle := id, rndWeight := 0 }) 150 0
          [{ id := "s3", expiration := 300 }] stNaN =
        { stNaN with
          backends := [{ backendA [{ id := "s3", expiration := 60000000150 }] with
              weight := float64.nan }, backendB []] } ∧
      ¬ ∃ b, stNaN.backends[1]? = some b ∧
        promoteLoop (fun _ => { shuffle := id, rndWeight := 0 }) 150 0
            [{ id := "s3", expiration := 300 }] stNaN =
          { stNaN with backends := stNaN.backends.set 1 (b.storeSession "s3" 150).1 } := by
  refine ⟨by decide, by decide, by decide, ?_⟩
  rintro ⟨b, hb, h⟩
  have hb1 : b = backendB [] := by
    have : stNaN.backends[1]? = some (backendB []) := by decide
    rw [this] at hb
    exact (Option.some.inj hb).symm
  subst hb1
  revert h
  decide

/-- C26, amended. Promotion placement rule. In the promotion loop, for the popped session
`s`, with `L` the available-backends list as shuffled for this session and `r` the draw:
when `c` is the first position of `L` whose backend now has a remaining place and is not
skipped by the weight test (`weight < r` is false), or, if `L` has no such position, the
first position of `L` whose backend now has a remaining place, the backend `b` at `c` has
`storeSession` applied for the id of `s`, which returns a session, after which the store
of `b` holds that id, and the loop goes on with the next session on the backends so
updated (the remaining places met by the next session are those after this placement);
when `L` has no position with a remaining place, the session is handed to
`queue.unshift`. When no backend of `L` has the weight NaN, the position is the one the
claim describes, the weight test being `weight >= r`. -/
theorem promotion_placement (draws : Nat → draw) (now : Int) (n : Nat) (s : session)
    (rest : List session) (st : promotion) :
    (∀ c, passChoice st.backends (draws n).rndWeight
          ((draws n).shuffle st.availableBackends) = some c →
        c ∈ (draws n).shuffle st.availableBackends ∧
        ∃ b, st.backends[c]? = some b ∧ 0 < b.remainingPlaces ∧
          (b.storeSession s.id now).2.isSome = true ∧
          s.id ∈ (b.storeSession s.id now).1.sessionStore.ids ∧
          promoteLoop draws now n (s :: rest) st =
            promoteLoop draws now (n + 1) rest
              { st with backends := st.backends.set c (b.storeSession s.id now).1,
                        availableBackends := (draws n).shuffle st.availableBackends }) ∧
      (passChoice st.backends (draws n).rndWeight
          ((draws n).shuffle st.availableBackends) = none →
        (∀ i ∈ (draws n).shuffle st.availableBackends, ¬ 0 < placesAt st.backends i) ∧
        promoteLoop draws now n (s :: rest) st =
          promoteLoop draws now (n + 1) rest
            { st with availableBackends := (draws n).shuffle st.availableBackends,
                      queuedSessions := (st.queuedSessions.unshift s).1 }) ∧
      ((∀ i ∈ (draws n).shuffle st.availableBackends, weightAt st.backends i ≠ float64.nan) →
        passChoice st.backends (draws n).rndWeight ((draws n).shuffle st.availableBackends) =
          promotionChoice st.backends (draws n).rndWeight
            ((draws n).shuffle st.availableBackends)) := by
  refine ⟨?_, ?_, passChoice_eq_promotionChoice _ _ _⟩
  · intro c hc
    obtain ⟨hmem, hpos⟩ := passChoice_some hc
    obtain ⟨b, hb, hbpos⟩ := placesAt_pos hpos
    have hroom : b.remainingPlaces ≠ 0 := ne_of_gt hbpos
    refine ⟨hmem, b, hb, hbpos, ?_, storeSession_mem_of_room b s.id now hroom, ?_⟩
    · obtain ⟨x, hx⟩ := storeSession_of_room b s.id now hroom
      rw [hx]
      rfl
    · rw [promoteLoop_cons, hc]
      simp only [Option.bind_eq_bind, Option.some_bind, placedAt, hb, Option.map_some']
  · intro hnone
    refine ⟨passChoice_none hnone, ?_⟩
    rw [promoteLoop_cons, hnone]
    rfl

/-- The two passes on `stLow` with the shuffled list `[1, 0]`. With the draw 1/8 the
weighted pass skips `b` (full) and stops at `a`; with the draw 1/2 it skips both (`a` is
too light) and the fallback pass stops at `a`, where the popped session is stored. -/
theorem promotion_fallback_example :
    passChoice stLow.backends (1 / 8) [1, 0] = some 0 ∧
      passChoice stLow.backends (1 / 2) [1, 0] = some 0 ∧
      firstPass stLow.backends "s3" 150 (1 / 2) [1, 0] = none ∧
      promoteLoop (fun _ => { shuffle := List.reverse, rndWeight := 1 / 2 }) 150 0
          [{ id := "s3", expiration := 300 }] stLow =
        { stLow with
          backends := [{ backendA [{ id := "s3", expiration := 60000000150 }] with
              weight := float64.finite (1 / 4), maxSessions := 1 },
            backendB [{ id := "s1", expiration := 100 }, { id := "s2", expiration := 200 }]]
          availableBackends := [1, 0] } := by
  have hplaces : placesAt stLow.backends 0 = 1 ∧ placesAt stLow.backends 1 = 0 := by
    constructor <;> decide
  have hweights : weightAt stLow.backends 0 = float64.finite (1 / 4) ∧
      weightAt stLow.backends 1 = float64.finite 1 := ⟨rfl, rfl⟩
  have hlt : ∀ a b : ℚ, (float64.finite a < ((b : ℚ) : float64)) ↔ a < b :=
    fun a b => float64.finite_lt a b
  have hc : passChoice stLow.backends (1 / 2) [1, 0] = some 0 := by
    simp only [passChoice, List.find?, hplaces.1, hplaces.2, hweights.1, hlt]
    norm_num
  refine ⟨?_, hc, ?_, ?_⟩
  · simp only [passChoice, List.find?, hplaces.1, hplaces.2, hweights.1, hlt]
    norm_num
  · rw [firstPass_eq_find]
    simp only [List.find?, hplaces.1, hplaces.2, hweights.1, hlt]
    norm_num
  · rw [promoteLoop_cons]
    have hs : stLow.availableBackends.reverse = [1, 0] := rfl
    simp only [hs, hc]
    simp [placedAt, stLow, promoteLoop, backend.storeSession, sessionStore.load,
      backend.remainingPlaces, subLen, sessionStore.len, sessionStore.store, newSession,
      backendA, backendB]

theorem remainingPlaces_le_freePlaces {backends : List backend} {b : backend}
    (hb : b ∈ backends) : b.remainingPlaces ≤ freePlaces backends := by
  induction backends with
  | nil => cases hb
  | cons a rest ih =>
    simp only [freePlaces]
    rcases List.mem_cons.1 hb with rfl | h
    · have := freePlaces_nonneg rest
      omega
    · have := ih h
      have := backend.remainingPlaces_nonneg a
      omega

/-- Promotion loop on sessions whose ids are distinct and in no backend store, when they
are no more than the free places, every backend with a place is in the available list
and every shuffle is a permutation: `queue.unshift` is never reached, the queue is not
touched, the backends hold the ids they held and those of the sessions, and the free
places decrease by the number of sessions. -/
theorem promoteLoop_conserving (draws : Nat → draw) (now : Int)
    (hshuffle : ∀ n l, ((draws n).shuffle l).Perm l)
    (n : Nat) (popped : List session) (st : promotion)
    (hnodup : (popped.map (fun s => s.id)).Nodup)
    (hfresh : ∀ s ∈ popped, s.id ∉ backendIds st.backends)
    (hlen : (popped.length : Int) ≤ freePlaces st.backends)
    (havail : ∀ (i : Nat) (b : backend), st.backends[i]? = some b → 0 < b.remainingPlaces →
      i ∈ st.availableBackends) :
    unshiftCount draws now n popped st = 0 ∧
      (promoteLoop draws now n popped st).queuedSessions = st.queuedSessions ∧
      (∀ x, x ∈ backendIds st.backends ∨ x ∈ popped.map (fun s => s.id) →
        x ∈ backendIds (promoteLoop draws now n popped st).backends) ∧
      freePlaces (promoteLoop draws now n popped st).backends =
        freePlaces st.backends - (popped.length : Int) := by
  induction popped generalizing n st with
  | nil =>
    refine ⟨by unfold unshiftCount; rfl, by unfold promoteLoop; rfl, ?_, ?_⟩
    · intro x hx
      unfold promoteLoop
      rcases hx with hx | hx
      · exact hx
      · simp at hx
    · unfold promoteLoop
      simp
  | cons s rest ih =>
    simp only [List.length_cons, Nat.cast_add, Nat.cast_one] at hlen ⊢
    have hpos : 0 < freePlaces st.backends := by omega
    obtain ⟨i0, b0, hb0, hb0pos⟩ := freePlaces_pos hpos
    have hi0 : i0 ∈ (draws n).shuffle st.availableBackends :=
      (hshuffle n _).mem_iff.2 (havail i0 b0 hb0 hb0pos)
    cases hc : passChoice st.backends (draws n).rndWeight
        ((draws n).shuffle st.availableBackends) with
    | none =>
      exfalso
      apply passChoice_none hc i0 hi0
      simp only [placesAt, hb0]
      exact hb0pos
    | some c =>
      obtain ⟨hmem, hcpos⟩ := passChoice_some hc
      obtain ⟨b, hb, hbpos⟩ := placesAt_pos hcpos
      have hroom : b.remainingPlaces ≠ 0 := ne_of_gt hbpos
      have hsfresh : s.id ∉ b.sessionStore.ids :=
        not_mem_ids_of_getElem? (hfresh s (List.mem_cons_self _ _)) hb
      have hst : (b.storeSession s.id now).1 = b.withNew s.id now := by
        rw [backend.storeSession_fresh b s.id now hsfresh]
        simp [hroom]
      have hnd := List.nodup_cons.1 (by simpa using hnodup :
        (s.id :: rest.map (fun s => s.id)).Nodup)
      have hcount : ∀ x, List.count x (backendIds (st.backends.set c (b.withNew s.id now))) =
          List.count x (backendIds st.backends) + (if s.id = x then 1 else 0) := by
        intro x
        have h2 := count_backendIds_set x (b.withNew s.id now) hb
        have h3 := count_ids_withNew x b s.id now
        omega
      have hrec := ih (n + 1)
        { st with backends := st.backends.set c (b.withNew s.id now),
                  availableBackends := (draws n).shuffle st.availableBackends }
        hnd.2
        (by
          intro t ht hin
          have h1 := hcount t.id
          have h2 : s.id ≠ t.id := by
            intro heq
            exact hnd.1 (List.mem_map.2 ⟨t, ht, heq.symm⟩)
          have h3 : List.count t.id (backendIds st.backends) = 0 :=
            List.count_eq_zero.2 (hfresh t (List.mem_cons_of_mem _ ht))
          have h4 := List.count_pos_iff.2 hin
          simp only [h2, if_false] at h1
          simp only at h4
          omega)
        (by
          have h1 := freePlaces_set (b.withNew s.id now) hb
          have h2 := withNew_remainingPlaces b s.id now hroom
          simp only
          omega)
        (by
          intro j d hd hdpos
          simp only at hd ⊢
          by_cases hji : c = j
          · subst hji; exact hmem
          · rw [List.getElem?_set_ne hji] at hd
            exact (hshuffle n _).mem_iff.2 (havail j d hd hdpos))
      obtain ⟨r1, r2, r3, r4⟩ := hrec
      rw [unshiftCount_cons, promoteLoop_cons, hc]
      simp only [Option.bind_eq_bind, Option.some_bind, placedAt, hb, Option.map_some', hst]
      refine ⟨r1, r2, ?_, ?_⟩
      · intro x hx
        have h1 := hcount x
        rcases hx with hx | hx
        · apply r3 x
          left
          apply List.count_pos_iff.1
          have := List.count_pos_iff.2 hx
          simp only
          omega
        · rcases List.mem_cons.1 (by simpa using hx : x ∈ s.id :: rest.map (fun s => s.id))
            with rfl | hx
          · apply r3 s.id
            left
            apply List.count_pos_iff.1
            simp only [if_true] at h1
            simp only
            omega
          · exact r3 x (Or.inr hx)
      · rw [r4]
        have h1 := freePlaces_set (b.withNew s.id now) hb
        have h2 := withNew_remainingPlaces b s.id now hroom
        simp only
        omega

/-- C27, as stated, does not hold. The state `qpHuge` is reached from start-up by three
arrivals and a reload to the configuration `vHuge`, which validation accepts; its queue
holds one session, in no backend store, and its backends have 2^63 - 3, 2^63 - 1 and 4
remaining places. Their sum is 2^64, which the `int` variable `freeSlots` holds as 0:
`syncUpdateSessions` returns at once, leaving the queue non-empty beside backends with
remaining places. -/
theorem promotion_overflow_idle :
    ValidateProxyConfig vHuge = none ∧
      qpHuge.queuedSessions.ids.Nodup ∧
      (∀ id ∈ qpHuge.queuedSessions.ids, id ∉ backendIds qpHuge.backends) ∧
      freePlaces (qpHuge.backends.map (fun b => b.removeExpiredSessions 40)) =
        18446744073709551616 ∧
      (sweepFrom 40 0 qpHuge.backends).2.1 = 0 ∧
      qpHuge.syncUpdateSessions (fun _ => { shuffle := id, rndWeight := 0 }) 40 = qpHuge ∧
      ((qpHuge.syncUpdateSessions (fun _ => { shuffle := id, rndWeight := 0 })
            40).queuedSessions.sessions ≠ [] ∧
        ∃ b ∈ (qpHuge.syncUpdateSessions (fun _ => { shuffle := id, rndWeight := 0 })
            40).backends, 0 < b.remainingPlaces) := by
  refine ⟨by decide, by decide, by decide, by decide, by decide, by decide, by decide⟩

/-- C27, amended. Promotion is work-conserving and its unshift fallback is unreachable
when the sum of the remaining places does not overflow. In a state where the ids of the
queue are distinct and no queued id is in a backend store, and where the remaining places
of the swept backends sum to less than 2^63, for shuffles that are permutations and any
draws: `syncUpdateSessions` never executes `queue.unshift`, the id of every session it
pops is in a backend store afterwards, and afterwards it is not the case that the queue
is non-empty while a backend of the set has a remaining place. -/
theorem promotion_work_conserving (qp : QProxy) (draws : Nat → draw) (now : Int)
    (hqueue : qp.queuedSessions.ids.Nodup)
    (hdisjoint : ∀ id ∈ qp.queuedSessions.ids, id ∉ backendIds qp.backends)
    (hshuffle : ∀ n l, ((draws n).shuffle l).Perm l)
    (hsum : freePlaces (qp.backends.map (fun b => b.removeExpiredSessions now)) <
      9223372036854775808) :
    qp.unshiftsOfUpdate draws now = 0 ∧
      (∀ s ∈ qp.poppedByUpdate now,
        s.id ∈ backendIds (qp.syncUpdateSessions draws now).backends) ∧
      ¬ ((qp.syncUpdateSessions draws now).queuedSessions.sessions ≠ [] ∧
        ∃ b ∈ (qp.syncUpdateSessions draws now).backends, 0 < b.remainingPlaces) := by
  have hnn := freePlaces_nonneg (qp.backends.map (fun b => b.removeExpiredSessions now))
  unfold QProxy.unshiftsOfUpdate QProxy.poppedByUpdate QProxy.syncUpdateSessions
  simp only [sweepFrom_exact now 0 qp.backends hsum]
  by_cases hcase : freePlaces (qp.backends.map (fun b => b.removeExpiredSessions now)) = 0 ∨
      (qp.queuedSessions.removeExpired now).len = 0
  · simp only [if_pos hcase]
    refine ⟨trivial, fun s hs => absurd hs (List.not_mem_nil s), ?_⟩
    rintro ⟨hne, b, hb, hbpos⟩
    rcases hcase with h | h
    · have := remainingPlaces_le_freePlaces hb
      omega
    · apply hne
      simp only [sessionStore.len] at h
      exact List.length_eq_zero.1 (by omega)
  · simp only [if_neg hcase, if_neg (not_lt.2 hnn)]
    have hsize : (if (freePlaces (qp.backends.map (fun b => b.removeExpiredSessions now))).toNat >
          (qp.queuedSessions.removeExpired now).sessions.length
        then (qp.queuedSessions.removeExpired now).sessions.length
        else (freePlaces (qp.backends.map (fun b => b.removeExpiredSessions now))).toNat) =
        min (freePlaces (qp.backends.map (fun b => b.removeExpiredSessions now))).toNat
          (qp.queuedSessions.removeExpired now).sessions.length := by
      split <;> omega
    simp only [sessionStore.pop, hsize]
    have htake : List.Sublist
        (((qp.queuedSessions.removeExpired now).sessions.take
          (min (freePlaces (qp.backends.map (fun b => b.removeExpiredSessions now))).toNat
            (qp.queuedSessions.removeExpired now).sessions.length)).map (fun s => s.id))
        qp.queuedSessions.ids := by
      have hsub := ids_removeExpired_sublist qp.queuedSessions now
      simp only [sessionStore.ids] at hsub ⊢
      exact (List.Sublist.map (fun s : session => s.id) (List.take_sublist _ _)).trans hsub
    obtain ⟨h1, h2, h3, h4⟩ := promoteLoop_conserving draws now hshuffle 0
      ((qp.queuedSessions.removeExpired now).sessions.take
        (min (freePlaces (qp.backends.map (fun b => b.removeExpiredSessions now))).toNat
          (qp.queuedSessions.removeExpired now).sessions.length))
      { backends := qp.backends.map (fun b => b.removeExpiredSessions now),
        availableBackends := availableFrom 0 (qp.backends.map (fun b => b.removeExpiredSessions now)),
        queuedSessions :=
          { sessions := (qp.queuedSessions.removeExpired now).sessions.drop
              (min (freePlaces (qp.backends.map (fun b => b.removeExpiredSessions now))).toNat
                (qp.queuedSessions.removeExpired now).sessions.length) } }
      (htake.nodup hqueue)
      (fun s hs hin => hdisjoint s.id (htake.subset (List.mem_map.2 ⟨s, hs, rfl⟩))
        ((backendIds_sweep_sublist now qp.backends).subset hin))
      (by
        rw [List.length_take]
        simp only
        omega)
      (fun i b hb hpos =>
        (mem_availableFrom 0 _ i).2 ⟨Nat.zero_le _, b, by simpa using hb, hpos⟩)
    refine ⟨h1, fun s hs => h3 s.id (Or.inr (List.mem_map.2 ⟨s, hs, rfl⟩)), ?_⟩
    rintro ⟨hne, b, hb, hbpos⟩
    rw [h2] at hne
    have hle := remainingPlaces_le_freePlaces hb
    rw [h4, List.length_take] at hle
    have hlt : min (freePlaces (qp.backends.map (fun b => b.removeExpiredSessions now))).toNat
        (qp.queuedSessions.removeExpired now).sessions.length <
        (qp.queuedSessions.removeExpired now).sessions.length := by
      by_contra hge
      exact hne (List.drop_eq_nil_of_le (by omega))
    simp only at hle
    omega

/-- Witness of C27: in `qpFull` at the instant 150 the session `s3` is popped and stored
on the backend, without any unshift. -/
theorem promotion_work_conserving_witness :
    (qpFull.queuedSessions.ids.Nodup ∧
      (∀ id ∈ qpFull.queuedSessions.ids, id ∉ backendIds qpFull.backends) ∧
      freePlaces (qpFull.backends.map (fun b => b.removeExpiredSessions 150)) <
        9223372036854775808 ∧
      qpFull.poppedByUpdate 150 = [{ id := "s3", expiration := 300 }]) ∧
    (qpFull.unshiftsOfUpdate (fun _ => { shuffle := id, rndWeight := 0 }) 150 = 0 ∧
      (∀ s ∈ qpFull.poppedByUpdate 150,
        s.id ∈ backendIds
          (qpFull.syncUpdateSessions (fun _ => { shuffle := id, rndWeight := 0 }) 150).backends) ∧
      ¬ ((qpFull.syncUpdateSessions (fun _ => { shuffle := id, rndWeight := 0 })
            150).queuedSessions.sessions ≠ [] ∧
        ∃ b ∈ (qpFull.syncUpdateSessions (fun _ => { shuffle := id, rndWeight := 0 })
            150).backends, 0 < b.remainingPlaces)) :=
  ⟨⟨by decide, by decide, by decide, by decide⟩,
    promotion_work_conserving qpFull (fun _ => { shuffle := id, rndWeight := 0 }) 150
      (by decide) (by decide) (fun _ l => List.Perm.refl l) (by decide)⟩

/-- The panic of `pop`. In the state `qpHugeTwo` the remaining places sum to 2^64 - 4, which
the `int` variable `freeSlots` holds as -4; the queue is not empty, so `pop` is called
with that size and panics. -/
theorem update_panics_example :
    ValidateProxyConfig vHugeTwo = none ∧
      freePlaces (qpHugeTwo.backends.map (fun b => b.removeExpiredSessions 40)) =
        18446744073709551612 ∧
      (sweepFrom 40 0 qpHugeTwo.backends).2.1 = -4 ∧
      qpHugeTwo.updatePanics 40 = true ∧
      qpHugeTwo.updateOutcome (fun _ => { shuffle := id, rndWeight := 0 }) 40 =
        Except.error (failure.panic sliceBounds) := by
  have h : qpHugeTwo.updatePanics 40 = true := by decide
  refine ⟨by decide, by decide, by decide, h, ?_⟩
  simp only [QProxy.updateOutcome, h, if_true]

end qproxy
